import Mathlib

/-!
# GPUSPH oriented box (`Cube`), still-water arrays and buffer flags: a
shallow embedding of `src/Cube.cc`, of `StillWater::copy_to_array`
(`src/StillWater.cc`) and of the flags of `src/define_buffers.h`

Conventions of the embedding.

* A C++ `double` is an element of a linearly ordered field `K`: every
  statement below is a statement of exact arithmetic, rounding is not
  modelled. With `K = ℚ` the definitions evaluate; with `K = ℝ` the library
  routines can be the real square root and arc cosine.
* A C++ `int` is a mathematical integer (`ℤ`); the cast `(int) x` is
  truncation toward zero (`truncToInt`).
* A quotient `a / 0` is `0` in `K`, where the machine gives an infinity or a
  NaN: a statement that needs a divisor to be non-zero says so. Where a
  division by zero is the subject, the division is `quotient` (`none` on a
  zero divisor) and the fill is run with it (`FillChecked`,
  `InnerFillChecked`).
* A buffer flag is a natural number below `2 ^ w`, `w` the width of the flag
  word; `<< 1` and `- 1` on it are modulo `2 ^ w`.
* A `uint` held in a connectivity triple is a natural number below `2 ^ 32`,
  and `+=` on it is addition modulo `2 ^ 32`; container sizes and loop
  counters are natural numbers.
* A `PointVect` (`std::vector<Point>`) is a `List (Point K)`; `push_back`
  appends at the end. An array addressed through a pointer is a map from the
  index to the entry.
* A member function that writes to the object returns the new object next
  to its result.
* `Point`, `Vector`, `EulerParameters`, `Rect`, the ODE routines and the
  routines of the simulation framework are declared outside the sources;
  what the sources need of them is modelled below or is a parameter
  (`Routines`, `RectFiller`, `ProblemRoutines`); the calls `Cube.cc` makes
  to create a rigid body are kept as the list of the calls (`ODECall`).
-/

namespace GPUSPH

/-! ## Points, vectors, rotation matrices -/

/-- Modelled from the spec: the `Point` type of the vector collaborator
(`Point.h` is not part of the sources). Three coordinates and a fourth
component, the one `Cube.cc` addresses as `m_origin(3)`, `m_center(3)`. -/
structure Point (K : Type) where
  x : K
  y : K
  z : K
  w : K
  deriving DecidableEq

/-- Modelled from the spec: the `Vector` type of the vector collaborator
(`Vector.h` is not part of the sources), a 3D vector. -/
structure Vector (K : Type) where
  x : K
  y : K
  z : K
  deriving DecidableEq

/-- Modelled from the spec: a rotation matrix (`dMatrix3` of the rigid-body
collaborator, or the matrix an `EulerParameters` holds after `ComputeRot`),
stored by rows; `mIJ` is the entry of row `I`, column `J`. -/
structure Mat3 (K : Type) where
  m00 : K
  m01 : K
  m02 : K
  m10 : K
  m11 : K
  m12 : K
  m20 : K
  m21 : K
  m22 : K
  deriving DecidableEq

variable {K : Type} [LinearOrderedField K]

namespace Vector

/-- Modelled from the spec: `Vector + Vector`. -/
def add (u v : Vector K) : Vector K := ⟨u.x + v.x, u.y + v.y, u.z + v.z⟩

/-- Modelled from the spec: unary minus of a `Vector`. -/
def neg (v : Vector K) : Vector K := ⟨-v.x, -v.y, -v.z⟩

/-- Modelled from the spec: `double * Vector`. -/
def smul (a : K) (v : Vector K) : Vector K := ⟨a * v.x, a * v.y, a * v.z⟩

/-- Modelled from the spec: `Vector / double`. -/
def sdiv (v : Vector K) (a : K) : Vector K := ⟨v.x / a, v.y / a, v.z / a⟩

/-- Modelled from the spec: `Vector * Vector`, the dot product. -/
def dot (u v : Vector K) : K := u.x * v.x + u.y * v.y + u.z * v.z

/-- Modelled from the spec: `Vector::Rot`, "rotate by orientation": the
matrix applied to the vector. -/
def Rot (v : Vector K) (r : Mat3 K) : Vector K :=
  ⟨r.m00 * v.x + r.m01 * v.y + r.m02 * v.z,
   r.m10 * v.x + r.m11 * v.y + r.m12 * v.z,
   r.m20 * v.x + r.m21 * v.y + r.m22 * v.z⟩

/-- Modelled from the spec: `Vector::TransposeRot`, "rotate by inverse
orientation": the transposed matrix applied to the vector. -/
def TransposeRot (v : Vector K) (r : Mat3 K) : Vector K :=
  ⟨r.m00 * v.x + r.m10 * v.y + r.m20 * v.z,
   r.m01 * v.x + r.m11 * v.y + r.m21 * v.z,
   r.m02 * v.x + r.m12 * v.y + r.m22 * v.z⟩

instance : Add (Vector K) := ⟨add⟩
instance : Neg (Vector K) := ⟨neg⟩
instance : HMul K (Vector K) (Vector K) := ⟨smul⟩
instance : HDiv (Vector K) K (Vector K) := ⟨sdiv⟩

end Vector

namespace Point

/-- Modelled from the spec: `Point + Vector`: the coordinates are
translated, the fourth component is the point's. -/
def addVec (p : Point K) (v : Vector K) : Point K := ⟨p.x + v.x, p.y + v.y, p.z + v.z, p.w⟩

/-- Modelled from the spec: `Point - Point`, the vector between them. -/
def sub (p q : Point K) : Vector K := ⟨p.x - q.x, p.y - q.y, p.z - q.z⟩

instance : HAdd (Point K) (Vector K) (Point K) := ⟨addVec⟩
instance : HSub (Point K) (Point K) (Vector K) := ⟨sub⟩

end Point

/-- The identity rotation matrix. -/
def Mat3.identity : Mat3 K := ⟨1, 0, 0, 0, 1, 0, 0, 0, 1⟩

/-- The columns of the matrix are orthonormal (`Rᵀ R = 1`): the matrix
preserves lengths and angles. -/
def Mat3.Orthonormal (r : Mat3 K) : Prop :=
  r.m00 * r.m00 + r.m10 * r.m10 + r.m20 * r.m20 = 1 ∧
  r.m01 * r.m01 + r.m11 * r.m11 + r.m21 * r.m21 = 1 ∧
  r.m02 * r.m02 + r.m12 * r.m12 + r.m22 * r.m22 = 1 ∧
  r.m00 * r.m01 + r.m10 * r.m11 + r.m20 * r.m21 = 0 ∧
  r.m00 * r.m02 + r.m10 * r.m12 + r.m20 * r.m22 = 0 ∧
  r.m01 * r.m02 + r.m11 * r.m12 + r.m21 * r.m22 = 0

/-- The determinant of the matrix. -/
def Mat3.det (r : Mat3 K) : K :=
  r.m00 * (r.m11 * r.m22 - r.m12 * r.m21) - r.m01 * (r.m10 * r.m22 - r.m12 * r.m20)
    + r.m02 * (r.m10 * r.m21 - r.m11 * r.m20)

/-- A proper rotation: orthonormal columns and determinant `+1`. -/
def Mat3.IsRotation (r : Mat3 K) : Prop := r.Orthonormal ∧ r.det = 1

/-- The trace of the matrix. -/
def Mat3.trace (r : Mat3 K) : K := r.m00 + r.m11 + r.m22

/-- The rotation about the unit axis `a` by the angle of cosine `c` and sine
`s` (Rodrigues' formula), which is what ODE's `dRFromAxisAndAngle` documents
that it computes. -/
def axisAngleMatrix (a : Vector K) (c s : K) : Mat3 K :=
  ⟨c + (1 - c) * a.x * a.x, (1 - c) * a.x * a.y - s * a.z, (1 - c) * a.x * a.z + s * a.y,
   (1 - c) * a.y * a.x + s * a.z, c + (1 - c) * a.y * a.y, (1 - c) * a.y * a.z - s * a.x,
   (1 - c) * a.z * a.x - s * a.y, (1 - c) * a.z * a.y + s * a.x, c + (1 - c) * a.z * a.z⟩

/-- The triple product `(u × v) · w`: positive for a right-handed triple. -/
def Vector.triple (u v w : Vector K) : K :=
  (u.y * v.z - u.z * v.y) * w.x + (u.z * v.x - u.x * v.z) * w.y
    + (u.x * v.y - u.y * v.x) * w.z


/-! ## The box -/

/-- Modelled from the spec: the Euler-parameter orientation of the rotation
collaborator (`EulerParameters.h` is not part of the sources): its four
parameters and the rotation matrix `ComputeRot` fills in. -/
structure EulerParameters (K : Type) where
  q0 : K
  q1 : K
  q2 : K
  q3 : K
  m_rot : Mat3 K
  deriving DecidableEq

/-- Modelled from the spec: `EulerParameters::Rot`, the orientation applied
to a vector. -/
def EulerParameters.Rot (ep : EulerParameters K) (v : Vector K) : Vector K := v.Rot ep.m_rot

/-- The data members of `Cube` (and of its base `Object`) that `Cube.cc`
reads or writes. -/
structure Cube (K : Type) where
  m_origin : Point K
  m_vx : Vector K
  m_vy : Vector K
  m_vz : Vector K
  m_lx : K
  m_ly : K
  m_lz : K
  m_center : Point K
  m_ep : EulerParameters K
  m_ODERot : Mat3 K
  m_mass : K
  m_inertia : K × K × K
  deriving DecidableEq

/-- The routines `Cube.cc` calls that are defined outside the repository
(the C library and the ODE library) or outside its sources
(`EulerParameters::ComputeRot`); they are parameters of the embedding.
`abs` is the function the unqualified call `abs(x)` on a `double` resolves
to, which the headers in scope decide. -/
structure Routines (K : Type) where
  abs : K → K
  sqrt : K → K
  acos : K → K
  pi : K
  dRFromAxisAndAngle : K → K → K → K → Mat3 K
  dQtoR : K × K × K × K → Mat3 K
  ComputeRot : EulerParameters K → EulerParameters K

/-- The library's square root is exact at `x`. -/
def Routines.SqrtAt (rt : Routines K) (x : K) : Prop :=
  0 ≤ rt.sqrt x ∧ rt.sqrt x * rt.sqrt x = x

/-- The rotation matrix of a unit quaternion `(q0, q1, q2, q3)`, scalar part
first, as ODE's `dQtoR` documents it. -/
def quaternionMatrix (q : K × K × K × K) : Mat3 K :=
  ⟨1 - 2 * (q.2.2.1 * q.2.2.1 + q.2.2.2 * q.2.2.2),
   2 * (q.2.1 * q.2.2.1 - q.1 * q.2.2.2),
   2 * (q.2.1 * q.2.2.2 + q.1 * q.2.2.1),
   2 * (q.2.1 * q.2.2.1 + q.1 * q.2.2.2),
   1 - 2 * (q.2.1 * q.2.1 + q.2.2.2 * q.2.2.2),
   2 * (q.2.2.1 * q.2.2.2 - q.1 * q.2.1),
   2 * (q.2.1 * q.2.2.2 - q.1 * q.2.2.1),
   2 * (q.2.2.1 * q.2.2.2 + q.1 * q.2.1),
   1 - 2 * (q.2.1 * q.2.1 + q.2.2.1 * q.2.2.1)⟩

/-- Library routines over `ℚ` on which the examples are evaluated: the
square root is exact at 0, 1, 4, 9 and 16, the angles are the right angles
(`22/7` stands for `M_PI`, `11/7` for a quarter turn), at which the arc
cosine and the rotation about an axis are exact. -/
def sampleRoutines : Routines ℚ :=
  { abs := fun x => |x|
    sqrt := fun x =>
      if x = 0 then 0 else if x = 4 then 2 else if x = 9 then 3 else if x = 16 then 4 else 1
    acos := fun c => if 1 ≤ c then 0 else if c ≤ -1 then 22 / 7 else 11 / 7
    pi := 22 / 7
    dRFromAxisAndAngle := fun ax ay az angle =>
      if angle = 0 then axisAngleMatrix ⟨ax, ay, az⟩ 1 0
      else if angle = 22 / 7 then axisAngleMatrix ⟨ax, ay, az⟩ (-1) 0
      else axisAngleMatrix ⟨ax, ay, az⟩ 0 1
    dQtoR := quaternionMatrix
    ComputeRot := fun ep => { ep with m_rot := quaternionMatrix (ep.q0, ep.q1, ep.q2, ep.q3) } }

/-- Modelled from the spec: `Vector::norm`, the Euclidean norm, the square
root being the library's. -/
def Vector.norm (rt : Routines K) (v : Vector K) : K := rt.sqrt (v.dot v)

/-- The cast `(int) x` of a `double`: truncation toward zero. -/
def truncToInt [FloorRing K] (q : K) : ℤ := if 0 ≤ q then ⌊q⌋ else ⌈q⌉

namespace Cube

/-- `Cube::Cube(origin, lx, ly, lz, ep)` (Cube.cc 43-60). `base` holds the
members as they are when the constructor body starts; the body leaves the
ones it does not assign as they are. -/
def ofEulerParameters (rt : Routines K) (base : Cube K) (origin : Point K) (lx ly lz : K)
    (ep : EulerParameters K) : Cube K :=
  let m_ep := rt.ComputeRot ep
  { base with
    m_origin := origin
    m_ep := m_ep
    m_lx := lx
    m_ly := ly
    m_lz := lz
    m_vx := lx * m_ep.Rot ⟨1, 0, 0⟩
    m_vy := ly * m_ep.Rot ⟨0, 1, 0⟩
    m_vz := lz * m_ep.Rot ⟨0, 0, 1⟩
    m_center := origin + (1 / 2 : K) * m_ep.Rot ⟨lx, ly, lz⟩ }

/-- `Cube::Cube(origin, lx, ly, lz, quat)` (Cube.cc 63-80). -/
def ofQuaternion (rt : Routines K) (base : Cube K) (origin : Point K) (lx ly lz : K)
    (quat : K × K × K × K) : Cube K :=
  let m_ODERot := rt.dQtoR quat
  { base with
    m_origin := origin
    m_ODERot := m_ODERot
    m_lx := lx
    m_ly := ly
    m_lz := lz
    m_vx := lx * (⟨1, 0, 0⟩ : Vector K).Rot m_ODERot
    m_vy := ly * (⟨0, 1, 0⟩ : Vector K).Rot m_ODERot
    m_vz := lz * (⟨0, 0, 1⟩ : Vector K).Rot m_ODERot
    m_center := origin + (1 / 2 : K) * (⟨lx, ly, lz⟩ : Vector K).Rot m_ODERot }

/-- The test that makes `Cube::Cube(origin, vx, vy, vz)` print its
diagnostic and call `exit(1)` (Cube.cc 85-86); `1e-8` is the rational
`1/100000000`. -/
def nonPerpendicular (rt : Routines K) (vx vy vz : Vector K) : Prop :=
  rt.abs (vx.dot vy) > 1 / 100000000 * vx.norm rt * vy.norm rt ∨
  rt.abs (vx.dot vz) > 1 / 100000000 * vx.norm rt * vz.norm rt ∨
  rt.abs (vy.dot vz) > 1 / 100000000 * vy.norm rt * vz.norm rt

instance (rt : Routines K) (vx vy vz : Vector K) : Decidable (nonPerpendicular rt vx vy vz) := by
  unfold nonPerpendicular
  infer_instance

/-- The matrix `mat` of `Cube::Cube(origin, vx, vy, vz)` (Cube.cc 101-110):
its columns are the edge vectors divided by the edge lengths. -/
def edgeMatrix (vx vy vz : Vector K) (lx ly lz : K) : Mat3 K :=
  ⟨vx.x / lx, vy.x / ly, vz.x / lz,
   vx.y / lx, vy.y / ly, vz.y / lz,
   vx.z / lx, vy.z / ly, vz.z / lz⟩

/-- The axis `Cube::Cube(origin, vx, vy, vz)` derives from `mat` and `angle`
(Cube.cc 116-178). -/
def rotationAxis (rt : Routines K) (mat : Mat3 K) (angle : K) : Vector K :=
  if angle > 0 then
    if angle < rt.pi then
      let axis : Vector K := ⟨mat.m21 - mat.m12, mat.m02 - mat.m20, mat.m10 - mat.m01⟩
      axis / axis.norm rt
    else
      if mat.m00 ≥ mat.m11 then
        if mat.m00 ≥ mat.m22 then
          let a0 := 1 / 2 * rt.sqrt (1 + mat.m00 - mat.m11 - mat.m22)
          let halfInverse := (1 / 2) / a0
          ⟨a0, halfInverse * mat.m01, halfInverse * mat.m02⟩
        else
          let a2 := 1 / 2 * rt.sqrt (1 + mat.m22 - mat.m00 - mat.m11)
          let halfInverse := (1 / 2) / a2
          ⟨halfInverse * mat.m02, halfInverse * mat.m12, a2⟩
      else
        if mat.m11 ≥ mat.m22 then
          let a1 := 1 / 2 * rt.sqrt (1 + mat.m11 - mat.m00 - mat.m22)
          let halfInverse := (1 / 2) / a1
          ⟨halfInverse * mat.m01, a1, halfInverse * mat.m12⟩
        else
          let a2 := 1 / 2 * rt.sqrt (1 + mat.m22 - mat.m00 - mat.m11)
          let halfInverse := (1 / 2) / a2
          ⟨halfInverse * mat.m02, halfInverse * mat.m12, a2⟩
  else
    ⟨1, 0, 0⟩

/-- The argument of the square root `rotationAxis` takes on its way, if it
takes one: the same branches as `rotationAxis` (Cube.cc 116-178). -/
def rotationAxisRoot (rt : Routines K) (mat : Mat3 K) (angle : K) : Option K :=
  if angle > 0 then
    if angle < rt.pi then
      let axis : Vector K := ⟨mat.m21 - mat.m12, mat.m02 - mat.m20, mat.m10 - mat.m01⟩
      some (axis.dot axis)
    else
      if mat.m00 ≥ mat.m11 then
        if mat.m00 ≥ mat.m22 then
          some (1 + mat.m00 - mat.m11 - mat.m22)
        else
          some (1 + mat.m22 - mat.m00 - mat.m11)
      else
        if mat.m11 ≥ mat.m22 then
          some (1 + mat.m11 - mat.m00 - mat.m22)
        else
          some (1 + mat.m22 - mat.m00 - mat.m11)
  else
    none

/-- The library routines are exact at the values `Cube::Cube(origin, vx, vy,
vz)` passes them: `abs` is the absolute value, the square roots it takes are
exact, the arc cosine `angle` of `cs` is positive exactly when `cs < 1` and
below `M_PI` exactly when `cs > -1`, and `dRFromAxisAndAngle`, given a unit
axis and that angle, returns the rotation about the axis by the angle of
cosine `cs` and non-negative sine. -/
def RoutinesExactAt (rt : Routines K) (vx vy vz : Vector K) : Prop :=
  let mat := edgeMatrix vx vy vz (vx.norm rt) (vy.norm rt) (vz.norm rt)
  let cs := 1 / 2 * (mat.m00 + mat.m11 + mat.m22 - 1)
  let angle := rt.acos cs
  let axis := rotationAxis rt mat angle
  (∀ x, rt.abs x = |x|) ∧
  rt.SqrtAt (vx.dot vx) ∧ rt.SqrtAt (vy.dot vy) ∧ rt.SqrtAt (vz.dot vz) ∧
  (∀ x, rotationAxisRoot rt mat angle = some x → rt.SqrtAt x) ∧
  ((0 < angle ↔ cs < 1) ∧ (angle < rt.pi ↔ -1 < cs)) ∧
  (axis.dot axis = 1 → ∃ s : K, 0 ≤ s ∧ s * s = 1 - cs * cs ∧
    rt.dRFromAxisAndAngle axis.x axis.y axis.z angle = axisAngleMatrix axis cs s)

/-- `Cube::Cube(origin, vx, vy, vz)` (Cube.cc 83-181); `none` is the call of
`exit(1)` after the diagnostic. -/
def ofVectors (rt : Routines K) (base : Cube K) (origin : Point K) (vx vy vz : Vector K) :
    Option (Cube K) :=
  if nonPerpendicular rt vx vy vz then
    none
  else
    let m_lx := vx.norm rt
    let m_ly := vy.norm rt
    let m_lz := vz.norm rt
    let mat := edgeMatrix vx vy vz m_lx m_ly m_lz
    let trace := mat.m00 + mat.m11 + mat.m22
    let cs := 1 / 2 * (trace - 1)
    let angle := rt.acos cs
    let axis := rotationAxis rt mat angle
    some { base with
      m_origin := origin
      m_vx := vx
      m_lx := m_lx
      m_vy := vy
      m_ly := m_ly
      m_vz := vz
      m_lz := m_lz
      m_center := origin + (1 / 2 : K) * (vx + vy + vz)
      m_ODERot := rt.dRFromAxisAndAngle axis.x axis.y axis.z angle }

/-- `Cube::IsInside` (Cube.cc 411-424). -/
def IsInside (c : Cube K) (p : Point K) (dx : K) : Bool :=
  let lp := (p - c.m_origin).TransposeRot c.m_ODERot
  let lx := c.m_lx + dx
  let ly := c.m_ly + dx
  let lz := c.m_lz + dx
  if lp.x > -dx ∧ lp.x < lx ∧ lp.y > -dx ∧ lp.y < ly ∧ lp.z > -dx ∧ lp.z < lz then
    true
  else
    false

/-- The assignment `m_origin(3) = m_center(3)` the fill operations start
with (Cube.cc 351, 389). -/
def setOriginMass (c : Cube K) : Cube K :=
  { c with m_origin := { c.m_origin with w := c.m_center.w } }

/-- The values of `i` the loop `for (int i = lo; i <= hi; i++)` runs its body
on, in order. -/
def loopLE (lo hi : ℤ) : List ℤ :=
  (List.range (hi + 1 - lo).toNat).map (fun (n : ℕ) => lo + (n : ℤ))

/-- The values of `i` the loop `for (int i = lo; i < hi; i++)` runs its body
on, in order. -/
def loopLT (lo hi : ℤ) : List ℤ :=
  (List.range (hi - lo).toNat).map (fun (n : ℕ) => lo + (n : ℤ))

/-- What `Cube::Fill` leaves behind: the box (it writes `m_origin(3)`), the
caller's container and the returned count. -/
structure FillResult (K : Type) where
  box : Cube K
  points : List (Point K)
  nparts : ℤ
  deriving DecidableEq

/-- The point `Cube::Fill` computes at the lattice node `(i, j, k)`
(Cube.cc 377). -/
def fillPoint (c : Cube K) (nx ny nz i j k : ℤ) : Point K :=
  c.m_origin + ((i : K) / (nx : K)) * c.m_vx + ((j : K) / (ny : K)) * c.m_vy
    + ((k : K) / (nz : K)) * c.m_vz

/-- The body of the innermost loop of `Cube::Fill` (Cube.cc 377-380), on the
pair (container, `nparts`). -/
def fillBody (c : Cube K) (nx ny nz : ℤ) (fill : Bool) (i j k : ℤ)
    (st : List (Point K) × ℤ) : List (Point K) × ℤ :=
  let p := fillPoint c nx ny nz i j k
  let pts := if fill then st.1 ++ [p] else st.1
  (pts, st.2 + 1)

/-- `Cube::Fill` (Cube.cc 348-383). -/
def Fill [FloorRing K] (c : Cube K) (points : List (Point K)) (dx : K)
    (fill_faces fill : Bool) : FillResult K :=
  let c := c.setOriginMass
  let nx := truncToInt (c.m_lx / dx)
  let ny := truncToInt (c.m_ly / dx)
  let nz := truncToInt (c.m_lz / dx)
  let startx : ℤ := if !fill_faces then 0 + 1 else 0
  let starty : ℤ := if !fill_faces then 0 + 1 else 0
  let startz : ℤ := if !fill_faces then 0 + 1 else 0
  let endx : ℤ := if !fill_faces then nx - 1 else nx
  let endy : ℤ := if !fill_faces then ny - 1 else ny
  let endz : ℤ := if !fill_faces then nz - 1 else nz
  let st := (loopLE startx endx).foldl (fun st i =>
    (loopLE starty endy).foldl (fun st j =>
      (loopLE startz endz).foldl (fun st k => fillBody c nx ny nz fill i j k st) st) st)
    (points, (0 : ℤ))
  ⟨c, st.1, st.2⟩

/-- The point `Cube::InnerFill` computes at the cell `(i, j, k)`
(Cube.cc 404). -/
def innerPoint (c : Cube K) (nx ny nz i j k : ℤ) : Point K :=
  c.m_origin + (((i : K) + 1 / 2) * c.m_vx) / (nx : K)
    + (((j : K) + 1 / 2) * c.m_vy) / (ny : K)
    + (((k : K) + 1 / 2) * c.m_vz) / (nz : K)

/-- `Cube::InnerFill` (Cube.cc 386-408): the box (it writes `m_origin(3)`)
and the caller's container. -/
def InnerFill [FloorRing K] (c : Cube K) (points : List (Point K)) (dx : K) :
    Cube K × List (Point K) :=
  let c := c.setOriginMass
  let nx := truncToInt (c.m_lx / dx)
  let ny := truncToInt (c.m_ly / dx)
  let nz := truncToInt (c.m_lz / dx)
  let startx : ℤ := 0
  let starty : ℤ := 0
  let startz : ℤ := 0
  let endx : ℤ := nx
  let endy : ℤ := ny
  let endz : ℤ := nz
  let pts := (loopLT startx endx).foldl (fun pts i =>
    (loopLT starty endy).foldl (fun pts j =>
      (loopLT startz endz).foldl (fun pts k => pts ++ [innerPoint c nx ny nz i j k]) pts) pts)
    points
  (c, pts)

/-- The index triples of a loop nest over `Lx`, `Ly`, `Lz` in the order the
nest visits them: lexicographic, the last index varying fastest. -/
def lexNodes (Lx Ly Lz : List ℤ) : List (ℤ × ℤ × ℤ) :=
  Lx.flatMap (fun i => Ly.flatMap (fun j => Lz.map (fun k => (i, j, k))))

/-- The local coordinates of a point, as `Cube::IsInside` computes them
(Cube.cc 414): `p - origin` rotated by the inverse orientation. -/
def localCoords (c : Cube K) (p : Point K) : Vector K :=
  (p - c.m_origin).TransposeRot c.m_ODERot

/-- An axis-aligned box at the origin with identity orientation, on which
the examples are evaluated. -/
def axisAligned (lx ly lz : K) : Cube K :=
  { m_origin := ⟨0, 0, 0, 0⟩
    m_vx := ⟨lx, 0, 0⟩
    m_vy := ⟨0, ly, 0⟩
    m_vz := ⟨0, 0, lz⟩
    m_lx := lx
    m_ly := ly
    m_lz := lz
    m_center := ⟨lx / 2, ly / 2, lz / 2, 0⟩
    m_ep := ⟨1, 0, 0, 0, Mat3.identity⟩
    m_ODERot := Mat3.identity
    m_mass := 0
    m_inertia := (0, 0, 0) }

end Cube

/-! ## Volume and boundary fill -/

/-- Modelled from the spec: `uint4`, four unsigned 32-bit integers. -/
structure uint4 where
  x : ℕ
  y : ℕ
  z : ℕ
  w : ℕ
  deriving DecidableEq

/-- What the multi-output boundary fill works on: the caller's four
containers and the table `edgeparts[6][4]` of the particle indices already
emitted on each edge of each face. -/
structure BorderState (K : Type) where
  bpoints : List (Point K)
  belems : List (Point K)
  vpoints : List (Point K)
  vindexes : List uint4
  edgeparts : List (List (List ℕ))

/-- Modelled from the spec: the Rectangular-Face filler (`Rect.h` is not part
of the sources): the two `Rect::Fill` that `Cube::FillBorder` calls on
`Rect(rorigin, rvx, rvy)`. They are parameters of the embedding. `Fill` is
`rect.Fill(points, dx, edges_to_fill)`; `FillElems` is `rect.Fill(bpoints,
belems, vpoints, vindexes, dx, face_num, edgeparts)`. -/
structure RectFiller (K : Type) where
  Fill : Point K → Vector K → Vector K → List (Point K) → K → List Bool → List (Point K)
  FillElems : Point K → Vector K → Vector K → BorderState K → K → ℤ → BorderState K

namespace Cube

/-- `Cube::Volume` (Cube.cc 184-192). -/
def Volume (c : Cube K) (dx : K) : K :=
  let lx := c.m_lx + dx
  let ly := c.m_ly + dx
  let lz := c.m_lz + dx
  let volume := lx * ly * lz
  volume

/-- The open axis-aligned box between the corners `lo` and `hi`. -/
def inOpenBox (lo hi v : Vector K) : Prop :=
  lo.x < v.x ∧ v.x < hi.x ∧ lo.y < v.y ∧ v.y < hi.y ∧ lo.z < v.z ∧ v.z < hi.z

/-- The `switch (face_num)` of the multi-output `FillBorder` (Cube.cc
218-249), on the variables `(rorigin, rvx, rvy)`: a face number without a
`case` leaves them as they are. -/
def FillBorderElems.face (c : Cube K) (face_num : ℤ) (r : Point K × Vector K × Vector K) :
    Point K × Vector K × Vector K :=
  if face_num = 0 then (c.m_origin, c.m_vx, c.m_vz)
  else if face_num = 1 then (c.m_origin + c.m_vx, c.m_vy, c.m_vz)
  else if face_num = 2 then (c.m_origin + c.m_vx + c.m_vy, -c.m_vx, c.m_vz)
  else if face_num = 3 then (c.m_origin + c.m_vy, -c.m_vy, c.m_vz)
  else if face_num = 4 then (c.m_origin, c.m_vx, c.m_vy)
  else if face_num = 5 then (c.m_origin + c.m_vz, c.m_vx, c.m_vy)
  else r

/-- The multi-output `Cube::FillBorder(bpoints, belems, vpoints, vindexes,
dx, fill_top_face)` (Cube.cc 206-254): the box (it writes `m_origin(3)`) and
the four containers; `edgeparts` starts empty and is dropped at the end.
`rorigin`, `rvx`, `rvy` are declared before the loop; their initial values are
never read. -/
def FillBorderElems (R : RectFiller K) (c : Cube K)
    (bpoints belems vpoints : List (Point K)) (vindexes : List uint4) (dx : K)
    (fill_top_face : Bool) :
    Cube K × List (Point K) × List (Point K) × List (Point K) × List uint4 :=
  let r : Point K × Vector K × Vector K := (⟨0, 0, 0, 0⟩, ⟨0, 0, 0⟩, ⟨0, 0, 0⟩)
  let edgeparts : List (List (List ℕ)) := List.replicate 6 (List.replicate 4 [])
  let c := c.setOriginMass
  let last_face : ℤ := if !fill_top_face then 6 - 1 else 6
  let st := (loopLT 0 last_face).foldl (fun st face_num =>
      let r := FillBorderElems.face c face_num st.1
      (r, R.FillElems r.1 r.2.1 r.2.2 st.2 dx face_num))
    (r, (⟨bpoints, belems, vpoints, vindexes, edgeparts⟩ : BorderState K))
  (c, st.2.bpoints, st.2.belems, st.2.vpoints, st.2.vindexes)

/-- The `switch (face_num)` of the single-face `FillBorder` (Cube.cc
289-320), on the variables `(rorigin, rvx, rvy)`. -/
def FillBorderFace.face (c : Cube K) (face_num : ℤ) (r : Point K × Vector K × Vector K) :
    Point K × Vector K × Vector K :=
  if face_num = 0 then (c.m_origin, c.m_vx, c.m_vz)
  else if face_num = 1 then (c.m_origin + c.m_vx, c.m_vy, c.m_vz)
  else if face_num = 2 then (c.m_origin + c.m_vx + c.m_vy, -c.m_vx, c.m_vz)
  else if face_num = 3 then (c.m_origin + c.m_vy, -c.m_vy, c.m_vz)
  else if face_num = 4 then (c.m_origin, c.m_vx, c.m_vy)
  else if face_num = 5 then (c.m_origin + c.m_vz, c.m_vx, c.m_vy)
  else r

/-- The single-face `Cube::FillBorder(points, dx, face_num, edges_to_fill)`
(Cube.cc 282-324): the box (it writes `m_origin(3)`) and the caller's
container. `edges_to_fill` is the row of flags the pointer addresses. -/
def FillBorderFace (R : RectFiller K) (c : Cube K) (points : List (Point K)) (dx : K)
    (face_num : ℤ) (edges_to_fill : List Bool) : Cube K × List (Point K) :=
  let r : Point K × Vector K × Vector K := (⟨0, 0, 0, 0⟩, ⟨0, 0, 0⟩, ⟨0, 0, 0⟩)
  let c := c.setOriginMass
  let r := FillBorderFace.face c face_num r
  (c, R.Fill r.1 r.2.1 r.2.2 points dx edges_to_fill)

/-- The table `edges_to_fill[6][4]` of `Cube::FillBorder(points, dx,
fill_top_face)` (Cube.cc 332-338). -/
def edges_to_fill : List (List Bool) :=
  [[true, true, true, true],
   [true, false, true, false],
   [true, true, true, true],
   [true, false, true, false],
   [false, false, false, false],
   [false, false, false, false]]

/-- The single-output `Cube::FillBorder(points, dx, fill_top_face)`
(Cube.cc 327-345). -/
def FillBorder (R : RectFiller K) (c : Cube K) (points : List (Point K)) (dx : K)
    (fill_top_face : Bool) : Cube K × List (Point K) :=
  let c := c.setOriginMass
  let last_face : ℤ := if !fill_top_face then 6 - 1 else 6
  (loopLT 0 last_face).foldl (fun st face_num =>
      FillBorderFace R st.1 st.2 dx face_num (edges_to_fill.getD face_num.toNat []))
    (c, points)

/-- The face table as the specification words it (section 4.2): entry `f` is
the (face origin, spanning vector 1, spanning vector 2) of face `f`. -/
def faceTable (origin : Point K) (edgeX edgeY edgeZ : Vector K) :
    List (Point K × Vector K × Vector K) :=
  [(origin, edgeX, edgeZ),
   (origin + edgeX, edgeY, edgeZ),
   (origin + edgeX + edgeY, -edgeX, edgeZ),
   (origin + edgeY, -edgeY, edgeZ),
   (origin, edgeX, edgeY),
   (origin + edgeZ, edgeX, edgeY)]

/-- A face filler that only records the face rectangle and the flags it is
called with (in the fourth component of a point it appends: not a model of
`Rect::Fill`, a probe for the examples). -/
def probeFiller : RectFiller ℚ :=
  { Fill := fun ro _ _ points _ edges => points ++ [⟨ro.x, ro.y, ro.z, (edges.count true : ℚ)⟩]
    FillElems := fun ro _ _ st _ face_num =>
      { st with bpoints := st.bpoints ++ [⟨ro.x, ro.y, ro.z, (face_num : ℚ)⟩] } }

/-- The box with edges 2, 2, 2 along the axes whose centre carries 5 in its
fourth component while its origin carries 0, on which the examples are
evaluated. -/
def massBox : Cube ℚ :=
  { axisAligned 2 2 2 with m_center := ⟨1, 1, 1, 5⟩ }

end Cube

/-! ## The still-water problem: `copy_to_array` -/

/-- The values of `m_simparams.boundarytype` that `StillWater.cc` names
(lines 69-70). -/
inductive BoundaryType where
  | LJ_BOUNDARY
  | SA_BOUNDARY
  deriving DecidableEq

/-- The constants and routines `StillWater::copy_to_array` uses that are
declared outside the sources (the particle-type constants,
`make_particleinfo`, `calc_localpos_and_hash`, `density`, the two
`make_float4`); they are parameters of the embedding. `F4` is `float4`, `HK`
is `hashKey`, `PI` is `particleinfo`. `calc_localpos_and_hash` returns the
position and the hash it writes through its last two arguments. -/
structure ProblemRoutines (K F4 HK PI : Type) where
  BOUNDPART : ℕ
  FLUIDPART : ℕ
  VERTEXPART : ℕ
  make_particleinfo : ℕ → ℕ → ℕ → PI
  calc_localpos_and_hash : Point K → PI → F4 × HK
  density : K → ℕ → K
  make_float4 : K → K → K → K → F4
  make_float4_of_point : Point K → F4

/-- The arrays `copy_to_array` obtains from the `BufferList`
(StillWater.cc 185-190), each a map from the index to the entry. -/
structure BufferList (F4 HK PI : Type) where
  pos : ℕ → F4
  hash : ℕ → HK
  vel : ℕ → F4
  info : ℕ → PI
  vertices : ℕ → uint4
  boundelm : ℕ → F4

/-- The members of `StillWater` that `copy_to_array` reads or writes. -/
structure StillWater (K : Type) where
  H : K
  rho0 : K
  boundarytype : BoundaryType
  parts : List (Point K)
  boundary_parts : List (Point K)
  boundary_elems : List (Point K)
  vertex_parts : List (Point K)
  vertex_indexes : List uint4

namespace StillWater

variable {F4 HK PI : Type}

/-- The values of `i` the loop `for (uint i = lo; i < hi; i++)` runs its body
on, in order. -/
def loopUint (lo hi : ℕ) : List ℕ := (List.range (hi - lo)).map (fun n => lo + n)

/-- The three statements every particle loop of `copy_to_array` ends with
(StillWater.cc 194-196, 204-206, 217-219): `vel[i] = v`, `info[i] =
make_particleinfo(type, 0, i)`, `calc_localpos_and_hash(p, info[i], pos[i],
hash[i])`. -/
def writeParticle (P : ProblemRoutines K F4 HK PI) (type : ℕ) (v : F4) (p : Point K) (i : ℕ)
    (b : BufferList F4 HK PI) : BufferList F4 HK PI :=
  let vel := Function.update b.vel i v
  let info := Function.update b.info i (P.make_particleinfo type 0 i)
  let ph := P.calc_localpos_and_hash p (info i)
  { b with vel := vel, info := info, pos := Function.update b.pos i ph.1,
           hash := Function.update b.hash i ph.2 }

/-- The statement `v.x += offset; v.y += offset; v.z += offset` on the `uint`
components of a connectivity triple (StillWater.cc 235-237). -/
def addOffset (v : uint4) (offset : ℕ) : uint4 :=
  ⟨(v.x + offset) % 2 ^ 32, (v.y + offset) % 2 ^ 32, (v.z + offset) % 2 ^ 32, v.w⟩

/-- `StillWater::copy_to_array` (StillWater.cc 183-244), without the
printing: the problem (it rewrites `vertex_indexes`) and the arrays; `none`
is the call of `exit(1)` after a diagnostic. Container sizes and loop counters
are natural numbers; `offset` and the sums stored in a triple are `uint`. -/
def copy_to_array (P : ProblemRoutines K F4 HK PI) (sw : StillWater K)
    (buffers : BufferList F4 HK PI) : Option (StillWater K × BufferList F4 HK PI) :=
  let b1 := (loopUint 0 sw.boundary_parts.length).foldl (fun b i =>
      writeParticle P P.BOUNDPART (P.make_float4 0 0 0 sw.rho0)
        (sw.boundary_parts.getD i ⟨0, 0, 0, 0⟩) i b) buffers
  let j := sw.boundary_parts.length
  let b2 := (loopUint j (j + sw.parts.length)).foldl (fun b i =>
      let rho := P.density (sw.H - (sw.parts.getD (i - j) ⟨0, 0, 0, 0⟩).z) 0
      writeParticle P P.FLUIDPART (P.make_float4 0 0 0 rho)
        (sw.parts.getD (i - j) ⟨0, 0, 0, 0⟩) i b) b1
  if sw.boundarytype = BoundaryType.SA_BOUNDARY then
    let j := sw.parts.length + sw.boundary_parts.length
    let b3 := (loopUint j (j + sw.vertex_parts.length)).foldl (fun b i =>
        let rho := P.density (sw.H - (sw.vertex_parts.getD (i - j) ⟨0, 0, 0, 0⟩).z) 0
        writeParticle P P.VERTEXPART (P.make_float4 0 0 0 rho)
          (sw.vertex_parts.getD (i - j) ⟨0, 0, 0, 0⟩) i b) b2
    if sw.vertex_indexes.length ≠ sw.boundary_parts.length then
      none
    else if sw.boundary_elems.length ≠ sw.boundary_parts.length then
      none
    else
      let offset := (sw.parts.length + sw.boundary_parts.length) % 2 ^ 32
      let st := (loopUint 0 sw.boundary_parts.length).foldl (fun st i =>
          let vertex_indexes := st.1.set i (addOffset (st.1.getD i ⟨0, 0, 0, 0⟩) offset)
          (vertex_indexes,
            { st.2 with
              vertices := Function.update st.2.vertices i (vertex_indexes.getD i ⟨0, 0, 0, 0⟩)
              boundelm := Function.update st.2.boundelm i
                (P.make_float4_of_point (sw.boundary_elems.getD i ⟨0, 0, 0, 0⟩)) }))
        (sw.vertex_indexes, b3)
      some ({ sw with vertex_indexes := st.1 }, st.2)
  else
    some (sw, b2)

/-- Routines on which the examples are evaluated: a `float4` is four
rationals, a `particleinfo` is the triple it is made of, the position is the
point itself. -/
def sampleProblem : ProblemRoutines ℚ (ℚ × ℚ × ℚ × ℚ) ℕ (ℕ × ℕ × ℕ) :=
  { BOUNDPART := 1
    FLUIDPART := 0
    VERTEXPART := 2
    make_particleinfo := fun t o i => (t, o, i)
    calc_localpos_and_hash := fun p _ => ((p.x, p.y, p.z, p.w), 0)
    density := fun _ _ => 1000
    make_float4 := fun a b c d => (a, b, c, d)
    make_float4_of_point := fun p => (p.x, p.y, p.z, p.w) }

/-- A problem with two boundary particles, one fluid particle and two vertex
particles, on which the examples are evaluated. -/
def sampleWater : StillWater ℚ :=
  { H := 1
    rho0 := 1000
    boundarytype := BoundaryType.SA_BOUNDARY
    parts := [⟨1, 1, 1, 0⟩]
    boundary_parts := [⟨0, 0, 0, 0⟩, ⟨1, 0, 0, 0⟩]
    boundary_elems := [⟨0, 0, 1, 0⟩, ⟨0, 0, 1, 0⟩]
    vertex_parts := [⟨0, 0, 0, 0⟩, ⟨2, 0, 0, 0⟩]
    vertex_indexes := [⟨0, 1, 1, 9⟩, ⟨1, 0, 0, 7⟩] }

/-- Arrays holding zeros, on which the examples are evaluated. -/
def sampleBuffers : BufferList (ℚ × ℚ × ℚ × ℚ) ℕ (ℕ × ℕ × ℕ) :=
  { pos := fun _ => (0, 0, 0, 0)
    hash := fun _ => 0
    vel := fun _ => (0, 0, 0, 0)
    info := fun _ => (0, 0, 0)
    vertices := fun _ => ⟨0, 0, 0, 0⟩
    boundelm := fun _ => (0, 0, 0, 0) }

end StillWater

/-! ## Inertia and the rigid body -/

/-- The calls of the rigid-body library (ODE) that `Cube.cc` makes, with the
arguments that are numbers; the handles (world, space, body, mass, geometry)
are left out. -/
inductive ODECall (K : Type) where
  | dBodyCreate
  | dMassSetZero
  | dMassSetBoxTotal (total_mass lx ly lz : K)
  | dBodySetMass
  | dBodySetPosition (x y z : K)
  | dBodySetRotation (R : Mat3 K)
  | dCreateBox (lx ly lz : K)
  | dGeomSetBody
  | dGeomSetPosition (x y z : K)
  | dGeomSetRotation (R : Mat3 K)
  deriving DecidableEq

namespace Cube

/-- `Cube::SetInertia` (Cube.cc 195-204). -/
def SetInertia (c : Cube K) (dx : K) : Cube K :=
  let lx := c.m_lx + dx
  let ly := c.m_ly + dx
  let lz := c.m_lz + dx
  { c with m_inertia := (c.m_mass / 12 * (ly * ly + lz * lz),
                         c.m_mass / 12 * (lx * lx + lz * lz),
                         c.m_mass / 12 * (lx * lx + ly * ly)) }

/-- `Cube::ODEGeomCreate` (Cube.cc 270-279): the calls of the library it
makes, in order; `m_ODEBody` tells whether the box has a body. The spacing
is not used. -/
def ODEGeomCreate (c : Cube K) (m_ODEBody : Bool) (_dx : K) : List (ODECall K) :=
  [ODECall.dCreateBox c.m_lx c.m_ly c.m_lz] ++
    (if m_ODEBody then
      [ODECall.dGeomSetBody]
    else
      [ODECall.dGeomSetPosition c.m_center.x c.m_center.y c.m_center.z,
       ODECall.dGeomSetRotation c.m_ODERot])

/-- `Cube::ODEBodyCreate` (Cube.cc 256-267): the calls of the library it
makes, in order; `ODESpace` tells whether a space is given. The body
`dBodyCreate` returns is taken to be a body (not null). -/
def ODEBodyCreate (c : Cube K) (dx : K) (ODESpace : Bool) : List (ODECall K) :=
  [ODECall.dBodyCreate,
   ODECall.dMassSetZero,
   ODECall.dMassSetBoxTotal c.m_mass (c.m_lx + dx) (c.m_ly + dx) (c.m_ly + dx),
   ODECall.dBodySetMass,
   ODECall.dBodySetPosition c.m_center.x c.m_center.y c.m_center.z,
   ODECall.dBodySetRotation c.m_ODERot] ++
    (if ODESpace then ODEGeomCreate c true dx else [])

/-- The box with edges 1, 2, 3 along the axes and mass 12, on which the
examples are evaluated. -/
def heavyBox : Cube ℚ :=
  { axisAligned 1 2 3 with m_mass := 12 }

end Cube

/-! ## Divisions that can fail -/

/-- The quotient `a / b` of two `double` where it is a number: `none` when
the divisor is zero, where the machine gives an infinity or a NaN. -/
def quotient (a b : K) : Option K := if b = 0 then none else some (a / b)

/-- `Vector / double` where it is a vector of numbers: `none` when the
divisor is zero. -/
def Vector.quotient (v : Vector K) (a : K) : Option (Vector K) :=
  if a = 0 then none else some (v / a)

namespace Cube

/-- The point of Cube.cc 377 with its three quotients `i/((double) nx)`,
`j/((double) ny)`, `k/((double) nz)` taken by `quotient`: `none` when one of
them divides by zero. -/
def fillPointChecked (c : Cube K) (nx ny nz i j k : ℤ) : Option (Point K) :=
  (quotient (i : K) (nx : K)).bind fun a =>
  (quotient (j : K) (ny : K)).bind fun b =>
  (quotient (k : K) (nz : K)).bind fun d =>
    some (c.m_origin + a * c.m_vx + b * c.m_vy + d * c.m_vz)

/-- The body of the innermost loop of `Cube::Fill` (Cube.cc 377-380) with
the point taken by `fillPointChecked`; the point is computed whether or not
it is stored. -/
def fillBodyChecked (c : Cube K) (nx ny nz : ℤ) (fill : Bool) (i j k : ℤ)
    (st : List (Point K) × ℤ) : Option (List (Point K) × ℤ) :=
  (fillPointChecked c nx ny nz i j k).map fun p =>
    ((if fill then st.1 ++ [p] else st.1), st.2 + 1)

/-- `Cube::Fill` (Cube.cc 348-383) with every quotient taken by `quotient`:
`none` as soon as a node is visited at which a quotient divides by zero. -/
def FillChecked [FloorRing K] (c : Cube K) (points : List (Point K)) (dx : K)
    (fill_faces fill : Bool) : Option (FillResult K) :=
  let c := c.setOriginMass
  let nx := truncToInt (c.m_lx / dx)
  let ny := truncToInt (c.m_ly / dx)
  let nz := truncToInt (c.m_lz / dx)
  let startx : ℤ := if !fill_faces then 0 + 1 else 0
  let starty : ℤ := if !fill_faces then 0 + 1 else 0
  let startz : ℤ := if !fill_faces then 0 + 1 else 0
  let endx : ℤ := if !fill_faces then nx - 1 else nx
  let endy : ℤ := if !fill_faces then ny - 1 else ny
  let endz : ℤ := if !fill_faces then nz - 1 else nz
  let st := (loopLE startx endx).foldl (fun st i =>
    (loopLE starty endy).foldl (fun st j =>
      (loopLE startz endz).foldl (fun st k =>
        st.bind (fillBodyChecked c nx ny nz fill i j k)) st) st)
    (some (points, (0 : ℤ)))
  st.map fun st => ⟨c, st.1, st.2⟩

/-- The point of Cube.cc 404 with its three divisions `(i + 0.5)*m_vx/nx`,
`(j + 0.5)*m_vy/ny`, `(k + 0.5)*m_vz/nz` taken by `Vector.quotient`. -/
def innerPointChecked (c : Cube K) (nx ny nz i j k : ℤ) : Option (Point K) :=
  ((((i : K) + 1 / 2) * c.m_vx).quotient (nx : K)).bind fun u =>
  ((((j : K) + 1 / 2) * c.m_vy).quotient (ny : K)).bind fun v =>
  ((((k : K) + 1 / 2) * c.m_vz).quotient (nz : K)).bind fun w =>
    some (c.m_origin + u + v + w)

/-- `Cube::InnerFill` (Cube.cc 386-408) with every division taken by
`Vector.quotient`: `none` as soon as a cell is visited at which one divides
by zero. -/
def InnerFillChecked [FloorRing K] (c : Cube K) (points : List (Point K)) (dx : K) :
    Option (Cube K × List (Point K)) :=
  let c := c.setOriginMass
  let nx := truncToInt (c.m_lx / dx)
  let ny := truncToInt (c.m_ly / dx)
  let nz := truncToInt (c.m_lz / dx)
  let startx : ℤ := 0
  let starty : ℤ := 0
  let startz : ℤ := 0
  let endx : ℤ := nx
  let endy : ℤ := ny
  let endz : ℤ := nz
  let pts := (loopLT startx endx).foldl (fun pts i =>
    (loopLT starty endy).foldl (fun pts j =>
      (loopLT startz endz).foldl (fun pts k =>
        pts.bind fun pts => (innerPointChecked c nx ny nz i j k).map fun p => pts ++ [p])
        pts) pts)
    (some points)
  pts.map fun pts => (c, pts)

end Cube

/-! ## The buffer flags (`define_buffers.h`) -/

namespace Buffers

/-- `x << 1` in a flag word of `w` bits. -/
def shl1 (w x : ℕ) : ℕ := (x <<< 1) % 2 ^ w

/-- `x - 1` in a flag word of `w` bits. -/
def sub1 (w x : ℕ) : ℕ := (x + 2 ^ w - 1) % 2 ^ w

/-- `BUFFER_POS_GLOBAL` (define_buffers.h 45); `F` is `FIRST_DEFINED_BUFFER`,
which the including file defines. -/
def BUFFER_POS_GLOBAL (F : ℕ) : ℕ := F

/-- `BUFFER_POS` (define_buffers.h 48). -/
def BUFFER_POS (w F : ℕ) : ℕ := shl1 w (BUFFER_POS_GLOBAL F)

/-- `BUFFER_VEL` (define_buffers.h 50). -/
def BUFFER_VEL (w F : ℕ) : ℕ := shl1 w (BUFFER_POS w F)

/-- `BUFFER_INFO` (define_buffers.h 52). -/
def BUFFER_INFO (w F : ℕ) : ℕ := shl1 w (BUFFER_VEL w F)

/-- `BUFFER_HASH` (define_buffers.h 54). -/
def BUFFER_HASH (w F : ℕ) : ℕ := shl1 w (BUFFER_INFO w F)

/-- `BUFFER_PARTINDEX` (define_buffers.h 57). -/
def BUFFER_PARTINDEX (w F : ℕ) : ℕ := shl1 w (BUFFER_HASH w F)

/-- `BUFFER_INVINDEX` (define_buffers.h 59). -/
def BUFFER_INVINDEX (w F : ℕ) : ℕ := shl1 w (BUFFER_PARTINDEX w F)

/-- `BUFFER_CELLSTART` (define_buffers.h 64). -/
def BUFFER_CELLSTART (w F : ℕ) : ℕ := shl1 w (BUFFER_INVINDEX w F)

/-- `BUFFER_CELLEND` (define_buffers.h 66). -/
def BUFFER_CELLEND (w F : ℕ) : ℕ := shl1 w (BUFFER_CELLSTART w F)

/-- `BUFFER_NEIBSLIST` (define_buffers.h 69). -/
def BUFFER_NEIBSLIST (w F : ℕ) : ℕ := shl1 w (BUFFER_CELLEND w F)

/-- `BUFFER_FORCES` (define_buffers.h 72). -/
def BUFFER_FORCES (w F : ℕ) : ℕ := shl1 w (BUFFER_NEIBSLIST w F)

/-- `BUFFER_XSPH` (define_buffers.h 75). -/
def BUFFER_XSPH (w F : ℕ) : ℕ := shl1 w (BUFFER_FORCES w F)

/-- `BUFFER_TAU` (define_buffers.h 78). -/
def BUFFER_TAU (w F : ℕ) : ℕ := shl1 w (BUFFER_XSPH w F)

/-- `BUFFER_VORTICITY` (define_buffers.h 81). -/
def BUFFER_VORTICITY (w F : ℕ) : ℕ := shl1 w (BUFFER_TAU w F)

/-- `BUFFER_NORMALS` (define_buffers.h 83). -/
def BUFFER_NORMALS (w F : ℕ) : ℕ := shl1 w (BUFFER_VORTICITY w F)

/-- `BUFFER_BOUNDELEMENTS` (define_buffers.h 86). -/
def BUFFER_BOUNDELEMENTS (w F : ℕ) : ℕ := shl1 w (BUFFER_NORMALS w F)

/-- `BUFFER_GRADGAMMA` (define_buffers.h 88). -/
def BUFFER_GRADGAMMA (w F : ℕ) : ℕ := shl1 w (BUFFER_BOUNDELEMENTS w F)

/-- `BUFFER_VERTICES` (define_buffers.h 90). -/
def BUFFER_VERTICES (w F : ℕ) : ℕ := shl1 w (BUFFER_GRADGAMMA w F)

/-- `BUFFER_VERTPOS` (define_buffers.h 92). -/
def BUFFER_VERTPOS (w F : ℕ) : ℕ := shl1 w (BUFFER_VERTICES w F)

/-- `BUFFER_TKE` (define_buffers.h 95). -/
def BUFFER_TKE (w F : ℕ) : ℕ := shl1 w (BUFFER_VERTPOS w F)

/-- `BUFFER_EPSILON` (define_buffers.h 97). -/
def BUFFER_EPSILON (w F : ℕ) : ℕ := shl1 w (BUFFER_TKE w F)

/-- `BUFFER_TURBVISC` (define_buffers.h 99). -/
def BUFFER_TURBVISC (w F : ℕ) : ℕ := shl1 w (BUFFER_EPSILON w F)

/-- `BUFFER_DKDE` (define_buffers.h 101). -/
def BUFFER_DKDE (w F : ℕ) : ℕ := shl1 w (BUFFER_TURBVISC w F)

/-- `BUFFER_CFL` (define_buffers.h 104). -/
def BUFFER_CFL (w F : ℕ) : ℕ := shl1 w (BUFFER_DKDE w F)

/-- `BUFFER_CFL_TEMP` (define_buffers.h 106). -/
def BUFFER_CFL_TEMP (w F : ℕ) : ℕ := shl1 w (BUFFER_CFL w F)

/-- `BUFFER_CFL_KEPS` (define_buffers.h 108). -/
def BUFFER_CFL_KEPS (w F : ℕ) : ℕ := shl1 w (BUFFER_CFL_TEMP w F)

/-- `BUFFER_PRIVATE` (define_buffers.h 111). -/
def BUFFER_PRIVATE (w F : ℕ) : ℕ := shl1 w (BUFFER_CFL_KEPS w F)

/-- `LAST_DEFINED_BUFFER` (define_buffers.h 115). -/
def LAST_DEFINED_BUFFER (w F : ℕ) : ℕ := BUFFER_PRIVATE w F

/-- `ALL_DEFINED_BUFFERS` (define_buffers.h 128); in C `^` binds tighter than
`|`. -/
def ALL_DEFINED_BUFFERS (w F : ℕ) : ℕ :=
  (sub1 w F ^^^ sub1 w (LAST_DEFINED_BUFFER w F)) ||| LAST_DEFINED_BUFFER w F

/-- The buffer flags in the order `define_buffers.h` defines them. -/
def bufferFlags (w F : ℕ) : List ℕ :=
  [BUFFER_POS_GLOBAL F, BUFFER_POS w F, BUFFER_VEL w F, BUFFER_INFO w F, BUFFER_HASH w F,
   BUFFER_PARTINDEX w F, BUFFER_INVINDEX w F, BUFFER_CELLSTART w F, BUFFER_CELLEND w F,
   BUFFER_NEIBSLIST w F, BUFFER_FORCES w F, BUFFER_XSPH w F, BUFFER_TAU w F,
   BUFFER_VORTICITY w F, BUFFER_NORMALS w F, BUFFER_BOUNDELEMENTS w F, BUFFER_GRADGAMMA w F,
   BUFFER_VERTICES w F, BUFFER_VERTPOS w F, BUFFER_TKE w F, BUFFER_EPSILON w F,
   BUFFER_TURBVISC w F, BUFFER_DKDE w F, BUFFER_CFL w F, BUFFER_CFL_TEMP w F,
   BUFFER_CFL_KEPS w F, BUFFER_PRIVATE w F]

end Buffers

end GPUSPH

/-! ## Theorems -/

namespace GPUSPH

variable {K : Type} [LinearOrderedField K]

/-! ### Loops and loop nests -/

theorem truncToInt_of_nonneg [FloorRing K] {q : K} (h : 0 ≤ q) : truncToInt q = ⌊q⌋ := by
  simp [truncToInt, h]

theorem truncToInt_div_of_nonneg [FloorRing K] {l dx : K} (hl : 0 ≤ l) (hdx : 0 < dx) :
    truncToInt (l / dx) = ⌊l / dx⌋ :=
  truncToInt_of_nonneg (div_nonneg hl hdx.le)

theorem truncToInt_of_one_le_floor [FloorRing K] {q : K} (h : 1 ≤ ⌊q⌋) : truncToInt q = ⌊q⌋ := by
  apply truncToInt_of_nonneg
  have h1 : ((1 : ℤ) : K) ≤ q := Int.le_floor.mp h
  have h2 : ((1 : ℤ) : K) = 1 := by norm_num
  linarith

/-! ### Point and vector operations, componentwise -/

theorem Point.add_vec_eq (p : Point K) (v : Vector K) :
    p + v = ⟨p.x + v.x, p.y + v.y, p.z + v.z, p.w⟩ := rfl

theorem Point.sub_eq (p q : Point K) : p - q = (⟨p.x - q.x, p.y - q.y, p.z - q.z⟩ : Vector K) :=
  rfl

theorem Vector.add_eq (u v : Vector K) : u + v = ⟨u.x + v.x, u.y + v.y, u.z + v.z⟩ := rfl

theorem Vector.neg_eq (v : Vector K) : -v = ⟨-v.x, -v.y, -v.z⟩ := rfl

theorem Vector.smul_eq (a : K) (v : Vector K) : a * v = ⟨a * v.x, a * v.y, a * v.z⟩ := rfl

theorem Vector.sdiv_eq (v : Vector K) (a : K) : v / a = ⟨v.x / a, v.y / a, v.z / a⟩ := rfl



namespace Cube

theorem length_loopLE (lo hi : ℤ) : (loopLE lo hi).length = (hi + 1 - lo).toNat := by
  simp [loopLE]

theorem length_loopLT (lo hi : ℤ) : (loopLT lo hi).length = (hi - lo).toNat := by
  simp [loopLT]

theorem mem_loopLE {lo hi i : ℤ} : i ∈ loopLE lo hi ↔ lo ≤ i ∧ i ≤ hi := by
  simp only [loopLE, List.mem_map, List.mem_range]
  constructor
  · rintro ⟨n, hn, rfl⟩
    omega
  · rintro ⟨h1, h2⟩
    exact ⟨(i - lo).toNat, by omega, by omega⟩

theorem mem_loopLT {lo hi i : ℤ} : i ∈ loopLT lo hi ↔ lo ≤ i ∧ i < hi := by
  simp only [loopLT, List.mem_map, List.mem_range]
  constructor
  · rintro ⟨n, hn, rfl⟩
    omega
  · rintro ⟨h1, h2⟩
    exact ⟨(i - lo).toNat, by omega, by omega⟩

theorem getElem?_loopLE (lo hi : ℤ) (n : ℕ) (h : (n : ℤ) ≤ hi - lo) :
    (loopLE lo hi)[n]? = some (lo + n) := by
  have hn : n < (hi + 1 - lo).toNat := by omega
  simp [loopLE, List.getElem?_range hn]

theorem getElem?_loopLT (lo hi : ℤ) (n : ℕ) (h : (n : ℤ) < hi - lo) :
    (loopLT lo hi)[n]? = some (lo + n) := by
  have hn : n < (hi - lo).toNat := by omega
  simp [loopLT, List.getElem?_range hn]

theorem length_flatMap_map {β : Type} (f : ℤ → ℤ → β) (Ly Lz : List ℤ) :
    (Ly.flatMap (fun j => Lz.map (fun k => f j k))).length = Ly.length * Lz.length := by
  induction Ly with
  | nil => simp
  | cons b M ih =>
    rw [List.flatMap_cons, List.length_append, ih, List.length_map, List.length_cons]
    ring

theorem length_lexNodes (Lx Ly Lz : List ℤ) :
    (lexNodes Lx Ly Lz).length = Lx.length * Ly.length * Lz.length := by
  induction Lx with
  | nil => simp [lexNodes]
  | cons a L ih =>
    have e : lexNodes (a :: L) Ly Lz
        = Ly.flatMap (fun j => Lz.map (fun k => (a, j, k))) ++ lexNodes L Ly Lz := by
      simp [lexNodes]
    rw [e, List.length_append, ih, length_flatMap_map, List.length_cons]
    ring

theorem getElem?_flatMap_map {β : Type} (f : ℤ → ℤ → β) (Ly Lz : List ℤ) (b c : ℕ) (y z : ℤ)
    (hy : Ly[b]? = some y) (hz : Lz[c]? = some z) :
    (Ly.flatMap (fun j => Lz.map (fun k => f j k)))[b * Lz.length + c]? = some (f y z) := by
  have hc : c < Lz.length := (List.getElem?_eq_some_iff.mp hz).1
  induction Ly generalizing b with
  | nil => simp at hy
  | cons y0 M ih =>
    rw [List.flatMap_cons]
    cases b with
    | zero =>
      simp only [List.getElem?_cons_zero, Option.some.injEq] at hy
      subst hy
      rw [List.getElem?_append_left (by simpa using hc)]
      simp [hz]
    | succ b =>
      simp only [List.getElem?_cons_succ] at hy
      rw [List.getElem?_append_right (by simp; nlinarith)]
      have e : (b + 1) * Lz.length + c - (List.map (fun k => f y0 k) Lz).length
          = b * Lz.length + c := by
        simp only [List.length_map]
        have : (b + 1) * Lz.length = b * Lz.length + Lz.length := by ring
        omega
      rw [e]
      exact ih b hy

theorem getElem?_lexNodes (Lx Ly Lz : List ℤ) (a b c : ℕ) (x y z : ℤ)
    (hx : Lx[a]? = some x) (hy : Ly[b]? = some y) (hz : Lz[c]? = some z) :
    (lexNodes Lx Ly Lz)[(a * Ly.length + b) * Lz.length + c]? = some (x, y, z) := by
  have hc : c < Lz.length := (List.getElem?_eq_some_iff.mp hz).1
  have hb : b < Ly.length := (List.getElem?_eq_some_iff.mp hy).1
  induction Lx generalizing a with
  | nil => simp at hx
  | cons x0 M ih =>
    have e0 : lexNodes (x0 :: M) Ly Lz
        = Ly.flatMap (fun j => Lz.map (fun k => (x0, j, k))) ++ lexNodes M Ly Lz := by
      simp [lexNodes]
    rw [e0]
    cases a with
    | zero =>
      simp only [List.getElem?_cons_zero, Option.some.injEq] at hx
      subst hx
      have hlt : (0 * Ly.length + b) * Lz.length + c
          < (Ly.flatMap (fun j => Lz.map (fun k => (x0, j, k)))).length := by
        rw [length_flatMap_map]
        have : (b + 1) * Lz.length ≤ Ly.length * Lz.length :=
          Nat.mul_le_mul_right _ hb
        nlinarith
      rw [List.getElem?_append_left hlt]
      simpa using getElem?_flatMap_map (fun j k => (x0, j, k)) Ly Lz b c y z hy hz
    | succ a =>
      simp only [List.getElem?_cons_succ] at hx
      have hsplit : ((a + 1) * Ly.length + b) * Lz.length
          = (a * Ly.length + b) * Lz.length + Ly.length * Lz.length := by ring
      rw [List.getElem?_append_right (by rw [length_flatMap_map]; omega)]
      have e : ((a + 1) * Ly.length + b) * Lz.length + c
            - (Ly.flatMap (fun j => Lz.map (fun k => (x0, j, k)))).length
          = (a * Ly.length + b) * Lz.length + c := by
        rw [length_flatMap_map]
        omega
      rw [e]
      exact ih a hx

theorem foldl_push1 {α : Type} (fill : Bool) (f : ℤ → α) (L : List ℤ) (st : List α × ℤ) :
    L.foldl (fun st k => ((if fill then st.1 ++ [f k] else st.1), st.2 + 1)) st
      = (st.1 ++ (if fill then L.map f else []), st.2 + (L.length : ℤ)) := by
  induction L generalizing st with
  | nil => simp
  | cons a L ih =>
    rw [List.foldl_cons, ih]
    cases fill <;> simp <;> ring

theorem foldl_push2 {α : Type} (fill : Bool) (f : ℤ → ℤ → α) (Ly Lz : List ℤ)
    (st : List α × ℤ) :
    Ly.foldl (fun st j =>
        Lz.foldl (fun st k => ((if fill then st.1 ++ [f j k] else st.1), st.2 + 1)) st) st
      = (st.1 ++ (if fill then Ly.flatMap (fun j => Lz.map (f j)) else []),
          st.2 + (Ly.length : ℤ) * (Lz.length : ℤ)) := by
  induction Ly generalizing st with
  | nil => simp
  | cons a L ih =>
    rw [List.foldl_cons, foldl_push1, ih]
    cases fill <;> simp <;> ring

theorem foldl_push3 {α : Type} (fill : Bool) (f : ℤ → ℤ → ℤ → α) (Lx Ly Lz : List ℤ)
    (st : List α × ℤ) :
    Lx.foldl (fun st i => Ly.foldl (fun st j =>
        Lz.foldl (fun st k => ((if fill then st.1 ++ [f i j k] else st.1), st.2 + 1)) st) st) st
      = (st.1 ++ (if fill then (lexNodes Lx Ly Lz).map (fun t => f t.1 t.2.1 t.2.2) else []),
          st.2 + (Lx.length : ℤ) * (Ly.length : ℤ) * (Lz.length : ℤ)) := by
  induction Lx generalizing st with
  | nil => simp [lexNodes]
  | cons a L ih =>
    rw [List.foldl_cons, foldl_push2, ih]
    cases fill
    · simp; ring
    · simp [lexNodes, List.map_flatMap, Function.comp_def]; ring

theorem foldl_append1 {α : Type} (f : ℤ → α) (L : List ℤ) (pts : List α) :
    L.foldl (fun pts k => pts ++ [f k]) pts = pts ++ L.map f := by
  induction L generalizing pts with
  | nil => simp
  | cons a L ih => rw [List.foldl_cons, ih]; simp

theorem foldl_append2 {α : Type} (f : ℤ → ℤ → α) (Ly Lz : List ℤ) (pts : List α) :
    Ly.foldl (fun pts j => Lz.foldl (fun pts k => pts ++ [f j k]) pts) pts
      = pts ++ Ly.flatMap (fun j => Lz.map (f j)) := by
  induction Ly generalizing pts with
  | nil => simp
  | cons a L ih => rw [List.foldl_cons, foldl_append1, ih]; simp

theorem foldl_append3 {α : Type} (f : ℤ → ℤ → ℤ → α) (Lx Ly Lz : List ℤ) (pts : List α) :
    Lx.foldl (fun pts i => Ly.foldl (fun pts j =>
        Lz.foldl (fun pts k => pts ++ [f i j k]) pts) pts) pts
      = pts ++ (lexNodes Lx Ly Lz).map (fun t => f t.1 t.2.1 t.2.2) := by
  induction Lx generalizing pts with
  | nil => simp [lexNodes]
  | cons a L ih =>
    rw [List.foldl_cons, foldl_append2, ih]
    simp [lexNodes, List.map_flatMap, Function.comp_def]

/-- `Cube::Fill` in closed form: the box after the call, the container and
the count, for the loop bounds the flags select. -/
theorem Fill_eq [FloorRing K] (c : Cube K) (pts : List (Point K)) (dx : K) (ff fill : Bool) :
    c.Fill pts dx ff fill =
      ⟨c.setOriginMass,
       pts ++ (if fill then
          (lexNodes
            (loopLE (if ff then 0 else 1)
              (if ff then truncToInt (c.m_lx / dx) else truncToInt (c.m_lx / dx) - 1))
            (loopLE (if ff then 0 else 1)
              (if ff then truncToInt (c.m_ly / dx) else truncToInt (c.m_ly / dx) - 1))
            (loopLE (if ff then 0 else 1)
              (if ff then truncToInt (c.m_lz / dx) else truncToInt (c.m_lz / dx) - 1))).map
            (fun t => fillPoint c.setOriginMass (truncToInt (c.m_lx / dx))
              (truncToInt (c.m_ly / dx)) (truncToInt (c.m_lz / dx)) t.1 t.2.1 t.2.2)
          else []),
       ((loopLE (if ff then 0 else 1)
              (if ff then truncToInt (c.m_lx / dx) else truncToInt (c.m_lx / dx) - 1)).length : ℤ)
        * ((loopLE (if ff then 0 else 1)
              (if ff then truncToInt (c.m_ly / dx) else truncToInt (c.m_ly / dx) - 1)).length : ℤ)
        * ((loopLE (if ff then 0 else 1)
              (if ff then truncToInt (c.m_lz / dx) else truncToInt (c.m_lz / dx) - 1)).length : ℤ)⟩ := by
  have hb : ∀ (d : Cube K) (nx ny nz : ℤ) (i j k : ℤ) (st : List (Point K) × ℤ),
      fillBody d nx ny nz fill i j k st
        = ((if fill then st.1 ++ [fillPoint d nx ny nz i j k] else st.1), st.2 + 1) := by
    intros
    rfl
  unfold Fill
  simp only [hb, foldl_push3]
  cases ff <;> simp [setOriginMass]

/-- `Cube::InnerFill` in closed form. -/
theorem InnerFill_eq [FloorRing K] (c : Cube K) (pts : List (Point K)) (dx : K) :
    c.InnerFill pts dx =
      (c.setOriginMass,
       pts ++ (lexNodes (loopLT 0 (truncToInt (c.m_lx / dx)))
          (loopLT 0 (truncToInt (c.m_ly / dx))) (loopLT 0 (truncToInt (c.m_lz / dx)))).map
            (fun t => innerPoint c.setOriginMass (truncToInt (c.m_lx / dx))
              (truncToInt (c.m_ly / dx)) (truncToInt (c.m_lz / dx)) t.1 t.2.1 t.2.2)) := by
  unfold InnerFill
  simp only [foldl_append3]
  simp [setOriginMass]

theorem sorted_loopLE (lo hi : ℤ) : (loopLE lo hi).Sorted (· < ·) := by
  unfold loopLE
  refine List.Pairwise.map _ ?_ (List.pairwise_lt_range _)
  intro a b hab
  omega

theorem sorted_loopLT (lo hi : ℤ) : (loopLT lo hi).Sorted (· < ·) := by
  unfold loopLT
  refine List.Pairwise.map _ ?_ (List.pairwise_lt_range _)
  intro a b hab
  omega

theorem filter_loopLE (lo hi a b : ℤ) :
    (loopLE lo hi).filter (fun i => decide (a ≤ i ∧ i ≤ b)) = loopLE (max lo a) (min hi b) := by
  apply List.eq_of_perm_of_sorted (r := (· < ·))
  · apply (List.perm_ext_iff_of_nodup ((sorted_loopLE lo hi).nodup.filter _)
      (sorted_loopLE _ _).nodup).mpr
    intro i
    simp only [List.mem_filter, mem_loopLE, decide_eq_true_eq]
    omega
  · exact (sorted_loopLE lo hi).filter _
  · exact sorted_loopLE _ _

theorem filter_flatMap_map (x : ℤ) (q r : ℤ → Bool) (Ly Lz : List ℤ) :
    (Ly.flatMap (fun j => Lz.map (fun k => (x, j, k)))).filter (fun t => q t.2.1 && r t.2.2)
      = (Ly.filter q).flatMap (fun j => (Lz.filter r).map (fun k => (x, j, k))) := by
  induction Ly with
  | nil => simp
  | cons y M ih =>
    rw [List.flatMap_cons, List.filter_append, ih]
    cases hq : q y
    · simp [List.filter_cons, hq, List.filter_map, Function.comp_def]
    · simp [List.filter_cons, hq, List.filter_map, Function.comp_def]

theorem filter_lexNodes (p q r : ℤ → Bool) (Lx Ly Lz : List ℤ) :
    (lexNodes Lx Ly Lz).filter (fun t => p t.1 && (q t.2.1 && r t.2.2))
      = lexNodes (Lx.filter p) (Ly.filter q) (Lz.filter r) := by
  induction Lx with
  | nil => simp [lexNodes]
  | cons x M ih =>
    have e0 : ∀ (x : ℤ) (M : List ℤ) (Ly Lz : List ℤ), lexNodes (x :: M) Ly Lz
        = Ly.flatMap (fun j => Lz.map (fun k => (x, j, k))) ++ lexNodes M Ly Lz := by
      intros
      simp [lexNodes]
    rw [e0, List.filter_append, ih]
    cases hp : p x
    · have : (Ly.flatMap (fun j => Lz.map (fun k => (x, j, k)))).filter
          (fun t => p t.1 && (q t.2.1 && r t.2.2)) = [] := by
        rw [List.filter_eq_nil_iff]
        intro t ht
        simp only [List.mem_flatMap, List.mem_map] at ht
        obtain ⟨j, _, k, _, rfl⟩ := ht
        simp [hp]
      rw [this, List.filter_cons]
      simp [hp]
    · have : (Ly.flatMap (fun j => Lz.map (fun k => (x, j, k)))).filter
          (fun t => p t.1 && (q t.2.1 && r t.2.2))
          = (Ly.filter q).flatMap (fun j => (Lz.filter r).map (fun k => (x, j, k))) := by
        rw [← filter_flatMap_map]
        apply List.filter_congr
        intro t ht
        simp only [List.mem_flatMap, List.mem_map] at ht
        obtain ⟨j, _, k, _, rfl⟩ := ht
        simp [hp]
      rw [this, List.filter_cons]
      simp [hp, e0]

theorem mem_lexNodes {Lx Ly Lz : List ℤ} {t : ℤ × ℤ × ℤ} :
    t ∈ lexNodes Lx Ly Lz ↔ t.1 ∈ Lx ∧ t.2.1 ∈ Ly ∧ t.2.2 ∈ Lz := by
  obtain ⟨i, j, k⟩ := t
  simp only [lexNodes, List.mem_flatMap, List.mem_map, Prod.mk.injEq]
  constructor
  · rintro ⟨a, ha, b, hb, c, hc, rfl, rfl, rfl⟩
    exact ⟨ha, hb, hc⟩
  · rintro ⟨ha, hb, hc⟩
    exact ⟨i, ha, j, hb, k, hc, rfl, rfl, rfl⟩

theorem toNat_trunc_pred [FloorRing K] (q : K) :
    (((truncToInt q - 1).toNat : ℕ) : ℤ) = max (⌊q⌋ - 1) 0 := by
  rw [Int.toNat_eq_max]
  by_cases h : 0 ≤ q
  · rw [truncToInt_of_nonneg h]
  · have hq : q < 0 := lt_of_not_ge h
    have h1 : truncToInt q ≤ 0 := by
      simp only [truncToInt, if_neg h]
      exact Int.ceil_le.mpr (by simpa using hq.le)
    have h2 : ⌊q⌋ < 0 := Int.floor_lt.mpr (by simpa using hq)
    omega

theorem loopLE_one_trunc_pred [FloorRing K] (q : K) :
    loopLE 1 (truncToInt q - 1) = loopLE 1 (⌊q⌋ - 1) := by
  by_cases h : 0 ≤ q
  · rw [truncToInt_of_nonneg h]
  · have hq : q < 0 := lt_of_not_ge h
    have h1 : truncToInt q ≤ 0 := by
      simp only [truncToInt, if_neg h]
      exact Int.ceil_le.mpr (by simpa using hq.le)
    have h2 : ⌊q⌋ < 0 := Int.floor_lt.mpr (by simpa using hq)
    have e1 : (truncToInt q - 1 + 1 - 1).toNat = 0 := by omega
    have e2 : (⌊q⌋ - 1 + 1 - 1).toNat = 0 := by omega
    unfold loopLE
    rw [e1, e2]

theorem truncToInt_eq_floor_of_two_le [FloorRing K] {q : K} (h : 2 ≤ ⌊q⌋) :
    truncToInt q = ⌊q⌋ :=
  truncToInt_of_one_le_floor (by omega)


theorem nodup_lexNodes {Lx Ly Lz : List ℤ} (hx : Lx.Nodup) (hy : Ly.Nodup) (hz : Lz.Nodup) :
    (lexNodes Lx Ly Lz).Nodup := by
  unfold lexNodes
  rw [List.nodup_flatMap]
  constructor
  · intro i _
    rw [List.nodup_flatMap]
    constructor
    · intro j _
      refine hz.map ?_
      intro a b h
      simpa using h
    · refine hy.imp ?_
      intro a b hab
      simp only [Function.onFun, List.disjoint_left, List.mem_map, not_exists, not_and]
      rintro t ⟨k, _, rfl⟩ k2 _ h
      exact hab (by simpa using (congrArg (fun t => t.2.1) h).symm)
  · refine hx.imp ?_
    intro a b hab
    simp only [Function.onFun, List.disjoint_left, List.mem_flatMap, List.mem_map, not_exists,
      not_and]
    rintro t ⟨j, _, k, _, rfl⟩ j2 _ k2 _ h
    exact hab (by simpa using (congrArg (fun t => t.1) h).symm)

theorem getElem?_lexNodes_loopLE (nx ny nz i j k : ℤ)
    (hi0 : 0 ≤ i) (hi : i ≤ nx) (hj0 : 0 ≤ j) (hj : j ≤ ny) (hk0 : 0 ≤ k) (hk : k ≤ nz) :
    (lexNodes (loopLE 0 nx) (loopLE 0 ny) (loopLE 0 nz))[((i * (ny + 1) + j) * (nz + 1)
      + k).toNat]? = some (i, j, k) := by
  have h := getElem?_lexNodes (loopLE 0 nx) (loopLE 0 ny) (loopLE 0 nz)
    i.toNat j.toNat k.toNat i j k
    (by rw [getElem?_loopLE 0 nx i.toNat (by omega)]; simp; omega)
    (by rw [getElem?_loopLE 0 ny j.toNat (by omega)]; simp; omega)
    (by rw [getElem?_loopLE 0 nz k.toNat (by omega)]; simp; omega)
  rw [length_loopLE, length_loopLE] at h
  have e : (i.toNat * (ny + 1 - 0).toNat + j.toNat) * (nz + 1 - 0).toNat + k.toNat
      = ((i * (ny + 1) + j) * (nz + 1) + k).toNat := by
    obtain ⟨a, rfl⟩ := Int.eq_ofNat_of_zero_le hi0
    obtain ⟨b, rfl⟩ := Int.eq_ofNat_of_zero_le hj0
    obtain ⟨d, rfl⟩ := Int.eq_ofNat_of_zero_le hk0
    obtain ⟨Ny, rfl⟩ := Int.eq_ofNat_of_zero_le (by omega : 0 ≤ ny)
    obtain ⟨Nz, rfl⟩ := Int.eq_ofNat_of_zero_le (by omega : 0 ≤ nz)
    simp only [sub_zero, Int.toNat_ofNat]
    have e1 : ((Ny : ℤ) + 1).toNat = Ny + 1 := by omega
    have e2 : ((Nz : ℤ) + 1).toNat = Nz + 1 := by omega
    rw [e1, e2]
    have e3 : ((a : ℤ) * ((Ny : ℤ) + 1) + (b : ℤ)) * ((Nz : ℤ) + 1) + (d : ℤ)
        = (((a * (Ny + 1) + b) * (Nz + 1) + d : ℕ) : ℤ) := by push_cast; ring
    rw [e3, Int.toNat_ofNat]
  rw [e] at h
  exact h

theorem getElem?_lexNodes_loopLT (nx ny nz i j k : ℤ)
    (hi0 : 0 ≤ i) (hi : i < nx) (hj0 : 0 ≤ j) (hj : j < ny) (hk0 : 0 ≤ k) (hk : k < nz) :
    (lexNodes (loopLT 0 nx) (loopLT 0 ny) (loopLT 0 nz))[((i * ny + j) * nz + k).toNat]?
      = some (i, j, k) := by
  have h := getElem?_lexNodes (loopLT 0 nx) (loopLT 0 ny) (loopLT 0 nz)
    i.toNat j.toNat k.toNat i j k
    (by rw [getElem?_loopLT 0 nx i.toNat (by omega)]; simp; omega)
    (by rw [getElem?_loopLT 0 ny j.toNat (by omega)]; simp; omega)
    (by rw [getElem?_loopLT 0 nz k.toNat (by omega)]; simp; omega)
  rw [length_loopLT, length_loopLT] at h
  have e : (i.toNat * (ny - 0).toNat + j.toNat) * (nz - 0).toNat + k.toNat
      = ((i * ny + j) * nz + k).toNat := by
    obtain ⟨a, rfl⟩ := Int.eq_ofNat_of_zero_le hi0
    obtain ⟨b, rfl⟩ := Int.eq_ofNat_of_zero_le hj0
    obtain ⟨d, rfl⟩ := Int.eq_ofNat_of_zero_le hk0
    obtain ⟨Ny, rfl⟩ := Int.eq_ofNat_of_zero_le (by omega : 0 ≤ ny)
    obtain ⟨Nz, rfl⟩ := Int.eq_ofNat_of_zero_le (by omega : 0 ≤ nz)
    simp only [sub_zero, Int.toNat_ofNat]
    have e3 : ((a : ℤ) * (Ny : ℤ) + (b : ℤ)) * (Nz : ℤ) + (d : ℤ)
        = (((a * Ny + b) * Nz + d : ℕ) : ℤ) := by push_cast; ring
    rw [e3, Int.toNat_ofNat]
  rw [e] at h
  exact h

end Cube

/-! ### Rotation matrices and the axis-angle decomposition -/

namespace Mat3

theorem IsRotation.cofactors {r : Mat3 K} (h : r.IsRotation) :
    (r.m11 * r.m22 - r.m12 * r.m21 = r.m00 ∧ r.m12 * r.m20 - r.m10 * r.m22 = r.m01 ∧
      r.m10 * r.m21 - r.m11 * r.m20 = r.m02) ∧
    (r.m02 * r.m21 - r.m01 * r.m22 = r.m10 ∧ r.m00 * r.m22 - r.m02 * r.m20 = r.m11 ∧
      r.m01 * r.m20 - r.m00 * r.m21 = r.m12) ∧
    (r.m01 * r.m12 - r.m02 * r.m11 = r.m20 ∧ r.m02 * r.m10 - r.m00 * r.m12 = r.m21 ∧
      r.m00 * r.m11 - r.m01 * r.m10 = r.m22) := by
  obtain ⟨⟨h00, h11, h22, h01, h02, h12⟩, hd⟩ := h
  simp only [det] at hd
  refine ⟨⟨?_, ?_, ?_⟩, ⟨?_, ?_, ?_⟩, ⟨?_, ?_, ?_⟩⟩
  · linear_combination r.m00 * hd - (r.m11 * r.m22 - r.m12 * r.m21) * h00
      - (r.m12 * r.m20 - r.m10 * r.m22) * h01 - (r.m10 * r.m21 - r.m11 * r.m20) * h02
  · linear_combination r.m01 * hd - (r.m11 * r.m22 - r.m12 * r.m21) * h01
      - (r.m12 * r.m20 - r.m10 * r.m22) * h11 - (r.m10 * r.m21 - r.m11 * r.m20) * h12
  · linear_combination r.m02 * hd - (r.m11 * r.m22 - r.m12 * r.m21) * h02
      - (r.m12 * r.m20 - r.m10 * r.m22) * h12 - (r.m10 * r.m21 - r.m11 * r.m20) * h22
  · linear_combination r.m10 * hd - (r.m02 * r.m21 - r.m01 * r.m22) * h00
      - (r.m00 * r.m22 - r.m02 * r.m20) * h01 - (r.m01 * r.m20 - r.m00 * r.m21) * h02
  · linear_combination r.m11 * hd - (r.m02 * r.m21 - r.m01 * r.m22) * h01
      - (r.m00 * r.m22 - r.m02 * r.m20) * h11 - (r.m01 * r.m20 - r.m00 * r.m21) * h12
  · linear_combination r.m12 * hd - (r.m02 * r.m21 - r.m01 * r.m22) * h02
      - (r.m00 * r.m22 - r.m02 * r.m20) * h12 - (r.m01 * r.m20 - r.m00 * r.m21) * h22
  · linear_combination r.m20 * hd - (r.m01 * r.m12 - r.m02 * r.m11) * h00
      - (r.m02 * r.m10 - r.m00 * r.m12) * h01 - (r.m00 * r.m11 - r.m01 * r.m10) * h02
  · linear_combination r.m21 * hd - (r.m01 * r.m12 - r.m02 * r.m11) * h01
      - (r.m02 * r.m10 - r.m00 * r.m12) * h11 - (r.m00 * r.m11 - r.m01 * r.m10) * h12
  · linear_combination r.m22 * hd - (r.m01 * r.m12 - r.m02 * r.m11) * h02
      - (r.m02 * r.m10 - r.m00 * r.m12) * h12 - (r.m00 * r.m11 - r.m01 * r.m10) * h22


theorem IsRotation.rows {r : Mat3 K} (h : r.IsRotation) :
    (r.m00 * r.m00 + r.m01 * r.m01 + r.m02 * r.m02 = 1 ∧
      r.m10 * r.m10 + r.m11 * r.m11 + r.m12 * r.m12 = 1 ∧
      r.m20 * r.m20 + r.m21 * r.m21 + r.m22 * r.m22 = 1) ∧
    (r.m00 * r.m10 + r.m01 * r.m11 + r.m02 * r.m12 = 0 ∧
      r.m00 * r.m20 + r.m01 * r.m21 + r.m02 * r.m22 = 0 ∧
      r.m10 * r.m20 + r.m11 * r.m21 + r.m12 * r.m22 = 0) := by
  obtain ⟨⟨c00, c01, c02⟩, ⟨c10, c11, c12⟩, ⟨c20, c21, c22⟩⟩ := h.cofactors
  obtain ⟨-, hd⟩ := h
  simp only [det] at hd
  refine ⟨⟨?_, ?_, ?_⟩, ⟨?_, ?_, ?_⟩⟩
  · linear_combination hd - r.m00 * c00 - r.m01 * c01 - r.m02 * c02
  · linear_combination hd - r.m10 * c10 - r.m11 * c11 - r.m12 * c12
  · linear_combination hd - r.m20 * c20 - r.m21 * c21 - r.m22 * c22
  · linear_combination - r.m00 * c10 - r.m01 * c11 - r.m02 * c12
  · linear_combination - r.m00 * c20 - r.m01 * c21 - r.m02 * c22
  · linear_combination - r.m10 * c20 - r.m11 * c21 - r.m12 * c22

/-- The squared norm of `(R21-R12, R02-R20, R10-R01)` is `4 - (trace-1)²`. -/
theorem IsRotation.axis_norm_sq {r : Mat3 K} (h : r.IsRotation) :
    (r.m21 - r.m12) * (r.m21 - r.m12) + (r.m02 - r.m20) * (r.m02 - r.m20)
      + (r.m10 - r.m01) * (r.m10 - r.m01) = 4 - (r.trace - 1) * (r.trace - 1) := by
  obtain ⟨⟨c00, -, -⟩, ⟨-, c11, -⟩, ⟨-, -, c22⟩⟩ := h.cofactors
  obtain ⟨⟨h00, h11, h22, -, -, -⟩, -⟩ := h
  simp only [trace]
  linear_combination h00 + h11 + h22 + 2 * c00 + 2 * c11 + 2 * c22

/-- The products of the components of `(R21-R12, R02-R20, R10-R01)`. -/
theorem IsRotation.axis_products {r : Mat3 K} (h : r.IsRotation) :
    ((r.m21 - r.m12) * (r.m21 - r.m12) = (1 + r.trace) * (2 * r.m00 - r.trace + 1) ∧
      (r.m02 - r.m20) * (r.m02 - r.m20) = (1 + r.trace) * (2 * r.m11 - r.trace + 1) ∧
      (r.m10 - r.m01) * (r.m10 - r.m01) = (1 + r.trace) * (2 * r.m22 - r.trace + 1)) ∧
    ((r.m21 - r.m12) * (r.m02 - r.m20) = (1 + r.trace) * (r.m01 + r.m10) ∧
      (r.m21 - r.m12) * (r.m10 - r.m01) = (1 + r.trace) * (r.m02 + r.m20) ∧
      (r.m02 - r.m20) * (r.m10 - r.m01) = (1 + r.trace) * (r.m12 + r.m21)) := by
  obtain ⟨⟨c00, c01, c02⟩, ⟨c10, c11, c12⟩, ⟨c20, c21, c22⟩⟩ := h.cofactors
  obtain ⟨⟨r00, r11, r22⟩, ⟨r01, r02, r12⟩⟩ := h.rows
  obtain ⟨⟨h00, h11, h22, h01, h02, h12⟩, -⟩ := h
  simp only [trace]
  refine ⟨⟨?_, ?_, ?_⟩, ⟨?_, ?_, ?_⟩⟩
  · linear_combination (1 / 2 : K) * (h11 + r11 + h22 + r22 - h00 - r00) + 2 * c00
  · linear_combination (1 / 2 : K) * (h00 + r00 + h22 + r22 - h11 - r11) + 2 * c11
  · linear_combination (1 / 2 : K) * (h00 + r00 + h11 + r11 - h22 - r22) + 2 * c22
  · linear_combination c10 + c01 - h01 - r01
  · linear_combination c20 + c02 - h02 - r02
  · linear_combination c21 + c12 - h12 - r12


theorem ext_entries {F : Type} {r q : Mat3 F} (h00 : r.m00 = q.m00) (h01 : r.m01 = q.m01)
    (h02 : r.m02 = q.m02) (h10 : r.m10 = q.m10) (h11 : r.m11 = q.m11) (h12 : r.m12 = q.m12)
    (h20 : r.m20 = q.m20) (h21 : r.m21 = q.m21) (h22 : r.m22 = q.m22) : r = q := by
  cases r
  cases q
  simp only [Mat3.mk.injEq]
  exact ⟨h00, h01, h02, h10, h11, h12, h20, h21, h22⟩

/-- The generic branch: for a rotation whose angle has cosine `c` strictly
between `-1` and `1` and sine `s ≥ 0`, the vector `(R21-R12, R02-R20,
R10-R01)` has norm `2s`, and the rotation about it (scaled to unit length) by
that angle is the matrix itself. -/
theorem IsRotation.axisAngle_generic {r : Mat3 K} (h : r.IsRotation) {c s n : K}
    (hc : c = 1 / 2 * (r.trace - 1)) (hlo : -1 < c) (hhi : c < 1)
    (hs0 : 0 ≤ s) (hs : s * s = 1 - c * c) (hn0 : 0 ≤ n)
    (hn : n * n = (r.m21 - r.m12) * (r.m21 - r.m12) + (r.m02 - r.m20) * (r.m02 - r.m20)
      + (r.m10 - r.m01) * (r.m10 - r.m01)) :
    n = 2 * s ∧ 0 < n ∧
    ((r.m21 - r.m12) / n) * ((r.m21 - r.m12) / n) + ((r.m02 - r.m20) / n) * ((r.m02 - r.m20) / n)
      + ((r.m10 - r.m01) / n) * ((r.m10 - r.m01) / n) = 1 ∧
    axisAngleMatrix ⟨(r.m21 - r.m12) / n, (r.m02 - r.m20) / n, (r.m10 - r.m01) / n⟩ c s
      = r := by
  have ht : r.trace = 2 * c + 1 := by rw [hc]; ring
  have hss : 0 < s * s := by rw [hs]; nlinarith
  have hspos : 0 < s := by
    rcases hs0.lt_or_eq with h1 | h1
    · exact h1
    · rw [← h1] at hss; simp at hss
  have hnn : n * n = (2 * s) * (2 * s) := by
    rw [hn, h.axis_norm_sq, ht]
    linear_combination (-4 : K) * hs
  have hn2 : n = 2 * s := by
    have h0 : (n - 2 * s) * (n + 2 * s) = 0 := by linear_combination hnn
    rcases mul_eq_zero.mp h0 with h1 | h1
    · linarith
    · linarith
  have hnpos : 0 < n := by rw [hn2]; linarith
  have h1c : (1 + c) ≠ 0 := by linarith
  obtain ⟨⟨p00, p11, p22⟩, ⟨p01, p02, p12⟩⟩ := h.axis_products
  rw [ht] at p00 p11 p22 p01 p02 p12
  -- the components of the unit axis
  obtain ⟨ax, hax⟩ : ∃ ax, ax = (r.m21 - r.m12) / n := ⟨_, rfl⟩
  obtain ⟨ay, hay⟩ : ∃ ay, ay = (r.m02 - r.m20) / n := ⟨_, rfl⟩
  obtain ⟨az, haz⟩ : ∃ az, az = (r.m10 - r.m01) / n := ⟨_, rfl⟩
  have hx : 2 * s * ax = r.m21 - r.m12 := by rw [hax, hn2]; field_simp
  have hy : 2 * s * ay = r.m02 - r.m20 := by rw [hay, hn2]; field_simp
  have hz : 2 * s * az = r.m10 - r.m01 := by rw [haz, hn2]; field_simp
  rw [← hax, ← hay, ← haz]
  have e00 : (1 - c) * ax * ax = r.m00 - c := by
    apply mul_left_cancel₀ h1c
    linear_combination (1 / 4 : K) * p00 - ax * ax * hs
      + (1 / 4 : K) * (2 * s * ax + (r.m21 - r.m12)) * hx
  have e11 : (1 - c) * ay * ay = r.m11 - c := by
    apply mul_left_cancel₀ h1c
    linear_combination (1 / 4 : K) * p11 - ay * ay * hs
      + (1 / 4 : K) * (2 * s * ay + (r.m02 - r.m20)) * hy
  have e22 : (1 - c) * az * az = r.m22 - c := by
    apply mul_left_cancel₀ h1c
    linear_combination (1 / 4 : K) * p22 - az * az * hs
      + (1 / 4 : K) * (2 * s * az + (r.m10 - r.m01)) * hz
  have e01 : (1 - c) * ax * ay = (r.m01 + r.m10) / 2 := by
    apply mul_left_cancel₀ h1c
    linear_combination (1 / 4 : K) * p01 - ax * ay * hs
      + (1 / 4 : K) * (2 * s * ay) * hx + (1 / 4 : K) * (r.m21 - r.m12) * hy
  have e02 : (1 - c) * ax * az = (r.m02 + r.m20) / 2 := by
    apply mul_left_cancel₀ h1c
    linear_combination (1 / 4 : K) * p02 - ax * az * hs
      + (1 / 4 : K) * (2 * s * az) * hx + (1 / 4 : K) * (r.m21 - r.m12) * hz
  have e12 : (1 - c) * ay * az = (r.m12 + r.m21) / 2 := by
    apply mul_left_cancel₀ h1c
    linear_combination (1 / 4 : K) * p12 - ay * az * hs
      + (1 / 4 : K) * (2 * s * az) * hy + (1 / 4 : K) * (r.m02 - r.m20) * hz
  refine ⟨hn2, hnpos, ?_, ?_⟩
  · have h1m : (1 - c) ≠ 0 := by linarith
    apply mul_left_cancel₀ h1m
    simp only [trace] at ht
    linear_combination e00 + e11 + e22 + ht
  · apply ext_entries <;> simp only [axisAngleMatrix]
    · linear_combination e00
    · linear_combination e01 - (1 / 2 : K) * hz
    · linear_combination e02 + (1 / 2 : K) * hy
    · linear_combination e01 + (1 / 2 : K) * hz
    · linear_combination e11
    · linear_combination e12 - (1 / 2 : K) * hx
    · linear_combination e02 - (1 / 2 : K) * hy
    · linear_combination e12 + (1 / 2 : K) * hx
    · linear_combination e22


/-- The trace of a rotation lies between `-1` and `3`. -/
theorem IsRotation.trace_bounds {r : Mat3 K} (h : r.IsRotation) :
    -1 ≤ r.trace ∧ r.trace ≤ 3 := by
  have h1 := h.axis_norm_sq
  have h2 : 0 ≤ (r.m21 - r.m12) * (r.m21 - r.m12) + (r.m02 - r.m20) * (r.m02 - r.m20)
      + (r.m10 - r.m01) * (r.m10 - r.m01) :=
    add_nonneg (add_nonneg (mul_self_nonneg _) (mul_self_nonneg _)) (mul_self_nonneg _)
  rw [h1] at h2
  constructor <;> nlinarith

theorem sq_add_sq_eq_zero {a b : K} (hab : a * a + b * b = 0) : a = 0 ∧ b = 0 := by
  have ha : a * a = 0 := by
    nlinarith [mul_self_nonneg a, mul_self_nonneg b]
  have hb : b * b = 0 := by
    nlinarith [mul_self_nonneg a, mul_self_nonneg b]
  exact ⟨mul_self_eq_zero.mp ha, mul_self_eq_zero.mp hb⟩

/-- A rotation of trace `3` is the identity. -/
theorem IsRotation.eq_identity_of_trace {r : Mat3 K} (h : r.IsRotation) (ht : r.trace = 3) :
    r = Mat3.identity := by
  obtain ⟨⟨h00, h11, h22, h01, h02, h12⟩, -⟩ := h
  simp only [trace] at ht
  have b0 : r.m00 ≤ 1 := by
    nlinarith [mul_self_nonneg r.m10, mul_self_nonneg r.m20, mul_self_nonneg (r.m00 - 1)]
  have b1 : r.m11 ≤ 1 := by
    nlinarith [mul_self_nonneg r.m01, mul_self_nonneg r.m21, mul_self_nonneg (r.m11 - 1)]
  have b2 : r.m22 ≤ 1 := by
    nlinarith [mul_self_nonneg r.m02, mul_self_nonneg r.m12, mul_self_nonneg (r.m22 - 1)]
  have e0 : r.m00 = 1 := by linarith
  have e1 : r.m11 = 1 := by linarith
  have e2 : r.m22 = 1 := by linarith
  rw [e0] at h00
  rw [e1] at h11
  rw [e2] at h22
  obtain ⟨z10, z20⟩ := sq_add_sq_eq_zero (a := r.m10) (b := r.m20) (by linarith)
  obtain ⟨z01, z21⟩ := sq_add_sq_eq_zero (a := r.m01) (b := r.m21) (by linarith)
  obtain ⟨z02, z12⟩ := sq_add_sq_eq_zero (a := r.m02) (b := r.m12) (by linarith)
  apply ext_entries <;> simp only [identity] <;> assumption

/-- A rotation of trace `-1` is symmetric. -/
theorem IsRotation.symm_of_trace {r : Mat3 K} (h : r.IsRotation) (ht : r.trace = -1) :
    r.m21 = r.m12 ∧ r.m02 = r.m20 ∧ r.m10 = r.m01 := by
  have h1 := h.axis_norm_sq
  rw [ht] at h1
  have h2 : (r.m21 - r.m12) * (r.m21 - r.m12) = 0 := by
    nlinarith [mul_self_nonneg (r.m21 - r.m12), mul_self_nonneg (r.m02 - r.m20),
      mul_self_nonneg (r.m10 - r.m01)]
  have h3 : (r.m02 - r.m20) * (r.m02 - r.m20) = 0 := by
    nlinarith [mul_self_nonneg (r.m21 - r.m12), mul_self_nonneg (r.m02 - r.m20),
      mul_self_nonneg (r.m10 - r.m01)]
  have h4 : (r.m10 - r.m01) * (r.m10 - r.m01) = 0 := by
    nlinarith [mul_self_nonneg (r.m21 - r.m12), mul_self_nonneg (r.m02 - r.m20),
      mul_self_nonneg (r.m10 - r.m01)]
  exact ⟨sub_eq_zero.mp (mul_self_eq_zero.mp h2), sub_eq_zero.mp (mul_self_eq_zero.mp h3),
    sub_eq_zero.mp (mul_self_eq_zero.mp h4)⟩

/-- For a rotation of trace `-1`, `R + 1` has rank one: its minors vanish. -/
theorem IsRotation.minors_of_trace {r : Mat3 K} (h : r.IsRotation) (ht : r.trace = -1) :
    (r.m01 * r.m01 = (1 + r.m00) * (1 + r.m11) ∧ r.m02 * r.m02 = (1 + r.m00) * (1 + r.m22) ∧
      r.m12 * r.m12 = (1 + r.m11) * (1 + r.m22)) ∧
    (r.m01 * r.m02 = (1 + r.m00) * r.m12 ∧ r.m01 * r.m12 = (1 + r.m11) * r.m02 ∧
      r.m02 * r.m12 = (1 + r.m22) * r.m01) := by
  obtain ⟨s21, s02, s10⟩ := h.symm_of_trace ht
  obtain ⟨⟨c00, c01, c02⟩, ⟨c10, c11, c12⟩, ⟨c20, c21, c22⟩⟩ := h.cofactors
  simp only [trace] at ht
  refine ⟨⟨?_, ?_, ?_⟩, ⟨?_, ?_, ?_⟩⟩
  · linear_combination -c22 - r.m01 * s10 - ht
  · linear_combination -c11 + r.m02 * s02 - ht
  · linear_combination -c00 - r.m12 * s21 - ht
  · linear_combination c21 + s21 - r.m02 * s10
  · linear_combination c20 - s02
  · linear_combination c10 + s10 - r.m02 * s21

/-- The arithmetic of the branches of angle `π`: from the largest diagonal
term `d` with `y² = 2(1+d)`, the axis `(y/2, p/y, q/y)` is a unit vector and
`2 a aᵀ - 1` has the entries of the matrix. -/
theorem pi_branch_algebra {d e f p q o y : K} (ht : d + e + f = -1)
    (hp : p * p = (1 + d) * (1 + e)) (hq : q * q = (1 + d) * (1 + f))
    (hpq : p * q = (1 + d) * o) (hy : y * y = 2 * (1 + d)) (hy0 : y ≠ 0) :
    (1 / 2 * y) * (1 / 2 * y) + ((1 / 2) / (1 / 2 * y) * p) * ((1 / 2) / (1 / 2 * y) * p)
      + ((1 / 2) / (1 / 2 * y) * q) * ((1 / 2) / (1 / 2 * y) * q) = 1 ∧
    -1 + (1 - -1) * (1 / 2 * y) * (1 / 2 * y) = d ∧
    (1 - -1) * (1 / 2 * y) * ((1 / 2) / (1 / 2 * y) * p) = p ∧
    (1 - -1) * (1 / 2 * y) * ((1 / 2) / (1 / 2 * y) * q) = q ∧
    -1 + (1 - -1) * ((1 / 2) / (1 / 2 * y) * p) * ((1 / 2) / (1 / 2 * y) * p) = e ∧
    -1 + (1 - -1) * ((1 / 2) / (1 / 2 * y) * q) * ((1 / 2) / (1 / 2 * y) * q) = f ∧
    (1 - -1) * ((1 / 2) / (1 / 2 * y) * p) * ((1 / 2) / (1 / 2 * y) * q) = o := by
  obtain ⟨u, hu⟩ : ∃ u : K, u * y = 1 := ⟨1 / y, by field_simp⟩
  have e1 : (1 / 2 : K) / (1 / 2 * y) = u := by
    rw [div_eq_iff (mul_ne_zero (by norm_num) hy0)]
    linear_combination (-1 / 2 : K) * hu
  rw [e1]
  have hud : 2 * (u * u) * (1 + d) = 1 := by
    linear_combination (u * y + 1) * hu - u * u * hy
  refine ⟨?_, ?_, ?_, ?_, ?_, ?_, ?_⟩
  · linear_combination (1 / 4 : K) * hy + u * u * hp + u * u * hq
      + (1 / 2 : K) * (1 - d) * hud + u * u * (1 + d) * ht
  · linear_combination (1 / 2 : K) * hy
  · linear_combination p * hu
  · linear_combination q * hu
  · linear_combination 2 * (u * u) * hp + (1 + e) * hud
  · linear_combination 2 * (u * u) * hq + (1 + f) * hud
  · linear_combination 2 * (u * u) * hpq + o * hud


/-- The determinant of a matrix with orthonormal columns is `±1`. -/
theorem Orthonormal.det_mul_self {r : Mat3 K} (h : r.Orthonormal) : r.det * r.det = 1 := by
  obtain ⟨h00, h11, h22, h01, h02, h12⟩ := h
  simp only [det]
  linear_combination
    ((r.m01 * r.m01 + r.m11 * r.m11 + r.m21 * r.m21)
      * (r.m02 * r.m02 + r.m12 * r.m12 + r.m22 * r.m22)) * h00
    + (r.m02 * r.m02 + r.m12 * r.m12 + r.m22 * r.m22) * h11 + h22
    + (2 * (r.m00 * r.m02 + r.m10 * r.m12 + r.m20 * r.m22)
        * (r.m01 * r.m02 + r.m11 * r.m12 + r.m21 * r.m22)
      - (r.m02 * r.m02 + r.m12 * r.m12 + r.m22 * r.m22)
        * (r.m00 * r.m01 + r.m10 * r.m11 + r.m20 * r.m21)) * h01
    - ((r.m01 * r.m01 + r.m11 * r.m11 + r.m21 * r.m21)
        * (r.m00 * r.m02 + r.m10 * r.m12 + r.m20 * r.m22)) * h02
    - ((r.m00 * r.m00 + r.m10 * r.m10 + r.m20 * r.m20)
        * (r.m01 * r.m02 + r.m11 * r.m12 + r.m21 * r.m22)) * h12

/-- Orthonormal columns and a positive determinant make a proper rotation. -/
theorem Orthonormal.isRotation_of_det_pos {r : Mat3 K} (h : r.Orthonormal) (hd : 0 < r.det) :
    r.IsRotation := by
  refine ⟨h, ?_⟩
  have h2 := h.det_mul_self
  have h3 : (r.det - 1) * (r.det + 1) = 0 := by linear_combination h2
  rcases mul_eq_zero.mp h3 with h4 | h4
  · linarith
  · linarith

end Mat3

namespace Cube

/-- What the axis derivation achieves (Cube.cc 116-178): for a rotation
matrix, an angle that is positive exactly when `cs < 1` and below `M_PI`
exactly when `cs > -1`, and an exact square root, the axis derived is a unit
vector and the rotation about it by the angle of cosine `cs` and sine
`s ≥ 0` is the matrix. -/
theorem rotationAxis_spec (rt : Routines K) {mat : Mat3 K} (hm : mat.IsRotation)
    (cs angle : K) (hcs : cs = 1 / 2 * (mat.trace - 1))
    (hpos : 0 < angle ↔ cs < 1) (hlt : angle < rt.pi ↔ -1 < cs)
    (hroot : ∀ x, rotationAxisRoot rt mat angle = some x → rt.SqrtAt x) :
    (rotationAxis rt mat angle).dot (rotationAxis rt mat angle) = 1 ∧
    ∀ s : K, 0 ≤ s → s * s = 1 - cs * cs →
      axisAngleMatrix (rotationAxis rt mat angle) cs s = mat := by
  obtain ⟨tlo, thi⟩ := hm.trace_bounds
  have hcs1 : cs ≤ 1 := by rw [hcs]; linarith
  have hcs2 : -1 ≤ cs := by rw [hcs]; linarith
  by_cases h1 : cs < 1
  · have ha : angle > 0 := hpos.mpr h1
    by_cases h2 : -1 < cs
    · -- the generic branch
      have hb : angle < rt.pi := hlt.mpr h2
      have hr := hroot ((⟨mat.m21 - mat.m12, mat.m02 - mat.m20, mat.m10 - mat.m01⟩ : Vector K).dot
          ⟨mat.m21 - mat.m12, mat.m02 - mat.m20, mat.m10 - mat.m01⟩)
        (by simp only [rotationAxisRoot, if_pos ha, if_pos hb])
      obtain ⟨hn0, hn⟩ := hr
      simp only [Vector.dot] at hn
      have hax : rotationAxis rt mat angle
          = ⟨(mat.m21 - mat.m12) / rt.sqrt ((mat.m21 - mat.m12) * (mat.m21 - mat.m12)
              + (mat.m02 - mat.m20) * (mat.m02 - mat.m20)
              + (mat.m10 - mat.m01) * (mat.m10 - mat.m01)),
            (mat.m02 - mat.m20) / rt.sqrt ((mat.m21 - mat.m12) * (mat.m21 - mat.m12)
              + (mat.m02 - mat.m20) * (mat.m02 - mat.m20)
              + (mat.m10 - mat.m01) * (mat.m10 - mat.m01)),
            (mat.m10 - mat.m01) / rt.sqrt ((mat.m21 - mat.m12) * (mat.m21 - mat.m12)
              + (mat.m02 - mat.m20) * (mat.m02 - mat.m20)
              + (mat.m10 - mat.m01) * (mat.m10 - mat.m01))⟩ := by
        simp only [rotationAxis, if_pos ha, if_pos hb, Vector.norm, Vector.dot, Vector.sdiv_eq]
      rw [hax]
      refine ⟨?_, ?_⟩
      · have hs : (0 : K) ≤ 1 - cs * cs := by nlinarith
        -- a non-negative root of `1 - cs²` is `n / 2`
        have key := hm.axisAngle_generic (c := cs)
          (s := rt.sqrt ((mat.m21 - mat.m12) * (mat.m21 - mat.m12)
              + (mat.m02 - mat.m20) * (mat.m02 - mat.m20)
              + (mat.m10 - mat.m01) * (mat.m10 - mat.m01)) / 2) hcs h2 h1
          (by positivity)
          (by
            rw [div_mul_div_comm, hn, hm.axis_norm_sq, hcs]
            ring)
          hn0 hn
        exact key.2.2.1
      · intro s hs0 hs
        exact (hm.axisAngle_generic hcs h2 h1 hs0 hs hn0 hn).2.2.2
    · -- the branches of angle π
      have hb : ¬ angle < rt.pi := fun hb => h2 (hlt.mp hb)
      have hc : cs = -1 := le_antisymm (not_lt.mp h2) hcs2
      have ht : mat.trace = -1 := by
        have : (1 / 2 : K) * (mat.trace - 1) = -1 := by rw [← hcs, hc]
        linarith
      have ht2 : mat.m00 + mat.m11 + mat.m22 = -1 := ht
      obtain ⟨s21, s02, s10⟩ := hm.symm_of_trace ht
      obtain ⟨⟨n01, n02, n12⟩, ⟨n012, n0112, n0212⟩⟩ := hm.minors_of_trace ht
      have hzero : ∀ s : K, s * s = 1 - cs * cs → s = 0 := by
        intro s hs
        rw [hc] at hs
        exact mul_self_eq_zero.mp (by rw [hs]; ring)
      by_cases g1 : mat.m00 ≥ mat.m11
      · by_cases g2 : mat.m00 ≥ mat.m22
        · obtain ⟨hy0, hy⟩ := hroot (1 + mat.m00 - mat.m11 - mat.m22) (by
            simp only [rotationAxisRoot, if_pos ha, if_neg hb, if_pos g1, if_pos g2])
          have hy2 : rt.sqrt (1 + mat.m00 - mat.m11 - mat.m22)
              * rt.sqrt (1 + mat.m00 - mat.m11 - mat.m22) = 2 * (1 + mat.m00) := by
            rw [hy]; linarith
          have hyne : rt.sqrt (1 + mat.m00 - mat.m11 - mat.m22) ≠ 0 := by
            intro h0
            rw [h0] at hy2
            linarith
          obtain ⟨a1, a2, a3, a4, a5, a6, a7⟩ :=
            Mat3.pi_branch_algebra ht2 n01 n02 n012 hy2 hyne
          simp only [rotationAxis, if_pos ha, if_neg hb, if_pos g1, if_pos g2, Vector.dot]
          refine ⟨a1, ?_⟩
          intro s _ hs
          rw [hzero s hs, hc]
          apply Mat3.ext_entries <;> simp only [axisAngleMatrix, zero_mul, sub_zero, add_zero]
          · exact a2
          · exact a3
          · exact a4
          · rw [s10]; linear_combination a3
          · exact a5
          · exact a7
          · rw [← s02]; linear_combination a4
          · rw [s21]; linear_combination a7
          · exact a6
        · obtain ⟨hy0, hy⟩ := hroot (1 + mat.m22 - mat.m00 - mat.m11) (by
            simp only [rotationAxisRoot, if_pos ha, if_neg hb, if_pos g1, if_neg g2])
          have hy2 : rt.sqrt (1 + mat.m22 - mat.m00 - mat.m11)
              * rt.sqrt (1 + mat.m22 - mat.m00 - mat.m11) = 2 * (1 + mat.m22) := by
            rw [hy]; linarith
          have hyne : rt.sqrt (1 + mat.m22 - mat.m00 - mat.m11) ≠ 0 := by
            intro h0
            rw [h0] at hy2
            have := not_le.mp g2
            linarith
          obtain ⟨a1, a2, a3, a4, a5, a6, a7⟩ :=
            Mat3.pi_branch_algebra (d := mat.m22) (e := mat.m00) (f := mat.m11)
              (by linarith) (by linear_combination n02) (by linear_combination n12)
              n0212 hy2 hyne
          simp only [rotationAxis, if_pos ha, if_neg hb, if_pos g1, if_neg g2, Vector.dot]
          refine ⟨by linear_combination a1, ?_⟩
          intro s _ hs
          rw [hzero s hs, hc]
          apply Mat3.ext_entries <;> simp only [axisAngleMatrix, zero_mul, sub_zero, add_zero]
          · exact a5
          · linear_combination a7
          · linear_combination a3
          · rw [s10]; linear_combination a7
          · exact a6
          · linear_combination a4
          · rw [← s02]; linear_combination a3
          · rw [s21]; linear_combination a4
          · exact a2
      · by_cases g2 : mat.m11 ≥ mat.m22
        · obtain ⟨hy0, hy⟩ := hroot (1 + mat.m11 - mat.m00 - mat.m22) (by
            simp only [rotationAxisRoot, if_pos ha, if_neg hb, if_neg g1, if_pos g2])
          have hy2 : rt.sqrt (1 + mat.m11 - mat.m00 - mat.m22)
              * rt.sqrt (1 + mat.m11 - mat.m00 - mat.m22) = 2 * (1 + mat.m11) := by
            rw [hy]; linarith
          have hyne : rt.sqrt (1 + mat.m11 - mat.m00 - mat.m22) ≠ 0 := by
            intro h0
            rw [h0] at hy2
            have := not_le.mp g1
            linarith
          obtain ⟨a1, a2, a3, a4, a5, a6, a7⟩ :=
            Mat3.pi_branch_algebra (d := mat.m11) (e := mat.m00) (f := mat.m22)
              (by linarith) (by linear_combination n01) n12 n0112 hy2 hyne
          simp only [rotationAxis, if_pos ha, if_neg hb, if_neg g1, if_pos g2, Vector.dot]
          refine ⟨by linear_combination a1, ?_⟩
          intro s _ hs
          rw [hzero s hs, hc]
          apply Mat3.ext_entries <;> simp only [axisAngleMatrix, zero_mul, sub_zero, add_zero]
          · exact a5
          · linear_combination a3
          · exact a7
          · rw [s10]; exact a3
          · exact a2
          · exact a4
          · rw [← s02]; linear_combination a7
          · rw [s21]; linear_combination a4
          · exact a6
        · obtain ⟨hy0, hy⟩ := hroot (1 + mat.m22 - mat.m00 - mat.m11) (by
            simp only [rotationAxisRoot, if_pos ha, if_neg hb, if_neg g1, if_neg g2])
          have hy2 : rt.sqrt (1 + mat.m22 - mat.m00 - mat.m11)
              * rt.sqrt (1 + mat.m22 - mat.m00 - mat.m11) = 2 * (1 + mat.m22) := by
            rw [hy]; linarith
          have hyne : rt.sqrt (1 + mat.m22 - mat.m00 - mat.m11) ≠ 0 := by
            intro h0
            rw [h0] at hy2
            have := not_le.mp g1
            have := not_le.mp g2
            linarith
          obtain ⟨a1, a2, a3, a4, a5, a6, a7⟩ :=
            Mat3.pi_branch_algebra (d := mat.m22) (e := mat.m00) (f := mat.m11)
              (by linarith) (by linear_combination n02) (by linear_combination n12)
              n0212 hy2 hyne
          simp only [rotationAxis, if_pos ha, if_neg hb, if_neg g1, if_neg g2, Vector.dot]
          refine ⟨by linear_combination a1, ?_⟩
          intro s _ hs
          rw [hzero s hs, hc]
          apply Mat3.ext_entries <;> simp only [axisAngleMatrix, zero_mul, sub_zero, add_zero]
          · exact a5
          · linear_combination a7
          · linear_combination a3
          · rw [s10]; linear_combination a7
          · exact a6
          · linear_combination a4
          · rw [← s02]; linear_combination a3
          · rw [s21]; linear_combination a4
          · exact a2
  · -- the angle is 0
    have ha : ¬ angle > 0 := fun ha => h1 (hpos.mp ha)
    have hc : cs = 1 := le_antisymm hcs1 (not_lt.mp h1)
    have ht : mat.trace = 3 := by
      have : (1 / 2 : K) * (mat.trace - 1) = 1 := by rw [← hcs, hc]
      linarith
    have hid := hm.eq_identity_of_trace ht
    simp only [rotationAxis, if_neg ha, Vector.dot]
    refine ⟨by norm_num, ?_⟩
    intro s _ hs
    have hs0 : s = 0 := by
      rw [hc] at hs
      exact mul_self_eq_zero.mp (by rw [hs]; ring)
    rw [hs0, hc, hid]
    simp [axisAngleMatrix, Mat3.identity]

end Cube

theorem Vector.dot_self_pos {v : Vector K} (hv : v ≠ ⟨0, 0, 0⟩) : 0 < v.dot v := by
  have h0 : 0 ≤ v.dot v := by
    simp only [Vector.dot]
    exact add_nonneg (add_nonneg (mul_self_nonneg _) (mul_self_nonneg _)) (mul_self_nonneg _)
  rcases h0.lt_or_eq with h | h
  · exact h
  · exfalso
    apply hv
    simp only [Vector.dot] at h
    have hx : v.x * v.x = 0 := by
      nlinarith [mul_self_nonneg v.x, mul_self_nonneg v.y, mul_self_nonneg v.z]
    have hy : v.y * v.y = 0 := by
      nlinarith [mul_self_nonneg v.x, mul_self_nonneg v.y, mul_self_nonneg v.z]
    have hz : v.z * v.z = 0 := by
      nlinarith [mul_self_nonneg v.x, mul_self_nonneg v.y, mul_self_nonneg v.z]
    cases v
    simp only [Vector.mk.injEq]
    exact ⟨mul_self_eq_zero.mp hx, mul_self_eq_zero.mp hy, mul_self_eq_zero.mp hz⟩

theorem Routines.SqrtAt.pos {rt : Routines K} {x : K} (h : rt.SqrtAt x) (hx : 0 < x) :
    0 < rt.sqrt x := by
  rcases h.1.lt_or_eq with h1 | h1
  · exact h1
  · exfalso
    have h2 := h.2
    rw [← h1] at h2
    simp only [mul_zero] at h2
    rw [← h2] at hx
    exact lt_irrefl _ hx

namespace Cube

/-- The matrix of the normalised edge vectors of a right-handed triple of
non-zero, mutually perpendicular vectors is a proper rotation. -/
theorem edgeMatrix_isRotation {vx vy vz : Vector K} {lx ly lz : K}
    (hxy : vx.dot vy = 0) (hxz : vx.dot vz = 0) (hyz : vy.dot vz = 0)
    (hrh : 0 < Vector.triple vx vy vz)
    (hlx : 0 < lx) (hly : 0 < ly) (hlz : 0 < lz)
    (hx : lx * lx = vx.dot vx) (hy : ly * ly = vy.dot vy) (hz : lz * lz = vz.dot vz) :
    (edgeMatrix vx vy vz lx ly lz).IsRotation := by
  simp only [Vector.dot] at hxy hxz hyz hx hy hz
  apply Mat3.Orthonormal.isRotation_of_det_pos
  · refine ⟨?_, ?_, ?_, ?_, ?_, ?_⟩ <;> simp only [edgeMatrix] <;> field_simp
    · linear_combination -hx
    · linear_combination -hy
    · linear_combination -hz
    · linear_combination hxy
    · linear_combination hxz
    · linear_combination hyz
  · have e : (edgeMatrix vx vy vz lx ly lz).det
        = Vector.triple vx vy vz * (lx⁻¹ * ly⁻¹ * lz⁻¹) := by
      simp only [Mat3.det, edgeMatrix, Vector.triple, div_eq_mul_inv]
      ring
    rw [e]
    positivity


/-- The orientation `Cube::Cube(origin, vx, vy, vz)` stores, for a
right-handed triple of non-zero, mutually perpendicular vectors and exact
library routines: the matrix of the normalised edge vectors. -/
theorem ofVectors_orientation (rt : Routines K) (base : Cube K) (origin : Point K)
    (vx vy vz : Vector K)
    (hxy : vx.dot vy = 0) (hxz : vx.dot vz = 0) (hyz : vy.dot vz = 0)
    (hx : vx ≠ ⟨0, 0, 0⟩) (hy : vy ≠ ⟨0, 0, 0⟩) (hz : vz ≠ ⟨0, 0, 0⟩)
    (hrh : 0 < Vector.triple vx vy vz) (hrt : RoutinesExactAt rt vx vy vz) :
    (0 < vx.norm rt ∧ 0 < vy.norm rt ∧ 0 < vz.norm rt) ∧
    (edgeMatrix vx vy vz (vx.norm rt) (vy.norm rt) (vz.norm rt)).IsRotation ∧
    ∃ b : Cube K, ofVectors rt base origin vx vy vz = some b ∧
      b.m_vx = vx ∧ b.m_vy = vy ∧ b.m_vz = vz ∧
      b.m_lx = vx.norm rt ∧ b.m_ly = vy.norm rt ∧ b.m_lz = vz.norm rt ∧
      b.m_ODERot = edgeMatrix vx vy vz (vx.norm rt) (vy.norm rt) (vz.norm rt) := by
  simp only [RoutinesExactAt] at hrt
  obtain ⟨habs, hsx, hsy, hsz, hroot, ⟨hpos, hlt⟩, hrot⟩ := hrt
  have hlx : 0 < vx.norm rt := hsx.pos (Vector.dot_self_pos hx)
  have hly : 0 < vy.norm rt := hsy.pos (Vector.dot_self_pos hy)
  have hlz : 0 < vz.norm rt := hsz.pos (Vector.dot_self_pos hz)
  have hm : (edgeMatrix vx vy vz (vx.norm rt) (vy.norm rt) (vz.norm rt)).IsRotation :=
    edgeMatrix_isRotation hxy hxz hyz hrh hlx hly hlz hsx.2 hsy.2 hsz.2
  have hspec := rotationAxis_spec rt hm
    (1 / 2 * ((edgeMatrix vx vy vz (vx.norm rt) (vy.norm rt) (vz.norm rt)).m00
      + (edgeMatrix vx vy vz (vx.norm rt) (vy.norm rt) (vz.norm rt)).m11
      + (edgeMatrix vx vy vz (vx.norm rt) (vy.norm rt) (vz.norm rt)).m22 - 1)) _
    rfl hpos hlt hroot
  obtain ⟨s, hs0, hs, hR⟩ := hrot hspec.1
  have hnp : ¬ nonPerpendicular rt vx vy vz := by
    simp only [nonPerpendicular, hxy, hxz, hyz, habs, abs_zero, gt_iff_lt, not_or, not_lt]
    refine ⟨?_, ?_, ?_⟩ <;> positivity
  refine ⟨⟨hlx, hly, hlz⟩, hm, ?_⟩
  unfold ofVectors
  rw [if_neg hnp]
  refine ⟨_, rfl, rfl, rfl, rfl, rfl, rfl, rfl, ?_⟩
  exact hR.trans (hspec.2 s hs0 hs)


theorem sampleRoutines_exact_quarter_turn :
    RoutinesExactAt sampleRoutines ⟨0, 2, 0⟩ ⟨-3, 0, 0⟩ ⟨0, 0, 1⟩ := by
  have e1 : (⟨0, 2, 0⟩ : Vector ℚ).norm sampleRoutines = 2 := by
    norm_num [Vector.norm, Vector.dot, sampleRoutines]
  have e2 : (⟨-3, 0, 0⟩ : Vector ℚ).norm sampleRoutines = 3 := by
    norm_num [Vector.norm, Vector.dot, sampleRoutines]
  have e3 : (⟨0, 0, 1⟩ : Vector ℚ).norm sampleRoutines = 1 := by
    norm_num [Vector.norm, Vector.dot, sampleRoutines]
  have em : edgeMatrix (⟨0, 2, 0⟩ : Vector ℚ) ⟨-3, 0, 0⟩ ⟨0, 0, 1⟩ 2 3 1
      = ⟨0, -1, 0, 1, 0, 0, 0, 0, 1⟩ := by
    norm_num [edgeMatrix]
  have ea : sampleRoutines.acos (1 / 2 * ((0 : ℚ) + 0 + 1 - 1)) = 11 / 7 := by
    norm_num [sampleRoutines]
  have ep : sampleRoutines.pi = 22 / 7 := rfl
  simp only [RoutinesExactAt, e1, e2, e3, em, ea]
  refine ⟨fun _ => rfl, ?_, ?_, ?_, ?_, ?_, ?_⟩
  · norm_num [Routines.SqrtAt, Vector.dot, sampleRoutines]
  · norm_num [Routines.SqrtAt, Vector.dot, sampleRoutines]
  · norm_num [Routines.SqrtAt, Vector.dot, sampleRoutines]
  · intro x hx
    norm_num [rotationAxisRoot, ep, Vector.dot] at hx
    rw [← hx]
    norm_num [Routines.SqrtAt, sampleRoutines]
  · norm_num [ep]
  · intro _
    refine ⟨1, by norm_num, by norm_num, ?_⟩
    norm_num [sampleRoutines]

end Cube

namespace Cube

theorem real_routines_exact_at_rotation (rt : Routines ℝ) (hsqrt : rt.sqrt = Real.sqrt)
    (hacos : rt.acos = Real.arccos) (hpi : rt.pi = Real.pi)
    (hrot : ∀ ax ay az θ : ℝ, ax * ax + ay * ay + az * az = 1 →
      rt.dRFromAxisAndAngle ax ay az θ
        = axisAngleMatrix ⟨ax, ay, az⟩ (Real.cos θ) (Real.sin θ))
    (mat : Mat3 ℝ) (hm : mat.IsRotation) (cs : ℝ)
    (hcs : cs = 1 / 2 * (mat.m00 + mat.m11 + mat.m22 - 1)) :
    (∀ x, rotationAxisRoot rt mat (rt.acos cs) = some x → rt.SqrtAt x) ∧
    ((0 < rt.acos cs ↔ cs < 1) ∧ (rt.acos cs < rt.pi ↔ -1 < cs)) ∧
    ((rotationAxis rt mat (rt.acos cs)).dot (rotationAxis rt mat (rt.acos cs)) = 1 →
      ∃ s : ℝ, 0 ≤ s ∧ s * s = 1 - cs * cs ∧
        rt.dRFromAxisAndAngle (rotationAxis rt mat (rt.acos cs)).x
          (rotationAxis rt mat (rt.acos cs)).y (rotationAxis rt mat (rt.acos cs)).z
          (rt.acos cs) = axisAngleMatrix (rotationAxis rt mat (rt.acos cs)) cs s) := by
  have hS : ∀ x : ℝ, 0 ≤ x → rt.SqrtAt x := by
    intro x h0
    rw [Routines.SqrtAt, hsqrt]
    exact ⟨Real.sqrt_nonneg x, Real.mul_self_sqrt h0⟩
  obtain ⟨tlo, thi⟩ := hm.trace_bounds
  obtain ⟨⟨h00, h11, h22, -, -, -⟩, -⟩ := hm
  simp only [Mat3.trace] at tlo thi
  have hlt : ∀ c : ℝ, Real.arccos c < Real.pi ↔ -1 < c := by
    intro c
    rw [lt_iff_le_and_ne, Ne, Real.arccos_eq_pi, not_le]
    exact ⟨fun h => h.2, fun h => ⟨Real.arccos_le_pi c, h⟩⟩
  have b0 : -1 ≤ mat.m00 := by
    nlinarith [mul_self_nonneg mat.m10, mul_self_nonneg mat.m20, mul_self_nonneg (mat.m00 + 1)]
  have b1 : -1 ≤ mat.m11 := by
    nlinarith [mul_self_nonneg mat.m01, mul_self_nonneg mat.m21, mul_self_nonneg (mat.m11 + 1)]
  have b2 : -1 ≤ mat.m22 := by
    nlinarith [mul_self_nonneg mat.m02, mul_self_nonneg mat.m12, mul_self_nonneg (mat.m22 + 1)]
  refine ⟨?_, ⟨?_, ?_⟩, ?_⟩
  · intro x hx
    apply hS
    simp only [rotationAxisRoot] at hx
    split_ifs at hx with h1 h2 h3 h4 h5
    · simp only [Option.some.injEq] at hx
      rw [← hx]
      simp only [Vector.dot]
      exact add_nonneg (add_nonneg (mul_self_nonneg _) (mul_self_nonneg _)) (mul_self_nonneg _)
    all_goals
      simp only [Option.some.injEq] at hx
      rw [← hx]
      rw [hacos, hpi, hlt, not_lt] at h2
      linarith
  · rw [hacos]
    exact Real.arccos_pos
  · rw [hacos, hpi]
    exact hlt _
  · intro hunit
    simp only [Vector.dot] at hunit
    have hc1 : -1 ≤ cs := by rw [hcs]; linarith
    have hc2 : cs ≤ 1 := by rw [hcs]; linarith
    refine ⟨Real.sin (Real.arccos cs), ?_, ?_, ?_⟩
    · rw [Real.sin_arccos]
      exact Real.sqrt_nonneg _
    · rw [Real.sin_arccos, Real.mul_self_sqrt (by nlinarith)]
      ring
    · rw [hrot _ _ _ _ hunit, hacos, Real.cos_arccos hc1 hc2]

/-- Over the reals, with the absolute value, the real square root, arc
cosine and `π`, and a
`dRFromAxisAndAngle` that returns the rotation about a unit axis by the
angle, the library routines are exact at every right-handed triple of
non-zero, mutually perpendicular vectors. -/
theorem real_routines_exact (rt : Routines ℝ) (habs : ∀ x, rt.abs x = |x|)
    (hsqrt : rt.sqrt = Real.sqrt)
    (hacos : rt.acos = Real.arccos) (hpi : rt.pi = Real.pi)
    (hrot : ∀ ax ay az θ : ℝ, ax * ax + ay * ay + az * az = 1 →
      rt.dRFromAxisAndAngle ax ay az θ
        = axisAngleMatrix ⟨ax, ay, az⟩ (Real.cos θ) (Real.sin θ))
    (vx vy vz : Vector ℝ)
    (hxy : vx.dot vy = 0) (hxz : vx.dot vz = 0) (hyz : vy.dot vz = 0)
    (hx : vx ≠ ⟨0, 0, 0⟩) (hy : vy ≠ ⟨0, 0, 0⟩) (hz : vz ≠ ⟨0, 0, 0⟩)
    (hrh : 0 < Vector.triple vx vy vz) :
    RoutinesExactAt rt vx vy vz := by
  have hS : ∀ x : ℝ, 0 ≤ x → rt.SqrtAt x := by
    intro x h0
    rw [Routines.SqrtAt, hsqrt]
    exact ⟨Real.sqrt_nonneg x, Real.mul_self_sqrt h0⟩
  have hsx := hS _ (Vector.dot_self_pos hx).le
  have hsy := hS _ (Vector.dot_self_pos hy).le
  have hsz := hS _ (Vector.dot_self_pos hz).le
  have hm : (edgeMatrix vx vy vz (vx.norm rt) (vy.norm rt) (vz.norm rt)).IsRotation :=
    edgeMatrix_isRotation hxy hxz hyz hrh (hsx.pos (Vector.dot_self_pos hx))
      (hsy.pos (Vector.dot_self_pos hy)) (hsz.pos (Vector.dot_self_pos hz)) hsx.2 hsy.2 hsz.2
  obtain ⟨a1, a2, a3⟩ := real_routines_exact_at_rotation rt hsqrt hacos hpi hrot _ hm _ rfl
  exact ⟨habs, hsx, hsy, hsz, a1, a2, a3⟩

end Cube

/-! ### Lengths, volume and containment -/

namespace Cube

/-- An exact square root of `a * a` with `a ≥ 0` is `a`. -/
theorem sqrt_mul_self_eq (rt : Routines K) {a x : K} (ha : 0 ≤ a) (hx : x = a * a)
    (hs : rt.SqrtAt x) : rt.sqrt x = a := by
  obtain ⟨h0, h1⟩ := hs
  rw [hx] at h0 h1 ⊢
  have h2 : (rt.sqrt (a * a) - a) * (rt.sqrt (a * a) + a) = 0 := by linear_combination h1
  rcases mul_eq_zero.mp h2 with h3 | h3
  · linarith
  · have e1 : rt.sqrt (a * a) = 0 := by linarith
    have e2 : a = 0 := by linarith
    rw [e1, e2]

/-- The norm of `l` times a unit column is `l`, for `l ≥ 0` and an exact
square root. -/
theorem norm_smul_column (rt : Routines K) {l a b c : K} (hl : 0 ≤ l)
    (hcol : a * a + b * b + c * c = 1) (hs : rt.SqrtAt (l * l)) :
    Vector.norm rt (l * (⟨a, b, c⟩ : Vector K)) = l := by
  have e : (l * (⟨a, b, c⟩ : Vector K)).dot (l * (⟨a, b, c⟩ : Vector K)) = l * l := by
    simp only [Vector.smul_eq, Vector.dot]
    linear_combination (l * l) * hcol
  rw [Vector.norm, e]
  exact sqrt_mul_self_eq rt hl rfl hs

/-- `IsInside` accepts exactly the points whose local coordinates lie in the
open box from `(-dx, -dx, -dx)` to `(lx + dx, ly + dx, lz + dx)`. -/
theorem IsInside_iff_inOpenBox (c : Cube K) (p : Point K) (dx : K) :
    c.IsInside p dx = true ↔
      inOpenBox ⟨-dx, -dx, -dx⟩ ⟨c.m_lx + dx, c.m_ly + dx, c.m_lz + dx⟩ (c.localCoords p) := by
  simp only [IsInside, localCoords, inOpenBox, gt_iff_lt]
  constructor
  · intro h
    by_contra hn
    rw [if_neg hn] at h
    exact absurd h (by simp)
  · intro h
    rw [if_pos h]

/-- With an orthonormal orientation every local-frame point is the local
coordinates of a world point. -/
theorem localCoords_add_Rot (c : Cube K) (h : c.m_ODERot.Orthonormal) (v : Vector K) :
    c.localCoords (c.m_origin + v.Rot c.m_ODERot) = v := by
  obtain ⟨h00, h11, h22, h01, h02, h12⟩ := h
  obtain ⟨a, b, d⟩ := v
  simp only [localCoords, Point.add_vec_eq, Point.sub_eq, Vector.Rot, Vector.TransposeRot,
    Vector.mk.injEq]
  refine ⟨?_, ?_, ?_⟩
  · linear_combination a * h00 + b * h01 + d * h02
  · linear_combination a * h01 + b * h11 + d * h12
  · linear_combination a * h02 + b * h12 + d * h22

end Cube

/-! ### Boundary fill -/

namespace Cube

theorem loopLT_zero_six : loopLT 0 6 = [0, 1, 2, 3, 4, 5] := by decide

theorem loopLT_zero_five : loopLT 0 (6 - 1) = [0, 1, 2, 3, 4] := by decide

/-- The single-face fill hands the face rectangle its `switch` selects to the
face filler. -/
theorem FillBorderFace_eq (R : RectFiller K) (c : Cube K) (points : List (Point K)) (dx : K)
    (face_num : ℤ) (edges : List Bool) :
    FillBorderFace R c points dx face_num edges
      = (c.setOriginMass,
          R.Fill (FillBorderFace.face c.setOriginMass face_num
              (⟨0, 0, 0, 0⟩, ⟨0, 0, 0⟩, ⟨0, 0, 0⟩)).1
            (FillBorderFace.face c.setOriginMass face_num
              (⟨0, 0, 0, 0⟩, ⟨0, 0, 0⟩, ⟨0, 0, 0⟩)).2.1
            (FillBorderFace.face c.setOriginMass face_num
              (⟨0, 0, 0, 0⟩, ⟨0, 0, 0⟩, ⟨0, 0, 0⟩)).2.2 points dx edges) := rfl

/-- The single-output boundary fill as the sequence of its single-face calls. -/
theorem FillBorder_eq_calls (R : RectFiller K) (c : Cube K) (points : List (Point K)) (dx : K) :
    FillBorder R c points dx true
      = ([(0, [true, true, true, true]), (1, [true, false, true, false]),
          (2, [true, true, true, true]), (3, [true, false, true, false]),
          (4, [false, false, false, false]), (5, [false, false, false, false])] :
          List (ℤ × List Bool)).foldl
        (fun st call => FillBorderFace R st.1 st.2 dx call.1 call.2) (c.setOriginMass, points) ∧
    FillBorder R c points dx false
      = ([(0, [true, true, true, true]), (1, [true, false, true, false]),
          (2, [true, true, true, true]), (3, [true, false, true, false]),
          (4, [false, false, false, false])] : List (ℤ × List Bool)).foldl
        (fun st call => FillBorderFace R st.1 st.2 dx call.1 call.2) (c.setOriginMass, points) := by
  constructor
  · simp only [FillBorder, Bool.not_true, Bool.false_eq_true, if_false, loopLT_zero_six,
      List.foldl_cons, List.foldl_nil, edges_to_fill, Int.toNat_zero, Int.toNat_one,
      show (2 : ℤ).toNat = 2 from rfl, show (3 : ℤ).toNat = 3 from rfl,
      show (4 : ℤ).toNat = 4 from rfl, show (5 : ℤ).toNat = 5 from rfl,
      List.getD_cons_zero, List.getD_cons_succ]
  · simp only [FillBorder, Bool.not_false, if_true, loopLT_zero_five,
      List.foldl_cons, List.foldl_nil, edges_to_fill, Int.toNat_zero, Int.toNat_one,
      show (2 : ℤ).toNat = 2 from rfl, show (3 : ℤ).toNat = 3 from rfl,
      show (4 : ℤ).toNat = 4 from rfl,
      List.getD_cons_zero, List.getD_cons_succ]

/-- The single-face calls leave the box they find once its origin carries the
mass. -/
theorem foldl_FillBorderFace_box (R : RectFiller K) (c : Cube K) (dx : K)
    (calls : List (ℤ × List Bool)) (points : List (Point K)) :
    (calls.foldl (fun st call => FillBorderFace R st.1 st.2 dx call.1 call.2)
      (c.setOriginMass, points)).1 = c.setOriginMass := by
  induction calls generalizing points with
  | nil => rfl
  | cons call calls ih =>
    rw [List.foldl_cons, FillBorderFace_eq]
    exact ih _

/-- The box the single-output boundary fill leaves. -/
theorem FillBorder_box (R : RectFiller K) (c : Cube K) (points : List (Point K)) (dx : K)
    (fill_top_face : Bool) : (FillBorder R c points dx fill_top_face).1 = c.setOriginMass := by
  cases fill_top_face
  · rw [(FillBorder_eq_calls R c points dx).2]
    exact foldl_FillBorderFace_box R c dx _ points
  · rw [(FillBorder_eq_calls R c points dx).1]
    exact foldl_FillBorderFace_box R c dx _ points

/-- Both `switch` statements select the entry of the face table. -/
theorem face_switch_table (c : Cube K) (r : Point K × Vector K × Vector K) (f : ℤ)
    (h0 : 0 ≤ f) (h5 : f ≤ 5) :
    (faceTable c.m_origin c.m_vx c.m_vy c.m_vz)[f.toNat]? = some (FillBorderElems.face c f r) ∧
    (faceTable c.m_origin c.m_vx c.m_vy c.m_vz)[f.toNat]? = some (FillBorderFace.face c f r) := by
  have hf : f = 0 ∨ f = 1 ∨ f = 2 ∨ f = 3 ∨ f = 4 ∨ f = 5 := by omega
  rcases hf with h | h | h | h | h | h <;> subst h <;>
    simp [FillBorderElems.face, FillBorderFace.face, faceTable]

end Cube

/-! ### The arrays of the still-water problem -/

namespace StillWater

variable {F4 HK PI : Type}

theorem loopUint_succ (lo n : ℕ) : loopUint lo (lo + (n + 1)) = loopUint lo (lo + n) ++ [lo + n] := by
  simp only [loopUint, Nat.add_sub_cancel_left, List.range_succ, List.map_append, List.map_cons,
    List.map_nil]

theorem loopUint_self (lo : ℕ) : loopUint lo (lo + 0) = [] := by
  simp [loopUint]

theorem writeParticle_info {S : Type} (P : ProblemRoutines S F4 HK PI) (type : ℕ) (v : F4) (p : Point S)
    (i : ℕ) (b : BufferList F4 HK PI) :
    (writeParticle P type v p i b).info
      = Function.update b.info i (P.make_particleinfo type 0 i) := rfl

theorem writeParticle_pos {S : Type} (P : ProblemRoutines S F4 HK PI) (type : ℕ) (v : F4) (p : Point S)
    (i : ℕ) (b : BufferList F4 HK PI) :
    (writeParticle P type v p i b).pos
      = Function.update b.pos i
          (P.calc_localpos_and_hash p (P.make_particleinfo type 0 i)).1 := by
  simp only [writeParticle, Function.update_same]

theorem writeParticle_vertices {S : Type} (P : ProblemRoutines S F4 HK PI) (type : ℕ) (v : F4)
    (p : Point S) (i : ℕ) (b : BufferList F4 HK PI) :
    (writeParticle P type v p i b).vertices = b.vertices := rfl

/-- A particle loop of `copy_to_array` writes `info` and `pos` at the indices
of its block and nowhere else, and leaves `vertices` alone. -/
theorem particle_loop (P : ProblemRoutines K F4 HK PI) (type : ℕ) (velOf : Point K → F4)
    (L : List (Point K)) (j n : ℕ) (b : BufferList F4 HK PI) :
    (∀ k, ((loopUint j (j + n)).foldl (fun b i =>
        writeParticle P type (velOf (L.getD (i - j) ⟨0, 0, 0, 0⟩))
          (L.getD (i - j) ⟨0, 0, 0, 0⟩) i b) b).info k
      = if j ≤ k ∧ k < j + n then P.make_particleinfo type 0 k else b.info k) ∧
    (∀ k, ((loopUint j (j + n)).foldl (fun b i =>
        writeParticle P type (velOf (L.getD (i - j) ⟨0, 0, 0, 0⟩))
          (L.getD (i - j) ⟨0, 0, 0, 0⟩) i b) b).pos k
      = if j ≤ k ∧ k < j + n then
          (P.calc_localpos_and_hash (L.getD (k - j) ⟨0, 0, 0, 0⟩)
            (P.make_particleinfo type 0 k)).1
        else b.pos k) ∧
    ((loopUint j (j + n)).foldl (fun b i =>
        writeParticle P type (velOf (L.getD (i - j) ⟨0, 0, 0, 0⟩))
          (L.getD (i - j) ⟨0, 0, 0, 0⟩) i b) b).vertices = b.vertices := by
  induction n with
  | zero =>
    rw [loopUint_self]
    refine ⟨fun k => ?_, fun k => ?_, rfl⟩
    · rw [if_neg (by omega)]; rfl
    · rw [if_neg (by omega)]; rfl
  | succ n ih =>
    obtain ⟨ih1, ih2, ih3⟩ := ih
    rw [loopUint_succ, List.foldl_append]
    simp only [List.foldl_cons, List.foldl_nil]
    refine ⟨fun k => ?_, fun k => ?_, ?_⟩
    · rw [writeParticle_info]
      by_cases hk : k = j + n
      · subst hk
        rw [Function.update_same, if_pos (by omega)]
      · rw [Function.update_noteq hk, ih1]
        by_cases h1 : j ≤ k ∧ k < j + n
        · rw [if_pos h1, if_pos (by omega)]
        · rw [if_neg h1, if_neg (by omega)]
    · rw [writeParticle_pos]
      by_cases hk : k = j + n
      · subst hk
        rw [Function.update_same, if_pos (by omega), Nat.add_sub_cancel_left]
      · rw [Function.update_noteq hk, ih2]
        by_cases h1 : j ≤ k ∧ k < j + n
        · rw [if_pos h1, if_pos (by omega)]
        · rw [if_neg h1, if_neg (by omega)]
    · rw [writeParticle_vertices]
      exact ih3

theorem loopUint_zero (n : ℕ) : loopUint 0 n = List.range n := by
  simp [loopUint]

theorem addOffset_eq {v : uint4} {n : ℕ} (hn : n < 2 ^ 32) (hx : v.x + n < 2 ^ 32)
    (hy : v.y + n < 2 ^ 32) (hz : v.z + n < 2 ^ 32) :
    addOffset v (n % 2 ^ 32) = ⟨v.x + n, v.y + n, v.z + n, v.w⟩ := by
  simp only [addOffset, Nat.mod_eq_of_lt hn, Nat.mod_eq_of_lt hx, Nat.mod_eq_of_lt hy,
    Nat.mod_eq_of_lt hz]

/-- The last loop of `copy_to_array` (StillWater.cc 234-242) after `n` rounds:
the first `n` triples are shifted, `vertices` holds them, `info` and `pos` are
as before. -/
theorem vertex_loop {S : Type} (mk : Point S → F4) (E : List (Point S)) (d : Point S)
    (offset : ℕ) (L : List uint4)
    (b : BufferList F4 HK PI) (n : ℕ) (hn : n ≤ L.length) :
    (∀ k, (((List.range n).foldl (fun (st : List uint4 × BufferList F4 HK PI) i =>
          ((st.1.set i (addOffset (st.1.getD i ⟨0, 0, 0, 0⟩) offset)),
            { st.2 with
              vertices := Function.update st.2.vertices i
                ((st.1.set i (addOffset (st.1.getD i ⟨0, 0, 0, 0⟩) offset)).getD i ⟨0, 0, 0, 0⟩)
              boundelm := Function.update st.2.boundelm i (mk (E.getD i d)) }))
        (L, b)).1)[k]?
      = if k < n then (L[k]?).map (fun v => addOffset v offset) else L[k]?) ∧
    (∀ k, k < n → ((List.range n).foldl (fun (st : List uint4 × BufferList F4 HK PI) i =>
          ((st.1.set i (addOffset (st.1.getD i ⟨0, 0, 0, 0⟩) offset)),
            { st.2 with
              vertices := Function.update st.2.vertices i
                ((st.1.set i (addOffset (st.1.getD i ⟨0, 0, 0, 0⟩) offset)).getD i ⟨0, 0, 0, 0⟩)
              boundelm := Function.update st.2.boundelm i (mk (E.getD i d)) }))
        (L, b)).2.vertices k = addOffset (L.getD k ⟨0, 0, 0, 0⟩) offset) ∧
    ((List.range n).foldl (fun (st : List uint4 × BufferList F4 HK PI) i =>
          ((st.1.set i (addOffset (st.1.getD i ⟨0, 0, 0, 0⟩) offset)),
            { st.2 with
              vertices := Function.update st.2.vertices i
                ((st.1.set i (addOffset (st.1.getD i ⟨0, 0, 0, 0⟩) offset)).getD i ⟨0, 0, 0, 0⟩)
              boundelm := Function.update st.2.boundelm i (mk (E.getD i d)) }))
        (L, b)).2.info = b.info ∧
    ((List.range n).foldl (fun (st : List uint4 × BufferList F4 HK PI) i =>
          ((st.1.set i (addOffset (st.1.getD i ⟨0, 0, 0, 0⟩) offset)),
            { st.2 with
              vertices := Function.update st.2.vertices i
                ((st.1.set i (addOffset (st.1.getD i ⟨0, 0, 0, 0⟩) offset)).getD i ⟨0, 0, 0, 0⟩)
              boundelm := Function.update st.2.boundelm i (mk (E.getD i d)) }))
        (L, b)).2.pos = b.pos := by
  induction n with
  | zero =>
    refine ⟨fun k => ?_, fun k hk => absurd hk (by omega), rfl, rfl⟩
    rw [if_neg (by omega)]
    rfl
  | succ n ih =>
    obtain ⟨ih1, ih2, ih3, ih4⟩ := ih (by omega)
    have hlt : n < L.length := by omega
    have hLn : L[n]? = some (L.getD n ⟨0, 0, 0, 0⟩) := by
      rw [List.getD_eq_getElem?_getD, List.getElem?_eq_getElem hlt]
      rfl
    rw [List.range_succ, List.foldl_append]
    simp only [List.foldl_cons, List.foldl_nil]
    have hn1 := ih1 n
    rw [if_neg (by omega)] at hn1
    have hself : ∀ a : uint4, ((((List.range n).foldl
        (fun (st : List uint4 × BufferList F4 HK PI) i =>
          ((st.1.set i (addOffset (st.1.getD i ⟨0, 0, 0, 0⟩) offset)),
            { st.2 with
              vertices := Function.update st.2.vertices i
                ((st.1.set i (addOffset (st.1.getD i ⟨0, 0, 0, 0⟩) offset)).getD i ⟨0, 0, 0, 0⟩)
              boundelm := Function.update st.2.boundelm i (mk (E.getD i d)) }))
        (L, b)).1).set n a)[n]? = some a := by
      intro a
      rw [List.getElem?_set', if_pos rfl, hn1, hLn]
      rfl
    have hgd : (((List.range n).foldl
        (fun (st : List uint4 × BufferList F4 HK PI) i =>
          ((st.1.set i (addOffset (st.1.getD i ⟨0, 0, 0, 0⟩) offset)),
            { st.2 with
              vertices := Function.update st.2.vertices i
                ((st.1.set i (addOffset (st.1.getD i ⟨0, 0, 0, 0⟩) offset)).getD i ⟨0, 0, 0, 0⟩)
              boundelm := Function.update st.2.boundelm i (mk (E.getD i d)) }))
        (L, b)).1).getD n ⟨0, 0, 0, 0⟩ = L.getD n ⟨0, 0, 0, 0⟩ := by
      rw [List.getD_eq_getElem?_getD, hn1, List.getD_eq_getElem?_getD]
    refine ⟨fun k => ?_, fun k hk => ?_, ih3, ih4⟩
    · by_cases hk : n = k
      · subst hk
        rw [hself, if_pos (by omega), hLn, hgd]
        rfl
      · rw [List.getElem?_set_ne hk, ih1]
        by_cases h1 : k < n
        · rw [if_pos h1, if_pos (by omega)]
        · rw [if_neg h1, if_neg (by omega)]
    · by_cases hk2 : k = n
      · subst hk2
        simp only [Function.update_same]
        rw [List.getD_eq_getElem?_getD, hself, hgd]
        rfl
      · simp only [Function.update_noteq hk2]
        exact ih2 k (by omega)

end StillWater

/-! ### The branches of the axis derivation -/

namespace Cube

/-- The square root the branch of angle `π` takes is of `2 (1 + d)` for the
largest diagonal term `d`, which is at least `4/3`. -/
theorem rotationAxisRoot_half_turn (rt : Routines K) {R : Mat3 K} {angle : K}
    (ht : R.trace = -1) (h0 : 0 < angle) (hpi : ¬ angle < rt.pi) :
    ∃ x, rotationAxisRoot rt R angle = some x ∧
      (x = 1 + R.m00 - R.m11 - R.m22 ∨ x = 1 + R.m11 - R.m00 - R.m22 ∨
        x = 1 + R.m22 - R.m00 - R.m11) ∧ 4 / 3 ≤ x := by
  simp only [Mat3.trace] at ht
  by_cases g1 : R.m00 ≥ R.m11
  · by_cases g2 : R.m00 ≥ R.m22
    · refine ⟨1 + R.m00 - R.m11 - R.m22, ?_, Or.inl rfl, by linarith⟩
      simp only [rotationAxisRoot, gt_iff_lt, if_pos h0, if_neg hpi, if_pos g1, if_pos g2]
    · refine ⟨1 + R.m22 - R.m00 - R.m11, ?_, Or.inr (Or.inr rfl), by linarith⟩
      simp only [rotationAxisRoot, gt_iff_lt, if_pos h0, if_neg hpi, if_pos g1, if_neg g2]
  · by_cases g2 : R.m11 ≥ R.m22
    · refine ⟨1 + R.m11 - R.m00 - R.m22, ?_, Or.inr (Or.inl rfl), by linarith⟩
      simp only [rotationAxisRoot, gt_iff_lt, if_pos h0, if_neg hpi, if_neg g1, if_pos g2]
    · refine ⟨1 + R.m22 - R.m00 - R.m11, ?_, Or.inr (Or.inr rfl), by linarith⟩
      simp only [rotationAxisRoot, gt_iff_lt, if_pos h0, if_neg hpi, if_neg g1, if_neg g2]

/-- The sample routines are exact at the edges 2, 3, 1 along the axes. -/
theorem sampleRoutines_exact_axis_aligned :
    RoutinesExactAt sampleRoutines ⟨2, 0, 0⟩ ⟨0, 3, 0⟩ ⟨0, 0, 1⟩ := by
  have e1 : (⟨2, 0, 0⟩ : Vector ℚ).norm sampleRoutines = 2 := by
    norm_num [Vector.norm, Vector.dot, sampleRoutines]
  have e2 : (⟨0, 3, 0⟩ : Vector ℚ).norm sampleRoutines = 3 := by
    norm_num [Vector.norm, Vector.dot, sampleRoutines]
  have e3 : (⟨0, 0, 1⟩ : Vector ℚ).norm sampleRoutines = 1 := by
    norm_num [Vector.norm, Vector.dot, sampleRoutines]
  have em : edgeMatrix (⟨2, 0, 0⟩ : Vector ℚ) ⟨0, 3, 0⟩ ⟨0, 0, 1⟩ 2 3 1
      = ⟨1, 0, 0, 0, 1, 0, 0, 0, 1⟩ := by
    norm_num [edgeMatrix]
  have ea : sampleRoutines.acos (1 / 2 * ((1 : ℚ) + 1 + 1 - 1)) = 0 := by
    norm_num [sampleRoutines]
  have ep : sampleRoutines.pi = 22 / 7 := rfl
  simp only [RoutinesExactAt, e1, e2, e3, em, ea]
  refine ⟨fun _ => rfl, ?_, ?_, ?_, ?_, ?_, ?_⟩
  · norm_num [Routines.SqrtAt, Vector.dot, sampleRoutines]
  · norm_num [Routines.SqrtAt, Vector.dot, sampleRoutines]
  · norm_num [Routines.SqrtAt, Vector.dot, sampleRoutines]
  · intro x hx
    norm_num [rotationAxisRoot] at hx
    exact absurd hx (by simp)
  · norm_num [ep]
  · intro _
    refine ⟨0, by norm_num, by norm_num, ?_⟩
    norm_num [sampleRoutines, rotationAxis]

/-- The sample routines are exact at the half turn about `z` with edge
lengths 2, 3 and 1. -/
theorem sampleRoutines_exact_half_turn :
    RoutinesExactAt sampleRoutines ⟨-2, 0, 0⟩ ⟨0, -3, 0⟩ ⟨0, 0, 1⟩ := by
  have e1 : (⟨-2, 0, 0⟩ : Vector ℚ).norm sampleRoutines = 2 := by
    norm_num [Vector.norm, Vector.dot, sampleRoutines]
  have e2 : (⟨0, -3, 0⟩ : Vector ℚ).norm sampleRoutines = 3 := by
    norm_num [Vector.norm, Vector.dot, sampleRoutines]
  have e3 : (⟨0, 0, 1⟩ : Vector ℚ).norm sampleRoutines = 1 := by
    norm_num [Vector.norm, Vector.dot, sampleRoutines]
  have em : edgeMatrix (⟨-2, 0, 0⟩ : Vector ℚ) ⟨0, -3, 0⟩ ⟨0, 0, 1⟩ 2 3 1
      = ⟨-1, 0, 0, 0, -1, 0, 0, 0, 1⟩ := by
    norm_num [edgeMatrix]
  have ea : sampleRoutines.acos (1 / 2 * ((-1 : ℚ) + -1 + 1 - 1)) = 22 / 7 := by
    norm_num [sampleRoutines]
  have ep : sampleRoutines.pi = 22 / 7 := rfl
  simp only [RoutinesExactAt, e1, e2, e3, em, ea]
  refine ⟨fun _ => rfl, ?_, ?_, ?_, ?_, ?_, ?_⟩
  · norm_num [Routines.SqrtAt, Vector.dot, sampleRoutines]
  · norm_num [Routines.SqrtAt, Vector.dot, sampleRoutines]
  · norm_num [Routines.SqrtAt, Vector.dot, sampleRoutines]
  · intro x hx
    norm_num [rotationAxisRoot, ep] at hx
    rw [← hx]
    norm_num [Routines.SqrtAt, sampleRoutines]
  · norm_num [ep]
  · intro _
    refine ⟨0, by norm_num, by norm_num, ?_⟩
    norm_num [sampleRoutines]

end Cube

/-! ### Buffer flags -/

namespace Buffers

/-- Shifting the single bit `2 ^ j` by one within the word gives `2 ^ (j+1)`. -/
theorem shl1_two_pow {w j : ℕ} (h : j + 1 < w) : shl1 w (2 ^ j) = 2 ^ (j + 1) := by
  have h1 : 2 ^ (j + 1) < 2 ^ w := Nat.pow_lt_pow_right (by norm_num) h
  rw [shl1, Nat.shiftLeft_eq, ← pow_succ, Nat.mod_eq_of_lt h1]

/-- Shifting the single bit `2 ^ k` `n` times within the word. -/
theorem iterate_shl1_two_pow {w k : ℕ} (n : ℕ) (h : k + n < w) :
    (shl1 w)^[n] (2 ^ k) = 2 ^ (k + n) := by
  induction n generalizing k with
  | zero => rfl
  | succ n ih =>
    rw [Function.iterate_succ_apply, shl1_two_pow (by omega), ih (by omega)]
    congr 1
    omega

/-- Flag number `i` is the first flag shifted `i` times. -/
theorem bufferFlags_eq_iterate (w F : ℕ) :
    bufferFlags w F = (List.range 27).map (fun i => (shl1 w)^[i] F) := rfl

/-- `2 ^ j - 1` does not wrap within the word. -/
theorem sub1_two_pow {w j : ℕ} (h : j < w) : sub1 w (2 ^ j) = 2 ^ j - 1 := by
  have h1 : 2 ^ j < 2 ^ w := Nat.pow_lt_pow_right (by norm_num) h
  have h2 : 0 < 2 ^ j := Nat.two_pow_pos j
  have h3 : 2 ^ j + 2 ^ w - 1 = (2 ^ j - 1) + 2 ^ w := by omega
  rw [sub1, h3, Nat.add_mod_right, Nat.mod_eq_of_lt (by omega)]

/-- The bits of the bitwise OR of the single bits `2 ^ k .. 2 ^ (k+n-1)`. -/
theorem testBit_foldl_lor (k n i : ℕ) :
    (((List.range n).map (fun j => 2 ^ (k + j))).foldl (· ||| ·) 0).testBit i
      = decide (k ≤ i ∧ i < k + n) := by
  induction n with
  | zero => simp
  | succ n ih =>
    rw [List.range_succ, List.map_append, List.foldl_append]
    simp only [List.map_cons, List.map_nil, List.foldl_cons, List.foldl_nil, Nat.testBit_or, ih,
      Nat.testBit_two_pow]
    by_cases h1 : k ≤ i ∧ i < k + n
    · simp [h1]
      omega
    · by_cases h2 : k + n = i
      · simp [h2]
        omega
      · simp [h1, h2]
        omega

end Buffers

/-! ### Lattice resolutions -/

theorem quotient_of_ne {a b : K} (h : b ≠ 0) : quotient a b = some (a / b) := by
  simp only [quotient, if_neg h]

theorem quotient_zero (a : K) : quotient a 0 = none := by
  simp only [quotient, if_true]

theorem Vector.quotient_vector_of_ne {v : Vector K} {a : K} (h : a ≠ 0) :
    v.quotient a = some (v / a) := by
  simp only [Vector.quotient, if_neg h]

namespace Cube

/-- A length of at least one spacing gives a lattice resolution of at least
one. -/
theorem one_le_truncToInt_div [FloorRing K] {l dx : K} (hdx : 0 < dx) (h : dx ≤ l) :
    1 ≤ truncToInt (l / dx) := by
  have h1 : (1 : K) ≤ l / dx := (one_le_div hdx).mpr h
  rw [truncToInt_of_nonneg (by linarith)]
  apply Int.le_floor.mpr
  norm_num
  exact h1

/-- A non-negative length below the spacing gives the lattice resolution
zero. -/
theorem truncToInt_div_eq_zero [FloorRing K] {l dx : K} (hdx : 0 < dx) (h0 : 0 ≤ l)
    (h : l < dx) : truncToInt (l / dx) = 0 := by
  rw [truncToInt_div_of_nonneg h0 hdx]
  apply Int.floor_eq_iff.mpr
  constructor
  · norm_num
    exact div_nonneg h0 hdx.le
  · norm_num
    exact (div_lt_one hdx).mpr h

/-- A quotient `i / n` with `0 ≤ i ≤ n` and `1 ≤ n` lies in `[0, 1]`. -/
theorem coefficient_bounds {i n : ℤ} (hn : 1 ≤ n) (h0 : 0 ≤ i) (h1 : i ≤ n) :
    0 ≤ (i : K) / (n : K) ∧ (i : K) / (n : K) ≤ 1 := by
  have hn0 : (0 : K) < (n : K) := by exact_mod_cast (by omega : 0 < n)
  have hi0 : (0 : K) ≤ (i : K) := by exact_mod_cast h0
  have hi1 : (i : K) ≤ (n : K) := by exact_mod_cast h1
  exact ⟨div_nonneg hi0 hn0.le, (div_le_one hn0).mpr hi1⟩

/-- A quotient `(i + 1/2) / n` with `0 ≤ i < n` lies in `[0, 1]`. -/
theorem half_coefficient_bounds {i n : ℤ} (h0 : 0 ≤ i) (h1 : i < n) :
    0 ≤ ((i : K) + 1 / 2) / (n : K) ∧ ((i : K) + 1 / 2) / (n : K) ≤ 1 := by
  have hn0 : (0 : K) < (n : K) := by exact_mod_cast (by omega : 0 < n)
  have hi0 : (0 : K) ≤ (i : K) := by exact_mod_cast h0
  have hi1 : (i : K) + 1 ≤ (n : K) := by exact_mod_cast (by omega : i + 1 ≤ n)
  exact ⟨div_nonneg (by linarith) hn0.le, (div_le_one hn0).mpr (by linarith)⟩

/-- A loop on an optional state whose body succeeds on every state is the
loop on the state. -/
theorem foldl_option_some {S A : Type} (F : Option S → A → Option S) (f : S → A → S)
    (h : ∀ s a, F (some s) a = some (f s a)) (L : List A) (s : S) :
    L.foldl F (some s) = some (L.foldl f s) := by
  induction L generalizing s with
  | nil => rfl
  | cons a L ih => rw [List.foldl_cons, List.foldl_cons, h, ih]

/-- A loop on an optional state whose body always fails, run at least once,
fails. -/
theorem foldl_option_none {S A : Type} (F : Option S → A → Option S)
    (h : ∀ st a, F st a = none) (L : List A) (hL : L ≠ []) (st : Option S) :
    L.foldl F st = none := by
  have hnone : ∀ L : List A, L.foldl F none = none := by
    intro L
    induction L with
    | nil => rfl
    | cons a L ih => rw [List.foldl_cons, h, ih]
  cases L with
  | nil => exact absurd rfl hL
  | cons a L => rw [List.foldl_cons, h, hnone]

/-- With non-zero divisors the checked point is the point `Fill` computes. -/
theorem fillPointChecked_of_ne (c : Cube K) {nx ny nz : ℤ} (i j k : ℤ)
    (hx : (nx : K) ≠ 0) (hy : (ny : K) ≠ 0) (hz : (nz : K) ≠ 0) :
    fillPointChecked c nx ny nz i j k = some (fillPoint c nx ny nz i j k) := by
  simp only [fillPointChecked, quotient_of_ne hx, quotient_of_ne hy, quotient_of_ne hz,
    Option.some_bind, fillPoint]

/-- With a zero divisor the checked point is no point. -/
theorem fillPointChecked_eq_none (c : Cube K) {nx ny nz : ℤ} (i j k : ℤ)
    (h : nx = 0 ∨ ny = 0 ∨ nz = 0) : fillPointChecked c nx ny nz i j k = none := by
  rcases h with h | h | h
  · simp [fillPointChecked, h, quotient_zero]
  · simp only [fillPointChecked, h, Int.cast_zero, quotient_zero]
    cases quotient (i : K) (nx : K) <;> rfl
  · simp only [fillPointChecked, h, Int.cast_zero, quotient_zero]
    cases quotient (i : K) (nx : K)
    · rfl
    · cases quotient (j : K) (ny : K) <;> rfl

/-- With non-zero divisors the checked point is the point `InnerFill`
computes. -/
theorem innerPointChecked_of_ne (c : Cube K) {nx ny nz : ℤ} (i j k : ℤ)
    (hx : (nx : K) ≠ 0) (hy : (ny : K) ≠ 0) (hz : (nz : K) ≠ 0) :
    innerPointChecked c nx ny nz i j k = some (innerPoint c nx ny nz i j k) := by
  simp only [innerPointChecked, Vector.quotient_vector_of_ne hx, Vector.quotient_vector_of_ne hy,
    Vector.quotient_vector_of_ne hz, Option.some_bind, innerPoint]

/-- With non-zero resolutions every quotient of `Fill` is a number and the
checked run is the run. -/
theorem FillChecked_of_ne [FloorRing K] (c : Cube K) (points : List (Point K)) (dx : K)
    (fill_faces fill : Bool)
    (hx : ((truncToInt (c.m_lx / dx) : ℤ) : K) ≠ 0)
    (hy : ((truncToInt (c.m_ly / dx) : ℤ) : K) ≠ 0)
    (hz : ((truncToInt (c.m_lz / dx) : ℤ) : K) ≠ 0) :
    c.FillChecked points dx fill_faces fill = some (c.Fill points dx fill_faces fill) := by
  have hx1 : ((truncToInt (c.setOriginMass.m_lx / dx) : ℤ) : K) ≠ 0 := hx
  have hy1 : ((truncToInt (c.setOriginMass.m_ly / dx) : ℤ) : K) ≠ 0 := hy
  have hz1 : ((truncToInt (c.setOriginMass.m_lz / dx) : ℤ) : K) ≠ 0 := hz
  unfold FillChecked Fill
  simp only []
  rw [foldl_option_some _ (fun st i =>
    (loopLE (if !fill_faces then 0 + 1 else 0)
        (if !fill_faces then truncToInt (c.setOriginMass.m_ly / dx) - 1
          else truncToInt (c.setOriginMass.m_ly / dx))).foldl (fun st j =>
      (loopLE (if !fill_faces then 0 + 1 else 0)
        (if !fill_faces then truncToInt (c.setOriginMass.m_lz / dx) - 1
          else truncToInt (c.setOriginMass.m_lz / dx))).foldl (fun st k =>
        fillBody c.setOriginMass (truncToInt (c.setOriginMass.m_lx / dx))
          (truncToInt (c.setOriginMass.m_ly / dx)) (truncToInt (c.setOriginMass.m_lz / dx))
          fill i j k st) st) st)]
  · rfl
  · intro s i
    apply foldl_option_some
    intro s j
    apply foldl_option_some
    intro s k
    rw [Option.some_bind, fillBodyChecked, fillPointChecked_of_ne _ _ _ _ hx1 hy1 hz1]
    rfl

/-- With non-zero resolutions every division of `InnerFill` gives numbers and
the checked run is the run. -/
theorem InnerFillChecked_of_ne [FloorRing K] (c : Cube K) (points : List (Point K)) (dx : K)
    (hx : ((truncToInt (c.m_lx / dx) : ℤ) : K) ≠ 0)
    (hy : ((truncToInt (c.m_ly / dx) : ℤ) : K) ≠ 0)
    (hz : ((truncToInt (c.m_lz / dx) : ℤ) : K) ≠ 0) :
    c.InnerFillChecked points dx = some (c.InnerFill points dx) := by
  have hx1 : ((truncToInt (c.setOriginMass.m_lx / dx) : ℤ) : K) ≠ 0 := hx
  have hy1 : ((truncToInt (c.setOriginMass.m_ly / dx) : ℤ) : K) ≠ 0 := hy
  have hz1 : ((truncToInt (c.setOriginMass.m_lz / dx) : ℤ) : K) ≠ 0 := hz
  unfold InnerFillChecked InnerFill
  simp only []
  rw [foldl_option_some _ (fun pts i =>
    (loopLT 0 (truncToInt (c.setOriginMass.m_ly / dx))).foldl (fun pts j =>
      (loopLT 0 (truncToInt (c.setOriginMass.m_lz / dx))).foldl (fun pts k =>
        pts ++ [innerPoint c.setOriginMass (truncToInt (c.setOriginMass.m_lx / dx))
          (truncToInt (c.setOriginMass.m_ly / dx)) (truncToInt (c.setOriginMass.m_lz / dx))
          i j k]) pts) pts)]
  · rfl
  · intro s i
    apply foldl_option_some
    intro s j
    apply foldl_option_some
    intro s k
    rw [Option.some_bind, innerPointChecked_of_ne _ _ _ _ hx1 hy1 hz1]
    rfl

/-- With a resolution that is zero and loops that run, the checked run of
`Fill` with faces fails. -/
theorem FillChecked_eq_none [FloorRing K] (c : Cube K) (points : List (Point K)) (dx : K)
    (fill : Bool)
    (h0x : 0 ≤ truncToInt (c.m_lx / dx)) (h0y : 0 ≤ truncToInt (c.m_ly / dx))
    (h0z : 0 ≤ truncToInt (c.m_lz / dx))
    (h : truncToInt (c.m_lx / dx) = 0 ∨ truncToInt (c.m_ly / dx) = 0
      ∨ truncToInt (c.m_lz / dx) = 0) :
    c.FillChecked points dx true fill = none := by
  have hne : ∀ n : ℤ, 0 ≤ n → loopLE 0 n ≠ [] := by
    intro n hn he
    have : (0 : ℤ) ∈ loopLE 0 n := mem_loopLE.mpr ⟨le_refl _, hn⟩
    rw [he] at this
    exact absurd this (List.not_mem_nil _)
  have h0x1 : 0 ≤ truncToInt (c.setOriginMass.m_lx / dx) := h0x
  have h0y1 : 0 ≤ truncToInt (c.setOriginMass.m_ly / dx) := h0y
  have h0z1 : 0 ≤ truncToInt (c.setOriginMass.m_lz / dx) := h0z
  have h1 : truncToInt (c.setOriginMass.m_lx / dx) = 0 ∨ truncToInt (c.setOriginMass.m_ly / dx) = 0
      ∨ truncToInt (c.setOriginMass.m_lz / dx) = 0 := h
  unfold FillChecked
  simp only [Bool.not_true, Bool.false_eq_true, if_false]
  rw [foldl_option_none _ _ _ (hne _ h0x1)]
  · rfl
  · intro st i
    apply foldl_option_none _ _ _ (hne _ h0y1)
    intro st j
    apply foldl_option_none _ _ _ (hne _ h0z1)
    intro st k
    cases st with
    | none => rfl
    | some s =>
      rw [Option.some_bind, fillBodyChecked, fillPointChecked_eq_none _ _ _ _ h1]
      rfl

/-- A quotient above `-1` truncates to a non-negative integer. -/
theorem truncToInt_nonneg_of_neg_one_lt [FloorRing K] {q : K} (h : -1 < q) :
    0 ≤ truncToInt q := by
  unfold truncToInt
  split_ifs with h0
  · exact Int.floor_nonneg.mpr h0
  · have h1 : (-1 : ℤ) < ⌈q⌉ := Int.lt_ceil.mpr (by push_cast; exact h)
    omega

/-- A quotient strictly between `-1` and `1` truncates to zero. -/
theorem truncToInt_eq_zero_of_abs_lt_one [FloorRing K] {q : K} (h1 : -1 < q) (h2 : q < 1) :
    truncToInt q = 0 := by
  unfold truncToInt
  split_ifs with h0
  · apply Int.floor_eq_iff.mpr
    constructor
    · push_cast
      exact h0
    · push_cast
      linarith
  · apply Int.ceil_eq_iff.mpr
    constructor
    · push_cast
      linarith
    · push_cast
      exact le_of_lt (not_le.mp h0)

/-- The three quotients of a node and the point `Fill` computes from them. -/
theorem fillPoint_eq_quotients (c : Cube K) (nx ny nz i j k : ℤ) :
    fillPoint c nx ny nz i j k
      = c.m_origin + ((i : K) / (nx : K)) * c.m_vx + ((j : K) / (ny : K)) * c.m_vy
        + ((k : K) / (nz : K)) * c.m_vz := rfl

/-- The point `InnerFill` computes, by the coefficients of the edge
vectors. -/
theorem innerPoint_eq_coefficients (c : Cube K) (nx ny nz i j k : ℤ) :
    innerPoint c nx ny nz i j k
      = c.m_origin + (((i : K) + 1 / 2) / (nx : K)) * c.m_vx
        + (((j : K) + 1 / 2) / (ny : K)) * c.m_vy
        + (((k : K) + 1 / 2) / (nz : K)) * c.m_vz := by
  simp only [innerPoint, Point.add_vec_eq, Vector.smul_eq, Vector.sdiv_eq, Point.mk.injEq]
  refine ⟨?_, ?_, ?_, trivial⟩ <;> ring

/-- A quotient of at most `-1` truncates to a negative integer. -/
theorem truncToInt_neg_of_le_neg_one [FloorRing K] {q : K} (h : q ≤ -1) :
    truncToInt q < 0 := by
  unfold truncToInt
  split_ifs with h0
  · linarith
  · have h1 : ⌈q⌉ ≤ (-1 : ℤ) := Int.ceil_le.mpr (by push_cast; exact h)
    omega

/-- The loop `for (int i = lo; i <= hi; i++)` with `hi < lo` does not run. -/
theorem loopLE_eq_nil {lo hi : ℤ} (h : hi < lo) : loopLE lo hi = [] := by
  have h0 : (hi + 1 - lo).toNat = 0 := by omega
  simp only [loopLE, h0, List.range_zero, List.map_nil]

/-- A loop whose body leaves the state alone leaves the state alone. -/
theorem foldl_unchanged {S A : Type} (L : List A) (s : S) :
    L.foldl (fun st _ => st) s = s := by
  induction L with
  | nil => rfl
  | cons a L ih => rw [List.foldl_cons, ih]

/-- With a negative resolution the loop nest of `Fill` with faces runs no
body: nothing is divided, nothing is counted. -/
theorem FillChecked_of_neg [FloorRing K] (c : Cube K) (points : List (Point K)) (dx : K)
    (fill : Bool)
    (h : truncToInt (c.m_lx / dx) < 0 ∨ truncToInt (c.m_ly / dx) < 0
      ∨ truncToInt (c.m_lz / dx) < 0) :
    c.FillChecked points dx true fill = some ⟨c.setOriginMass, points, 0⟩ := by
  have h1 : truncToInt (c.setOriginMass.m_lx / dx) < 0 ∨ truncToInt (c.setOriginMass.m_ly / dx) < 0
      ∨ truncToInt (c.setOriginMass.m_lz / dx) < 0 := h
  unfold FillChecked
  simp only [Bool.not_true, Bool.false_eq_true, if_false]
  rcases h1 with h1 | h1 | h1
  · rw [loopLE_eq_nil h1]
    rfl
  · rw [loopLE_eq_nil h1]
    simp only [List.foldl_nil, foldl_unchanged]
    rfl
  · rw [loopLE_eq_nil h1]
    simp only [List.foldl_nil, foldl_unchanged]
    rfl

end Cube

/-! ### The claims -/

/-- C1. `IsInside(p, dx)` is true exactly when the local coordinates of `p`
(`p - origin` rotated by the inverse orientation) lie strictly between `-dx`
and `length + dx` on each axis. For a box with origin `(0,0,0)`, lengths
`(1,1,1)` and identity orientation, `(0.5,0.5,0.5)` is inside for every
`dx ≥ 0`, and `(1.05,0.5,0.5)` is inside iff `dx > 0.05`. The rotation used,
by the transposed matrix, is the inverse of the orientation whenever the
orientation is orthonormal. -/
theorem IsInside_iff_local_coordinates :
    (∀ (c : Cube K) (p : Point K) (dx : K),
      c.IsInside p dx = true ↔
        (-dx < ((p - c.m_origin).TransposeRot c.m_ODERot).x ∧
          ((p - c.m_origin).TransposeRot c.m_ODERot).x < c.m_lx + dx) ∧
        (-dx < ((p - c.m_origin).TransposeRot c.m_ODERot).y ∧
          ((p - c.m_origin).TransposeRot c.m_ODERot).y < c.m_ly + dx) ∧
        (-dx < ((p - c.m_origin).TransposeRot c.m_ODERot).z ∧
          ((p - c.m_origin).TransposeRot c.m_ODERot).z < c.m_lz + dx)) ∧
    (∀ (c : Cube K), c.m_origin.x = 0 → c.m_origin.y = 0 → c.m_origin.z = 0 →
      c.m_lx = 1 → c.m_ly = 1 → c.m_lz = 1 → c.m_ODERot = Mat3.identity →
      (∀ (w dx : K), 0 ≤ dx → c.IsInside ⟨1 / 2, 1 / 2, 1 / 2, w⟩ dx = true) ∧
      (∀ (w dx : K), c.IsInside ⟨21 / 20, 1 / 2, 1 / 2, w⟩ dx = true ↔ 1 / 20 < dx)) ∧
    (∀ (r : Mat3 K) (v : Vector K), r.Orthonormal → (v.Rot r).TransposeRot r = v) := by
  refine ⟨?_, ?_, ?_⟩
  rotate_left 2
  · rintro r ⟨x, y, z⟩ ⟨h00, h11, h22, h01, h02, h12⟩
    simp only [Vector.Rot, Vector.TransposeRot, Vector.mk.injEq]
    refine ⟨?_, ?_, ?_⟩
    · linear_combination x * h00 + y * h01 + z * h02
    · linear_combination x * h01 + y * h11 + z * h12
    · linear_combination x * h02 + y * h12 + z * h22
  · intro c p dx
    simp only [Cube.IsInside, gt_iff_lt]
    constructor
    · intro h
      split at h
      · rename_i h1
        tauto
      · exact absurd h (by simp)
    · intro h
      rw [if_pos (by tauto)]
  · intro c hx hy hz h1 h2 h3 hR
    have key : ∀ (p : Point K) (dx : K), c.IsInside p dx = true ↔
        (-dx < p.x ∧ p.x < 1 + dx) ∧ (-dx < p.y ∧ p.y < 1 + dx) ∧
          (-dx < p.z ∧ p.z < 1 + dx) := by
      intro p dx
      have e : (p - c.m_origin).TransposeRot c.m_ODERot = ⟨p.x, p.y, p.z⟩ := by
        rw [hR]
        show Vector.TransposeRot (Point.sub p c.m_origin) Mat3.identity = _
        simp [Vector.TransposeRot, Point.sub, Mat3.identity, hx, hy, hz]
      simp only [Cube.IsInside, gt_iff_lt, e, h1, h2, h3]
      constructor
      · intro h
        split at h
        · tauto
        · exact absurd h (by simp)
      · intro h
        rw [if_pos (by tauto)]
    refine ⟨?_, ?_⟩
    · intro w dx hdx
      rw [key]
      norm_num
      constructor <;> linarith
    · intro w dx
      rw [key]
      norm_num
      constructor
      · rintro ⟨⟨_, h⟩, _⟩
        linarith
      · intro h
        refine ⟨⟨by linarith, by linarith⟩, ⟨by linarith, by linarith⟩⟩

namespace Cube

/-- C3. For `dx > 0`, `Fill` with `fill_faces = false` runs each index from
`1` to `n-1`: it returns `max(nx-1,0)*max(ny-1,0)*max(nz-1,0)`, which is
`(nx-1)*(ny-1)*(nz-1)` when every `n ≥ 1` and `0` as soon as one `n ≤ 1`, and
the particles it appends are the `fill_faces = true` particles (the lattice
nodes `0..nx`, `0..ny`, `0..nz`, last conjunct) whose indices satisfy
`1 ≤ i ≤ nx-1`, `1 ≤ j ≤ ny-1`, `1 ≤ k ≤ nz-1`, in the same order. -/
theorem Fill_without_faces [FloorRing K] (c : Cube K) (pts : List (Point K)) (dx : K)
    (hdx : 0 < dx) :
    (∀ fill : Bool, (c.Fill pts dx false fill).nparts
      = max (⌊c.m_lx / dx⌋ - 1) 0 * max (⌊c.m_ly / dx⌋ - 1) 0 * max (⌊c.m_lz / dx⌋ - 1) 0) ∧
    (1 ≤ ⌊c.m_lx / dx⌋ → 1 ≤ ⌊c.m_ly / dx⌋ → 1 ≤ ⌊c.m_lz / dx⌋ →
      ∀ fill : Bool, (c.Fill pts dx false fill).nparts
        = (⌊c.m_lx / dx⌋ - 1) * (⌊c.m_ly / dx⌋ - 1) * (⌊c.m_lz / dx⌋ - 1)) ∧
    (⌊c.m_lx / dx⌋ ≤ 1 ∨ ⌊c.m_ly / dx⌋ ≤ 1 ∨ ⌊c.m_lz / dx⌋ ≤ 1 →
      ∀ fill : Bool, (c.Fill pts dx false fill).nparts = 0) ∧
    (c.Fill pts dx false true).points
      = pts ++ ((lexNodes (loopLE 0 ⌊c.m_lx / dx⌋) (loopLE 0 ⌊c.m_ly / dx⌋)
            (loopLE 0 ⌊c.m_lz / dx⌋)).filter
          (fun t => decide ((1 ≤ t.1 ∧ t.1 ≤ ⌊c.m_lx / dx⌋ - 1) ∧
            (1 ≤ t.2.1 ∧ t.2.1 ≤ ⌊c.m_ly / dx⌋ - 1) ∧
            (1 ≤ t.2.2 ∧ t.2.2 ≤ ⌊c.m_lz / dx⌋ - 1)))).map
          (fun t => fillPoint c.setOriginMass ⌊c.m_lx / dx⌋ ⌊c.m_ly / dx⌋ ⌊c.m_lz / dx⌋
            t.1 t.2.1 t.2.2) ∧
    (0 ≤ c.m_lx → 0 ≤ c.m_ly → 0 ≤ c.m_lz →
      (c.Fill pts dx true true).points
        = pts ++ (lexNodes (loopLE 0 ⌊c.m_lx / dx⌋) (loopLE 0 ⌊c.m_ly / dx⌋)
            (loopLE 0 ⌊c.m_lz / dx⌋)).map
          (fun t => fillPoint c.setOriginMass ⌊c.m_lx / dx⌋ ⌊c.m_ly / dx⌋ ⌊c.m_lz / dx⌋
            t.1 t.2.1 t.2.2)) := by
  have hcount : ∀ fill : Bool, (c.Fill pts dx false fill).nparts
      = max (⌊c.m_lx / dx⌋ - 1) 0 * max (⌊c.m_ly / dx⌋ - 1) 0
          * max (⌊c.m_lz / dx⌋ - 1) 0 := by
    intro fill
    rw [Fill_eq]
    simp only [Bool.false_eq_true, if_false, length_loopLE]
    have e : ∀ n : ℤ, (n - 1 + 1 - 1).toNat = (n - 1).toNat := by
      intro n
      congr 1
      ring
    rw [e, e, e, toNat_trunc_pred, toNat_trunc_pred, toNat_trunc_pred]
  refine ⟨hcount, ?_, ?_, ?_, ?_⟩
  · intro h1 h2 h3 fill
    rw [hcount, max_eq_left (by omega), max_eq_left (by omega), max_eq_left (by omega)]
  · intro h fill
    rw [hcount]
    rcases h with h | h | h
    · rw [max_eq_right (by omega : ⌊c.m_lx / dx⌋ - 1 ≤ 0)]
      ring
    · rw [max_eq_right (by omega : ⌊c.m_ly / dx⌋ - 1 ≤ 0)]
      ring
    · rw [max_eq_right (by omega : ⌊c.m_lz / dx⌋ - 1 ≤ 0)]
      ring
  · rw [Fill_eq]
    simp only [Bool.false_eq_true, if_false, if_true]
    congr 1
    have hf : (lexNodes (loopLE 0 ⌊c.m_lx / dx⌋) (loopLE 0 ⌊c.m_ly / dx⌋)
            (loopLE 0 ⌊c.m_lz / dx⌋)).filter
          (fun t => decide ((1 ≤ t.1 ∧ t.1 ≤ ⌊c.m_lx / dx⌋ - 1) ∧
            (1 ≤ t.2.1 ∧ t.2.1 ≤ ⌊c.m_ly / dx⌋ - 1) ∧
            (1 ≤ t.2.2 ∧ t.2.2 ≤ ⌊c.m_lz / dx⌋ - 1)))
        = lexNodes (loopLE 1 (⌊c.m_lx / dx⌋ - 1)) (loopLE 1 (⌊c.m_ly / dx⌋ - 1))
            (loopLE 1 (⌊c.m_lz / dx⌋ - 1)) := by
      have hp : ∀ n : ℤ, (loopLE 0 n).filter (fun i => decide (1 ≤ i ∧ i ≤ n - 1))
          = loopLE 1 (n - 1) := by
        intro n
        rw [filter_loopLE, max_eq_right (by omega), min_eq_right (by omega)]
      rw [← hp ⌊c.m_lx / dx⌋, ← hp ⌊c.m_ly / dx⌋, ← hp ⌊c.m_lz / dx⌋, ← filter_lexNodes]
      apply List.filter_congr
      intro t _
      simp only [Bool.decide_and]
    rw [hf, loopLE_one_trunc_pred, loopLE_one_trunc_pred, loopLE_one_trunc_pred]
    apply List.map_congr_left
    intro t ht
    rw [mem_lexNodes, mem_loopLE, mem_loopLE, mem_loopLE] at ht
    rw [truncToInt_eq_floor_of_two_le (by omega : 2 ≤ ⌊c.m_lx / dx⌋),
      truncToInt_eq_floor_of_two_le (by omega : 2 ≤ ⌊c.m_ly / dx⌋),
      truncToInt_eq_floor_of_two_le (by omega : 2 ≤ ⌊c.m_lz / dx⌋)]
  · intro hx hy hz
    rw [Fill_eq]
    simp only [if_true, truncToInt_div_of_nonneg hx hdx,
      truncToInt_div_of_nonneg hy hdx, truncToInt_div_of_nonneg hz hdx]

/-- C3, on the box of lengths `(2,2,2)` with `dx = 1`: one particle, the
lattice node `(1,1,1)`. -/
theorem Fill_without_faces_example :
    (0 : ℚ) < 1 ∧ ((axisAligned (2 : ℚ) 2 2).Fill [] 1 false true).nparts = 1 ∧
      ((axisAligned (2 : ℚ) 2 2).Fill [] 1 false true).points = [⟨1, 1, 1, 0⟩] := by
  have h := Fill_without_faces (axisAligned (2 : ℚ) 2 2) [] 1 (by norm_num)
  refine ⟨by norm_num, ?_, ?_⟩
  · rw [h.1 true]
    norm_num [axisAligned]
  · rw [h.2.2.2.1]
    have e : ⌊((axisAligned (2 : ℚ) 2 2).m_lx) / 1⌋ = 2
        ∧ ⌊((axisAligned (2 : ℚ) 2 2).m_ly) / 1⌋ = 2
        ∧ ⌊((axisAligned (2 : ℚ) 2 2).m_lz) / 1⌋ = 2 := by
      norm_num [axisAligned]
    rw [e.1, e.2.1, e.2.2]
    have e2 : (lexNodes (loopLE 0 2) (loopLE 0 2) (loopLE 0 2)).filter
        (fun t => decide ((1 ≤ t.1 ∧ t.1 ≤ 2 - 1) ∧ (1 ≤ t.2.1 ∧ t.2.1 ≤ 2 - 1) ∧
          (1 ≤ t.2.2 ∧ t.2.2 ≤ 2 - 1))) = [(1, 1, 1)] := by
      decide
    rw [e2]
    norm_num [fillPoint, setOriginMass, axisAligned, Point.add_vec_eq, Vector.smul_eq]

/-- C4. For `dx > 0` with `nx, ny, nz ≥ 1`, `Fill` with `fill_faces = true` and
`fill = true` keeps the container's contents as a prefix and appends the
points `origin + (i/nx)*edgeX + (j/ny)*edgeY + (k/nz)*edgeZ`, one per lattice
node `0 ≤ i ≤ nx`, `0 ≤ j ≤ ny`, `0 ≤ k ≤ nz`, the node `(i, j, k)` at position
`(i*(ny+1) + j)*(nz+1) + k`: lexicographic order, `k` varying fastest. The
origin is the box's origin as `Fill` leaves it: same coordinates, fourth
component copied from the centre. -/
theorem Fill_with_faces_points [FloorRing K] (c : Cube K) (pts : List (Point K)) (dx : K)
    (_hdx : 0 < dx) (hx : 1 ≤ ⌊c.m_lx / dx⌋) (hy : 1 ≤ ⌊c.m_ly / dx⌋)
    (hz : 1 ≤ ⌊c.m_lz / dx⌋) :
    ∃ nodes : List (ℤ × ℤ × ℤ),
      nodes.Nodup ∧
      (∀ i j k : ℤ, (i, j, k) ∈ nodes ↔
        (0 ≤ i ∧ i ≤ ⌊c.m_lx / dx⌋) ∧ (0 ≤ j ∧ j ≤ ⌊c.m_ly / dx⌋) ∧
          (0 ≤ k ∧ k ≤ ⌊c.m_lz / dx⌋)) ∧
      (nodes.length : ℤ)
        = (⌊c.m_lx / dx⌋ + 1) * (⌊c.m_ly / dx⌋ + 1) * (⌊c.m_lz / dx⌋ + 1) ∧
      (∀ i j k : ℤ, 0 ≤ i → i ≤ ⌊c.m_lx / dx⌋ → 0 ≤ j → j ≤ ⌊c.m_ly / dx⌋ →
        0 ≤ k → k ≤ ⌊c.m_lz / dx⌋ →
        nodes[((i * (⌊c.m_ly / dx⌋ + 1) + j) * (⌊c.m_lz / dx⌋ + 1) + k).toNat]?
          = some (i, j, k)) ∧
      (c.Fill pts dx true true).points = pts ++ nodes.map
        (fun t => c.setOriginMass.m_origin
          + ((t.1 : K) / (⌊c.m_lx / dx⌋ : K)) * c.m_vx
          + ((t.2.1 : K) / (⌊c.m_ly / dx⌋ : K)) * c.m_vy
          + ((t.2.2 : K) / (⌊c.m_lz / dx⌋ : K)) * c.m_vz) := by
  refine ⟨lexNodes (loopLE 0 ⌊c.m_lx / dx⌋) (loopLE 0 ⌊c.m_ly / dx⌋)
    (loopLE 0 ⌊c.m_lz / dx⌋), ?_, ?_, ?_, ?_, ?_⟩
  · exact nodup_lexNodes (sorted_loopLE _ _).nodup (sorted_loopLE _ _).nodup
      (sorted_loopLE _ _).nodup
  · intro i j k
    simp only [mem_lexNodes, mem_loopLE]
  · rw [length_lexNodes, length_loopLE, length_loopLE, length_loopLE]
    push_cast
    rw [Int.toNat_of_nonneg (by omega), Int.toNat_of_nonneg (by omega),
      Int.toNat_of_nonneg (by omega)]
    ring
  · intro i j k hi0 hi hj0 hj hk0 hk
    exact getElem?_lexNodes_loopLE _ _ _ i j k hi0 hi hj0 hj hk0 hk
  · rw [Fill_eq]
    simp only [if_true, truncToInt_of_one_le_floor hx, truncToInt_of_one_le_floor hy,
      truncToInt_of_one_le_floor hz]
    rfl

/-- C4, on the box of lengths `(2,2,2)` with `dx = 1`: 27 points are appended,
the one at position 13 is the lattice node `(1,1,1)`. -/
theorem Fill_with_faces_points_example :
    (0 : ℚ) < 1 ∧
    ((axisAligned (2 : ℚ) 2 2).Fill [⟨9, 9, 9, 9⟩] 1 true true).points.length = 1 + 27 ∧
    ((axisAligned (2 : ℚ) 2 2).Fill [⟨9, 9, 9, 9⟩] 1 true true).points[1 + 13]?
      = some ⟨1, 1, 1, 0⟩ := by
  have e : ⌊((axisAligned (2 : ℚ) 2 2).m_lx) / 1⌋ = 2
      ∧ ⌊((axisAligned (2 : ℚ) 2 2).m_ly) / 1⌋ = 2
      ∧ ⌊((axisAligned (2 : ℚ) 2 2).m_lz) / 1⌋ = 2 := by
    norm_num [axisAligned]
  obtain ⟨nodes, -, -, hlen, hidx, hpts⟩ :=
    Fill_with_faces_points (axisAligned (2 : ℚ) 2 2) [⟨9, 9, 9, 9⟩] 1 (by norm_num)
      (by rw [e.1]; norm_num) (by rw [e.2.1]; norm_num) (by rw [e.2.2]; norm_num)
  rw [e.1, e.2.1, e.2.2] at hlen hidx hpts
  have h13 := hidx 1 1 1 (by norm_num) (by norm_num) (by norm_num) (by norm_num)
    (by norm_num) (by norm_num)
  have e13 : ((1 * (2 + 1) + 1) * (2 + 1) + 1 : ℤ).toNat = 13 := by decide
  rw [e13] at h13
  have hl : nodes.length = 27 := by
    have : (nodes.length : ℤ) = 27 := by rw [hlen]; norm_num
    exact_mod_cast this
  refine ⟨by norm_num, ?_, ?_⟩
  · rw [hpts, List.length_append, List.length_map, hl]
    rfl
  · rw [hpts, List.getElem?_append_right (by simp)]
    simp only [List.length_singleton, Nat.add_sub_cancel_left, List.getElem?_map, h13,
      Option.map_some']
    norm_num [setOriginMass, axisAligned, Point.add_vec_eq, Vector.smul_eq]

/-- C5. For `dx > 0` and either value of `fill_faces`, `Fill` in count-only
mode (`fill = false`) leaves the container as it was and returns the number
`Fill` with `fill = true` returns, which is the number of particles that call
appends to the container. -/
theorem Fill_count_only [FloorRing K] (c : Cube K) (pts : List (Point K)) (dx : K)
    (ff : Bool) (_hdx : 0 < dx) :
    (c.Fill pts dx ff false).points = pts ∧
    (c.Fill pts dx ff false).nparts = (c.Fill pts dx ff true).nparts ∧
    ∃ app : List (Point K), (c.Fill pts dx ff true).points = pts ++ app ∧
      (app.length : ℤ) = (c.Fill pts dx ff true).nparts := by
  refine ⟨?_, ?_, ?_⟩
  · rw [Fill_eq]
    simp
  · rw [Fill_eq, Fill_eq]
  · rw [Fill_eq]
    refine ⟨_, rfl, ?_⟩
    simp only [if_true, List.length_map, length_lexNodes]
    push_cast
    ring

/-- C5, on the box of lengths `(2,2,2)` with `dx = 1`, faces included:
counting leaves the container alone and announces what filling appends. -/
theorem Fill_count_only_example :
    (0 : ℚ) < 1 ∧
    ((axisAligned (2 : ℚ) 2 2).Fill [⟨9, 9, 9, 9⟩] 1 true false).points = [⟨9, 9, 9, 9⟩] ∧
    ((axisAligned (2 : ℚ) 2 2).Fill [⟨9, 9, 9, 9⟩] 1 true false).nparts
      = ((axisAligned (2 : ℚ) 2 2).Fill [⟨9, 9, 9, 9⟩] 1 true true).nparts :=
  ⟨by norm_num,
    (Fill_count_only (axisAligned (2 : ℚ) 2 2) [⟨9, 9, 9, 9⟩] 1 true (by norm_num)).1,
    (Fill_count_only (axisAligned (2 : ℚ) 2 2) [⟨9, 9, 9, 9⟩] 1 true (by norm_num)).2.1⟩

/-- C6. On the box of lengths `(5/2, 1, 1)` with `dx = 1` the resolutions are
`nx = 2`, `ny = nz = 1` and `InnerFill` produces the two particles
`(5/8, 1/2, 1/2)` and `(15/8, 1/2, 1/2)`: along `x` the outermost layers are
at `5/8` from the near face and at `5/2 - 15/8 = 5/8` from the far face, not
at `dx/2 = 1/2`, and no particle has the local `x` coordinate `dx/2` or
`5/2 - dx/2`. -/
theorem InnerFill_uneven_length_points :
    (truncToInt ((axisAligned (5 / 2 : ℚ) 1 1).m_lx / 1) = 2 ∧
      truncToInt ((axisAligned (5 / 2 : ℚ) 1 1).m_ly / 1) = 1 ∧
      truncToInt ((axisAligned (5 / 2 : ℚ) 1 1).m_lz / 1) = 1) ∧
    ((axisAligned (5 / 2 : ℚ) 1 1).InnerFill [] 1).2
      = [⟨5 / 8, 1 / 2, 1 / 2, 0⟩, ⟨15 / 8, 1 / 2, 1 / 2, 0⟩] ∧
    (((axisAligned (5 / 2 : ℚ) 1 1).InnerFill [] 1).2.map
        (fun p => (axisAligned (5 / 2 : ℚ) 1 1).localCoords p)
      = [⟨5 / 8, 1 / 2, 1 / 2⟩, ⟨15 / 8, 1 / 2, 1 / 2⟩]) ∧
    ((5 / 8 : ℚ) ≠ 1 / 2 ∧ (axisAligned (5 / 2 : ℚ) 1 1).m_lx - 15 / 8 ≠ 1 / 2) ∧
    (∀ p ∈ ((axisAligned (5 / 2 : ℚ) 1 1).InnerFill [] 1).2,
      ((axisAligned (5 / 2 : ℚ) 1 1).localCoords p).x ≠ 1 / 2 ∧
      ((axisAligned (5 / 2 : ℚ) 1 1).localCoords p).x
        ≠ (axisAligned (5 / 2 : ℚ) 1 1).m_lx - 1 / 2) := by
  have e : ⌊((axisAligned (5 / 2 : ℚ) 1 1).m_lx) / 1⌋ = 2
      ∧ ⌊((axisAligned (5 / 2 : ℚ) 1 1).m_ly) / 1⌋ = 1
      ∧ ⌊((axisAligned (5 / 2 : ℚ) 1 1).m_lz) / 1⌋ = 1 := by
    norm_num [axisAligned]
  have et : truncToInt ((axisAligned (5 / 2 : ℚ) 1 1).m_lx / 1) = 2
      ∧ truncToInt ((axisAligned (5 / 2 : ℚ) 1 1).m_ly / 1) = 1
      ∧ truncToInt ((axisAligned (5 / 2 : ℚ) 1 1).m_lz / 1) = 1 := by
    refine ⟨?_, ?_, ?_⟩
    · rw [truncToInt_of_one_le_floor (by rw [e.1]; norm_num), e.1]
    · rw [truncToInt_of_one_le_floor (by rw [e.2.1]), e.2.1]
    · rw [truncToInt_of_one_le_floor (by rw [e.2.2]), e.2.2]
  have hl : (lexNodes (loopLT 0 2) (loopLT 0 1) (loopLT 0 1)) = [(0, 0, 0), (1, 0, 0)] := by
    decide
  have hpts : ((axisAligned (5 / 2 : ℚ) 1 1).InnerFill [] 1).2
      = [⟨5 / 8, 1 / 2, 1 / 2, 0⟩, ⟨15 / 8, 1 / 2, 1 / 2, 0⟩] := by
    rw [InnerFill_eq, et.1, et.2.1, et.2.2, hl]
    norm_num [innerPoint, setOriginMass, axisAligned, Point.add_vec_eq, Vector.smul_eq,
      Vector.sdiv_eq]
  refine ⟨et, hpts, ?_, ⟨by norm_num, by norm_num [axisAligned]⟩, ?_⟩
  · rw [hpts]
    norm_num [localCoords, axisAligned, Mat3.identity, Vector.TransposeRot, Point.sub_eq]
  · intro p hp
    rw [hpts] at hp
    simp only [List.mem_cons, List.mem_singleton, List.not_mem_nil, or_false] at hp
    rcases hp with rfl | rfl
    · norm_num [localCoords, axisAligned, Mat3.identity, Vector.TransposeRot, Point.sub_eq]
    · norm_num [localCoords, axisAligned, Mat3.identity, Vector.TransposeRot, Point.sub_eq]

/-- C7. For `dx > 0` with `nx, ny, nz ≥ 1`, `InnerFill` keeps the container's
contents as a prefix and appends exactly `nx*ny*nz` particles, the points
`origin + ((i+0.5)/nx)*edgeX + ((j+0.5)/ny)*edgeY + ((k+0.5)/nz)*edgeZ` for
`0 ≤ i ≤ nx-1`, `0 ≤ j ≤ ny-1`, `0 ≤ k ≤ nz-1`, each cell exactly once (the
cell `(i, j, k)` at position `(i*ny + j)*nz + k`). The origin is the box's
origin as `InnerFill` leaves it: same coordinates, fourth component copied
from the centre. -/
theorem InnerFill_points [FloorRing K] (c : Cube K) (pts : List (Point K)) (dx : K)
    (_hdx : 0 < dx) (hx : 1 ≤ ⌊c.m_lx / dx⌋) (hy : 1 ≤ ⌊c.m_ly / dx⌋)
    (hz : 1 ≤ ⌊c.m_lz / dx⌋) :
    ∃ cells : List (ℤ × ℤ × ℤ),
      cells.Nodup ∧
      (∀ i j k : ℤ, (i, j, k) ∈ cells ↔
        (0 ≤ i ∧ i ≤ ⌊c.m_lx / dx⌋ - 1) ∧ (0 ≤ j ∧ j ≤ ⌊c.m_ly / dx⌋ - 1) ∧
          (0 ≤ k ∧ k ≤ ⌊c.m_lz / dx⌋ - 1)) ∧
      (cells.length : ℤ) = ⌊c.m_lx / dx⌋ * ⌊c.m_ly / dx⌋ * ⌊c.m_lz / dx⌋ ∧
      (∀ i j k : ℤ, 0 ≤ i → i ≤ ⌊c.m_lx / dx⌋ - 1 → 0 ≤ j → j ≤ ⌊c.m_ly / dx⌋ - 1 →
        0 ≤ k → k ≤ ⌊c.m_lz / dx⌋ - 1 →
        cells[((i * ⌊c.m_ly / dx⌋ + j) * ⌊c.m_lz / dx⌋ + k).toNat]? = some (i, j, k)) ∧
      (c.InnerFill pts dx).2 = pts ++ cells.map
        (fun t => c.setOriginMass.m_origin
          + (((t.1 : K) + 1 / 2) / (⌊c.m_lx / dx⌋ : K)) * c.m_vx
          + (((t.2.1 : K) + 1 / 2) / (⌊c.m_ly / dx⌋ : K)) * c.m_vy
          + (((t.2.2 : K) + 1 / 2) / (⌊c.m_lz / dx⌋ : K)) * c.m_vz) := by
  refine ⟨lexNodes (loopLT 0 ⌊c.m_lx / dx⌋) (loopLT 0 ⌊c.m_ly / dx⌋)
    (loopLT 0 ⌊c.m_lz / dx⌋), ?_, ?_, ?_, ?_, ?_⟩
  · exact nodup_lexNodes (sorted_loopLT _ _).nodup (sorted_loopLT _ _).nodup
      (sorted_loopLT _ _).nodup
  · intro i j k
    simp only [mem_lexNodes, mem_loopLT]
    constructor
    · rintro ⟨h1, h2, h3⟩
      exact ⟨⟨h1.1, by omega⟩, ⟨h2.1, by omega⟩, ⟨h3.1, by omega⟩⟩
    · rintro ⟨h1, h2, h3⟩
      exact ⟨⟨h1.1, by omega⟩, ⟨h2.1, by omega⟩, ⟨h3.1, by omega⟩⟩
  · rw [length_lexNodes, length_loopLT, length_loopLT, length_loopLT]
    push_cast
    rw [Int.toNat_of_nonneg (by omega), Int.toNat_of_nonneg (by omega),
      Int.toNat_of_nonneg (by omega)]
    ring
  · intro i j k hi0 hi hj0 hj hk0 hk
    exact getElem?_lexNodes_loopLT _ _ _ i j k hi0 (by omega) hj0 (by omega) hk0 (by omega)
  · rw [InnerFill_eq, truncToInt_of_one_le_floor hx, truncToInt_of_one_le_floor hy,
      truncToInt_of_one_le_floor hz]
    simp only [Prod.snd]
    congr 1
    apply List.map_congr_left
    intro t _
    simp only [innerPoint, Point.add_vec_eq, Vector.smul_eq, Vector.sdiv_eq, setOriginMass]
    congr 1 <;> ring

/-- C7, on the box of lengths `(2,2,2)` with `dx = 1`: 8 particles are
appended, the one at position 7 is the centre of the cell `(1,1,1)`. -/
theorem InnerFill_points_example :
    (0 : ℚ) < 1 ∧
    ((axisAligned (2 : ℚ) 2 2).InnerFill [⟨9, 9, 9, 9⟩] 1).2.length = 1 + 8 ∧
    ((axisAligned (2 : ℚ) 2 2).InnerFill [⟨9, 9, 9, 9⟩] 1).2[1 + 7]?
      = some ⟨3 / 2, 3 / 2, 3 / 2, 0⟩ := by
  have e : ⌊((axisAligned (2 : ℚ) 2 2).m_lx) / 1⌋ = 2
      ∧ ⌊((axisAligned (2 : ℚ) 2 2).m_ly) / 1⌋ = 2
      ∧ ⌊((axisAligned (2 : ℚ) 2 2).m_lz) / 1⌋ = 2 := by
    norm_num [axisAligned]
  obtain ⟨cells, -, -, hlen, hidx, hpts⟩ :=
    InnerFill_points (axisAligned (2 : ℚ) 2 2) [⟨9, 9, 9, 9⟩] 1 (by norm_num)
      (by rw [e.1]; norm_num) (by rw [e.2.1]; norm_num) (by rw [e.2.2]; norm_num)
  rw [e.1, e.2.1, e.2.2] at hlen hidx hpts
  have h7 := hidx 1 1 1 (by norm_num) (by norm_num) (by norm_num) (by norm_num)
    (by norm_num) (by norm_num)
  have e7 : ((1 * 2 + 1) * 2 + 1 : ℤ).toNat = 7 := by decide
  rw [e7] at h7
  have hl : cells.length = 8 := by
    have : (cells.length : ℤ) = 8 := by rw [hlen]; norm_num
    exact_mod_cast this
  refine ⟨by norm_num, ?_, ?_⟩
  · rw [hpts, List.length_append, List.length_map, hl]
    rfl
  · rw [hpts, List.getElem?_append_right (by simp)]
    simp only [List.length_singleton, Nat.add_sub_cancel_left, List.getElem?_map, h7,
      Option.map_some']
    norm_num [setOriginMass, axisAligned, Point.add_vec_eq, Vector.smul_eq]

/-- C8. With `abs` the absolute value of a `double`, constructing a box
from an origin and three edge vectors fails (the diagnostic and `exit(1)`)
exactly when one of the three dot products exceeds in absolute value `1e-8`
times the product of the two norms; in every other case a box is produced
whose origin and edge vectors are the arguments. -/
theorem ofVectors_fails_iff_not_perpendicular (rt : Routines K) (base : Cube K)
    (origin : Point K) (vx vy vz : Vector K) (habs : ∀ x, rt.abs x = |x|) :
    (ofVectors rt base origin vx vy vz = none ↔
      (|vx.dot vy| > 1 / 100000000 * vx.norm rt * vy.norm rt ∨
        |vx.dot vz| > 1 / 100000000 * vx.norm rt * vz.norm rt ∨
        |vy.dot vz| > 1 / 100000000 * vy.norm rt * vz.norm rt)) ∧
    (¬ (|vx.dot vy| > 1 / 100000000 * vx.norm rt * vy.norm rt ∨
        |vx.dot vz| > 1 / 100000000 * vx.norm rt * vz.norm rt ∨
        |vy.dot vz| > 1 / 100000000 * vy.norm rt * vz.norm rt) →
      ∃ b : Cube K, ofVectors rt base origin vx vy vz = some b ∧
        b.m_origin = origin ∧ b.m_vx = vx ∧ b.m_vy = vy ∧ b.m_vz = vz) := by
  have hnp : nonPerpendicular rt vx vy vz ↔
      (|vx.dot vy| > 1 / 100000000 * vx.norm rt * vy.norm rt ∨
        |vx.dot vz| > 1 / 100000000 * vx.norm rt * vz.norm rt ∨
        |vy.dot vz| > 1 / 100000000 * vy.norm rt * vz.norm rt) := by
    simp only [nonPerpendicular, habs]
  rw [← hnp]
  constructor
  · unfold ofVectors
    constructor
    · intro h
      by_contra hn
      rw [if_neg hn] at h
      exact absurd h (by simp)
    · intro h
      rw [if_pos h]
  · intro hn
    unfold ofVectors
    rw [if_neg hn]
    exact ⟨_, rfl, rfl, rfl, rfl, rfl⟩

/-- C8, on two triples: `(2,0,0)`, `(2,0,0)`, `(0,0,1)` is refused (the first
dot product is 4), `(2,0,0)`, `(0,3,0)`, `(0,0,1)` is accepted and stored. -/
theorem ofVectors_fails_iff_not_perpendicular_example :
    ofVectors sampleRoutines (axisAligned 1 1 1) ⟨0, 0, 0, 0⟩
      ⟨2, 0, 0⟩ ⟨2, 0, 0⟩ ⟨0, 0, 1⟩ = none ∧
    ∃ b : Cube ℚ, ofVectors sampleRoutines (axisAligned 1 1 1) ⟨0, 0, 0, 0⟩
        ⟨2, 0, 0⟩ ⟨0, 3, 0⟩ ⟨0, 0, 1⟩ = some b ∧
      b.m_origin = ⟨0, 0, 0, 0⟩ ∧ b.m_vx = ⟨2, 0, 0⟩ ∧ b.m_vy = ⟨0, 3, 0⟩ ∧
        b.m_vz = ⟨0, 0, 1⟩ := by
  constructor
  · refine (ofVectors_fails_iff_not_perpendicular sampleRoutines (axisAligned 1 1 1)
      ⟨0, 0, 0, 0⟩ ⟨2, 0, 0⟩ ⟨2, 0, 0⟩ ⟨0, 0, 1⟩ (fun _ => rfl)).1.mpr ?_
    left
    norm_num [Vector.dot, Vector.norm, sampleRoutines]
  · refine (ofVectors_fails_iff_not_perpendicular sampleRoutines (axisAligned 1 1 1)
      ⟨0, 0, 0, 0⟩ ⟨2, 0, 0⟩ ⟨0, 3, 0⟩ ⟨0, 0, 1⟩ (fun _ => rfl)).2 ?_
    norm_num [Vector.dot, Vector.norm, sampleRoutines]

/-- C9 (as amended). For a right-handed triple of non-zero, mutually
perpendicular vectors, and library routines that are exact at the values the
constructor passes them, constructing a box from the vectors yields an
orientation that is a proper rotation (orthonormal columns, determinant `+1`)
and reproduces the inputs: applied to the canonical axes and scaled by
`edgeLengthX/Y/Z` it gives back `vx`, `vy`, `vz`. -/
theorem ofVectors_reproduces_edges (rt : Routines K) (base : Cube K) (origin : Point K)
    (vx vy vz : Vector K)
    (hxy : vx.dot vy = 0) (hxz : vx.dot vz = 0) (hyz : vy.dot vz = 0)
    (hx : vx ≠ ⟨0, 0, 0⟩) (hy : vy ≠ ⟨0, 0, 0⟩) (hz : vz ≠ ⟨0, 0, 0⟩)
    (hrh : 0 < Vector.triple vx vy vz) (hrt : RoutinesExactAt rt vx vy vz) :
    ∃ b : Cube K, ofVectors rt base origin vx vy vz = some b ∧
      b.m_ODERot.IsRotation ∧
      b.m_lx * (⟨1, 0, 0⟩ : Vector K).Rot b.m_ODERot = vx ∧
      b.m_ly * (⟨0, 1, 0⟩ : Vector K).Rot b.m_ODERot = vy ∧
      b.m_lz * (⟨0, 0, 1⟩ : Vector K).Rot b.m_ODERot = vz := by
  obtain ⟨⟨hlx, hly, hlz⟩, hm, b, hb, -, -, -, ex, ey, ez, eR⟩ :=
    ofVectors_orientation rt base origin vx vy vz hxy hxz hyz hx hy hz hrh hrt
  refine ⟨b, hb, by rw [eR]; exact hm, ?_, ?_, ?_⟩
  · rw [eR, ex]
    cases vx
    simp only [Vector.smul_eq, Vector.Rot, edgeMatrix, Vector.mk.injEq]
    refine ⟨?_, ?_, ?_⟩ <;> field_simp
  · rw [eR, ey]
    cases vy
    simp only [Vector.smul_eq, Vector.Rot, edgeMatrix, Vector.mk.injEq]
    refine ⟨?_, ?_, ?_⟩ <;> field_simp
  · rw [eR, ez]
    cases vz
    simp only [Vector.smul_eq, Vector.Rot, edgeMatrix, Vector.mk.injEq]
    refine ⟨?_, ?_, ?_⟩ <;> field_simp


/-- C9, on the quarter turn about `z` with edge lengths 2, 3 and 1. -/
theorem ofVectors_reproduces_edges_example :
    ∃ b : Cube ℚ, ofVectors sampleRoutines (axisAligned 1 1 1) ⟨0, 0, 0, 0⟩
        ⟨0, 2, 0⟩ ⟨-3, 0, 0⟩ ⟨0, 0, 1⟩ = some b ∧
      b.m_ODERot.IsRotation ∧
      b.m_lx * (⟨1, 0, 0⟩ : Vector ℚ).Rot b.m_ODERot = ⟨0, 2, 0⟩ ∧
      b.m_ly * (⟨0, 1, 0⟩ : Vector ℚ).Rot b.m_ODERot = ⟨-3, 0, 0⟩ ∧
      b.m_lz * (⟨0, 0, 1⟩ : Vector ℚ).Rot b.m_ODERot = ⟨0, 0, 1⟩ :=
  ofVectors_reproduces_edges sampleRoutines (axisAligned 1 1 1) ⟨0, 0, 0, 0⟩
    ⟨0, 2, 0⟩ ⟨-3, 0, 0⟩ ⟨0, 0, 1⟩
    (by norm_num [Vector.dot]) (by norm_num [Vector.dot]) (by norm_num [Vector.dot])
    (by simp) (by simp) (by simp) (by norm_num [Vector.triple])
    sampleRoutines_exact_quarter_turn

/-- C9 fails as stated: `(1,0,0)`, `(0,1,0)`, `(0,0,-1)` are non-zero and
mutually perpendicular, but left-handed; the constructor accepts them, and
whatever the library routines compute (as long as the root of 1 is 1), the
orientation stored is not a proper rotation that reproduces them. -/
theorem ofVectors_left_handed_counterexample :
    ((⟨1, 0, 0⟩ : Vector ℚ).dot ⟨0, 1, 0⟩ = 0 ∧ (⟨1, 0, 0⟩ : Vector ℚ).dot ⟨0, 0, -1⟩ = 0 ∧
      (⟨0, 1, 0⟩ : Vector ℚ).dot ⟨0, 0, -1⟩ = 0) ∧
    (∃ b : Cube ℚ, ofVectors sampleRoutines (axisAligned 1 1 1) ⟨0, 0, 0, 0⟩
      ⟨1, 0, 0⟩ ⟨0, 1, 0⟩ ⟨0, 0, -1⟩ = some b) ∧
    ¬ ∃ (rt : Routines ℚ) (base b : Cube ℚ), rt.sqrt 1 = 1 ∧
        ofVectors rt base ⟨0, 0, 0, 0⟩ ⟨1, 0, 0⟩ ⟨0, 1, 0⟩ ⟨0, 0, -1⟩ = some b ∧
        b.m_ODERot.IsRotation ∧
        b.m_lx * (⟨1, 0, 0⟩ : Vector ℚ).Rot b.m_ODERot = ⟨1, 0, 0⟩ ∧
        b.m_ly * (⟨0, 1, 0⟩ : Vector ℚ).Rot b.m_ODERot = ⟨0, 1, 0⟩ ∧
        b.m_lz * (⟨0, 0, 1⟩ : Vector ℚ).Rot b.m_ODERot = ⟨0, 0, -1⟩ := by
  refine ⟨by norm_num [Vector.dot], ?_, ?_⟩
  · have hnp : ¬ nonPerpendicular sampleRoutines ⟨1, 0, 0⟩ ⟨0, 1, 0⟩ ⟨0, 0, -1⟩ := by
      norm_num [nonPerpendicular, Vector.dot, Vector.norm, sampleRoutines]
    unfold ofVectors
    rw [if_neg hnp]
    exact ⟨_, rfl⟩
  rintro ⟨rt, base, b, h1, hb, ⟨-, hdet⟩, hx, hy, hz⟩
  have hl : b.m_lx = 1 ∧ b.m_ly = 1 ∧ b.m_lz = 1 := by
    unfold ofVectors at hb
    split at hb
    · exact absurd hb (by simp)
    · simp only [Option.some.injEq] at hb
      subst hb
      norm_num [Vector.norm, Vector.dot, h1]
  rw [hl.1] at hx
  rw [hl.2.1] at hy
  rw [hl.2.2] at hz
  simp only [Vector.smul_eq, Vector.Rot, Vector.mk.injEq] at hx hy hz
  norm_num at hx hy hz
  obtain ⟨x0, x1, x2⟩ := hx
  obtain ⟨y0, y1, y2⟩ := hy
  obtain ⟨z0, z1, z2⟩ := hz
  simp only [Mat3.det, x0, x1, x2, y0, y1, y2, z0, z1, z2] at hdet
  norm_num at hdet

/-- C10. After each of the three parameterised constructors the centre is
`origin + 0.5*(edgeVectorX + edgeVectorY + edgeVectorZ)`; for the two
length-based constructors this is the linearity of the rotation applied to
`(lx, ly, lz)`. -/
theorem center_eq_origin_add_half_diagonal :
    (∀ (rt : Routines K) (base : Cube K) (origin : Point K) (lx ly lz : K)
        (ep : EulerParameters K),
      (ofEulerParameters rt base origin lx ly lz ep).m_center
        = (ofEulerParameters rt base origin lx ly lz ep).m_origin
          + (1 / 2 : K) * ((ofEulerParameters rt base origin lx ly lz ep).m_vx
            + (ofEulerParameters rt base origin lx ly lz ep).m_vy
            + (ofEulerParameters rt base origin lx ly lz ep).m_vz)) ∧
    (∀ (rt : Routines K) (base : Cube K) (origin : Point K) (lx ly lz : K)
        (quat : K × K × K × K),
      (ofQuaternion rt base origin lx ly lz quat).m_center
        = (ofQuaternion rt base origin lx ly lz quat).m_origin
          + (1 / 2 : K) * ((ofQuaternion rt base origin lx ly lz quat).m_vx
            + (ofQuaternion rt base origin lx ly lz quat).m_vy
            + (ofQuaternion rt base origin lx ly lz quat).m_vz)) ∧
    (∀ (rt : Routines K) (base : Cube K) (origin : Point K) (vx vy vz : Vector K)
        (b : Cube K), ofVectors rt base origin vx vy vz = some b →
      b.m_center = b.m_origin + (1 / 2 : K) * (b.m_vx + b.m_vy + b.m_vz)) := by
  refine ⟨?_, ?_, ?_⟩
  · intro rt base origin lx ly lz ep
    simp only [ofEulerParameters, EulerParameters.Rot, Vector.Rot, Point.add_vec_eq,
      Vector.smul_eq, Vector.add_eq, Point.mk.injEq]
    refine ⟨?_, ?_, ?_, trivial⟩ <;> ring
  · intro rt base origin lx ly lz quat
    simp only [ofQuaternion, Vector.Rot, Point.add_vec_eq, Vector.smul_eq, Vector.add_eq,
      Point.mk.injEq]
    refine ⟨?_, ?_, ?_, trivial⟩ <;> ring
  · intro rt base origin vx vy vz b hb
    unfold ofVectors at hb
    split at hb
    · exact absurd hb (by simp)
    · simp only [Option.some.injEq] at hb
      subst hb
      rfl

/-- C11 (as amended). The two length-based constructors store the
caller-supplied `lx`, `ly`, `lz` unchecked; when these are non-negative, the
rotation has orthonormal columns and the square root is exact at their
squares, the edge lengths are non-negative and are the norms of the edge
vectors. The constructor from three edge vectors sets the edge lengths to the
norms of the edge vectors, which are non-negative when the square roots are
exact. -/
theorem lengths_are_norms :
    (∀ (rt : Routines K) (base : Cube K) (origin : Point K) (lx ly lz : K)
        (ep : EulerParameters K),
      0 ≤ lx → 0 ≤ ly → 0 ≤ lz → (rt.ComputeRot ep).m_rot.Orthonormal →
      rt.SqrtAt (lx * lx) → rt.SqrtAt (ly * ly) → rt.SqrtAt (lz * lz) →
      ((ofEulerParameters rt base origin lx ly lz ep).m_lx = lx ∧
        (ofEulerParameters rt base origin lx ly lz ep).m_ly = ly ∧
        (ofEulerParameters rt base origin lx ly lz ep).m_lz = lz) ∧
      (0 ≤ (ofEulerParameters rt base origin lx ly lz ep).m_lx ∧
        0 ≤ (ofEulerParameters rt base origin lx ly lz ep).m_ly ∧
        0 ≤ (ofEulerParameters rt base origin lx ly lz ep).m_lz) ∧
      ((ofEulerParameters rt base origin lx ly lz ep).m_vx.norm rt
          = (ofEulerParameters rt base origin lx ly lz ep).m_lx ∧
        (ofEulerParameters rt base origin lx ly lz ep).m_vy.norm rt
          = (ofEulerParameters rt base origin lx ly lz ep).m_ly ∧
        (ofEulerParameters rt base origin lx ly lz ep).m_vz.norm rt
          = (ofEulerParameters rt base origin lx ly lz ep).m_lz)) ∧
    (∀ (rt : Routines K) (base : Cube K) (origin : Point K) (lx ly lz : K)
        (quat : K × K × K × K),
      0 ≤ lx → 0 ≤ ly → 0 ≤ lz → (rt.dQtoR quat).Orthonormal →
      rt.SqrtAt (lx * lx) → rt.SqrtAt (ly * ly) → rt.SqrtAt (lz * lz) →
      ((ofQuaternion rt base origin lx ly lz quat).m_lx = lx ∧
        (ofQuaternion rt base origin lx ly lz quat).m_ly = ly ∧
        (ofQuaternion rt base origin lx ly lz quat).m_lz = lz) ∧
      (0 ≤ (ofQuaternion rt base origin lx ly lz quat).m_lx ∧
        0 ≤ (ofQuaternion rt base origin lx ly lz quat).m_ly ∧
        0 ≤ (ofQuaternion rt base origin lx ly lz quat).m_lz) ∧
      ((ofQuaternion rt base origin lx ly lz quat).m_vx.norm rt
          = (ofQuaternion rt base origin lx ly lz quat).m_lx ∧
        (ofQuaternion rt base origin lx ly lz quat).m_vy.norm rt
          = (ofQuaternion rt base origin lx ly lz quat).m_ly ∧
        (ofQuaternion rt base origin lx ly lz quat).m_vz.norm rt
          = (ofQuaternion rt base origin lx ly lz quat).m_lz)) ∧
    (∀ (rt : Routines K) (base : Cube K) (origin : Point K) (vx vy vz : Vector K)
        (b : Cube K), ofVectors rt base origin vx vy vz = some b →
      (b.m_vx.norm rt = b.m_lx ∧ b.m_vy.norm rt = b.m_ly ∧ b.m_vz.norm rt = b.m_lz) ∧
      (rt.SqrtAt (vx.dot vx) → rt.SqrtAt (vy.dot vy) → rt.SqrtAt (vz.dot vz) →
        0 ≤ b.m_lx ∧ 0 ≤ b.m_ly ∧ 0 ≤ b.m_lz)) := by
  refine ⟨?_, ?_, ?_⟩
  · intro rt base origin lx ly lz ep hx hy hz ho sx sy sz
    obtain ⟨h00, h11, h22, -, -, -⟩ := ho
    refine ⟨⟨rfl, rfl, rfl⟩, ⟨hx, hy, hz⟩, ?_, ?_, ?_⟩
    · simp only [ofEulerParameters, EulerParameters.Rot, Vector.Rot, mul_one, mul_zero,
        add_zero, zero_add]
      exact norm_smul_column rt hx h00 sx
    · simp only [ofEulerParameters, EulerParameters.Rot, Vector.Rot, mul_one, mul_zero,
        add_zero, zero_add]
      exact norm_smul_column rt hy h11 sy
    · simp only [ofEulerParameters, EulerParameters.Rot, Vector.Rot, mul_one, mul_zero,
        add_zero, zero_add]
      exact norm_smul_column rt hz h22 sz
  · intro rt base origin lx ly lz quat hx hy hz ho sx sy sz
    obtain ⟨h00, h11, h22, -, -, -⟩ := ho
    refine ⟨⟨rfl, rfl, rfl⟩, ⟨hx, hy, hz⟩, ?_, ?_, ?_⟩
    · simp only [ofQuaternion, Vector.Rot, mul_one, mul_zero, add_zero, zero_add]
      exact norm_smul_column rt hx h00 sx
    · simp only [ofQuaternion, Vector.Rot, mul_one, mul_zero, add_zero, zero_add]
      exact norm_smul_column rt hy h11 sy
    · simp only [ofQuaternion, Vector.Rot, mul_one, mul_zero, add_zero, zero_add]
      exact norm_smul_column rt hz h22 sz
  · intro rt base origin vx vy vz b hb
    unfold ofVectors at hb
    split at hb
    · exact absurd hb (by simp)
    · simp only [Option.some.injEq] at hb
      subst hb
      exact ⟨⟨rfl, rfl, rfl⟩, fun sx sy sz => ⟨sx.1, sy.1, sz.1⟩⟩

/-- C11, on the quaternion constructor with lengths 2, 3, 4 and the identity
rotation. -/
theorem lengths_are_norms_example :
    (((ofQuaternion sampleRoutines (axisAligned 1 1 1) ⟨0, 0, 0, 0⟩ 2 3 4 (1, 0, 0, 0)).m_lx = 2 ∧
        (ofQuaternion sampleRoutines (axisAligned 1 1 1) ⟨0, 0, 0, 0⟩ 2 3 4 (1, 0, 0, 0)).m_ly = 3 ∧
        (ofQuaternion sampleRoutines (axisAligned 1 1 1) ⟨0, 0, 0, 0⟩ 2 3 4 (1, 0, 0, 0)).m_lz = 4) ∧
      (0 ≤ (ofQuaternion sampleRoutines (axisAligned 1 1 1) ⟨0, 0, 0, 0⟩ 2 3 4 (1, 0, 0, 0)).m_lx ∧
        0 ≤ (ofQuaternion sampleRoutines (axisAligned 1 1 1) ⟨0, 0, 0, 0⟩ 2 3 4 (1, 0, 0, 0)).m_ly ∧
        0 ≤ (ofQuaternion sampleRoutines (axisAligned 1 1 1) ⟨0, 0, 0, 0⟩ 2 3 4 (1, 0, 0, 0)).m_lz) ∧
      ((ofQuaternion sampleRoutines (axisAligned 1 1 1) ⟨0, 0, 0, 0⟩ 2 3 4
            (1, 0, 0, 0)).m_vx.norm sampleRoutines
          = (ofQuaternion sampleRoutines (axisAligned 1 1 1) ⟨0, 0, 0, 0⟩ 2 3 4 (1, 0, 0, 0)).m_lx ∧
        (ofQuaternion sampleRoutines (axisAligned 1 1 1) ⟨0, 0, 0, 0⟩ 2 3 4
            (1, 0, 0, 0)).m_vy.norm sampleRoutines
          = (ofQuaternion sampleRoutines (axisAligned 1 1 1) ⟨0, 0, 0, 0⟩ 2 3 4 (1, 0, 0, 0)).m_ly ∧
        (ofQuaternion sampleRoutines (axisAligned 1 1 1) ⟨0, 0, 0, 0⟩ 2 3 4
            (1, 0, 0, 0)).m_vz.norm sampleRoutines
          = (ofQuaternion sampleRoutines (axisAligned 1 1 1) ⟨0, 0, 0, 0⟩ 2 3 4
            (1, 0, 0, 0)).m_lz)) :=
  (lengths_are_norms (K := ℚ)).2.1 sampleRoutines (axisAligned 1 1 1) ⟨0, 0, 0, 0⟩ 2 3 4
    (1, 0, 0, 0) (by norm_num) (by norm_num) (by norm_num)
    (by norm_num [sampleRoutines, quaternionMatrix, Mat3.Orthonormal])
    (by norm_num [Routines.SqrtAt, sampleRoutines])
    (by norm_num [Routines.SqrtAt, sampleRoutines])
    (by norm_num [Routines.SqrtAt, sampleRoutines])

/-- C11 fails as stated: the quaternion constructor with the identity
rotation (norm-preserving) and `lx = -1` yields a box whose `edgeLengthX` is
negative and is not the norm of `edgeVectorX` (which is 1). -/
theorem negative_length_counterexample :
    (sampleRoutines.dQtoR (1, 0, 0, 0)).Orthonormal ∧
    (ofQuaternion sampleRoutines (axisAligned 1 1 1) ⟨0, 0, 0, 0⟩ (-1) 1 1 (1, 0, 0, 0)).m_lx < 0 ∧
    (ofQuaternion sampleRoutines (axisAligned 1 1 1) ⟨0, 0, 0, 0⟩ (-1) 1 1
        (1, 0, 0, 0)).m_vx.norm sampleRoutines
      ≠ (ofQuaternion sampleRoutines (axisAligned 1 1 1) ⟨0, 0, 0, 0⟩ (-1) 1 1
        (1, 0, 0, 0)).m_lx := by
  refine ⟨by norm_num [sampleRoutines, quaternionMatrix, Mat3.Orthonormal], ?_, ?_⟩
  · norm_num [ofQuaternion]
  · norm_num [ofQuaternion, sampleRoutines, quaternionMatrix, Vector.Rot, Vector.smul_eq,
      Vector.norm, Vector.dot]

/-- C12. `Volume(dx)` is `(lx + dx) * (ly + dx) * (lz + dx)` for every box and
every `dx`; with lengths `(1, 1, 1)` and `dx = 1/10` it is `1331/1000`. -/
theorem Volume_eq_padded_product :
    (∀ (c : Cube K) (dx : K), c.Volume dx = (c.m_lx + dx) * (c.m_ly + dx) * (c.m_lz + dx)) ∧
    (∀ (c : Cube ℚ), c.m_lx = 1 → c.m_ly = 1 → c.m_lz = 1 → c.Volume (1 / 10) = 1331 / 1000) ∧
    (axisAligned (1 : ℚ) 1 1).Volume (1 / 10) = 1331 / 1000 := by
  refine ⟨fun c dx => rfl, ?_, ?_⟩
  · intro c hx hy hz
    simp only [Volume, hx, hy, hz]
    norm_num
  · norm_num [Volume, axisAligned]

/-- C12, on the box of the examples with edges 1, 1, 1 and `dx = 1/10`. -/
theorem Volume_eq_padded_product_example :
    (axisAligned (1 : ℚ) 1 1).Volume (1 / 10) = 1331 / 1000 :=
  (Volume_eq_padded_product (K := ℚ)).2.1 (axisAligned 1 1 1) rfl rfl rfl

/-- C13 (as amended). The local-frame points `IsInside(., dx)` accepts form
the open axis-aligned box from `(-dx, -dx, -dx)` to `(lx + dx, ly + dx,
lz + dx)` (with an orthonormal orientation every point of that box is the
local image of a world point). Its side lengths are `(lx + 2 dx, ly + 2 dx,
lz + 2 dx)`, its volume is `Volume(2 dx)`, and for `dx > 0` and non-negative
edge lengths this is more than `Volume(dx)`. -/
theorem IsInside_region (c : Cube K) (dx : K) :
    (∀ p : Point K, c.IsInside p dx = true ↔
      inOpenBox ⟨-dx, -dx, -dx⟩ ⟨c.m_lx + dx, c.m_ly + dx, c.m_lz + dx⟩ (c.localCoords p)) ∧
    (c.m_ODERot.Orthonormal → ∀ v : Vector K, ∃ p : Point K, c.localCoords p = v) ∧
    ((c.m_lx + dx) - (-dx) = c.m_lx + 2 * dx ∧ (c.m_ly + dx) - (-dx) = c.m_ly + 2 * dx ∧
      (c.m_lz + dx) - (-dx) = c.m_lz + 2 * dx) ∧
    ((c.m_lx + dx) - (-dx)) * ((c.m_ly + dx) - (-dx)) * ((c.m_lz + dx) - (-dx))
      = c.Volume (2 * dx) ∧
    (0 < dx → 0 ≤ c.m_lx → 0 ≤ c.m_ly → 0 ≤ c.m_lz → c.Volume dx < c.Volume (2 * dx)) := by
  refine ⟨fun p => IsInside_iff_inOpenBox c p dx,
    fun h v => ⟨_, localCoords_add_Rot c h v⟩, ⟨by ring, by ring, by ring⟩, ?_, ?_⟩
  · simp only [Volume]
    ring
  · intro hdx hx hy hz
    simp only [Volume]
    have h1 : 0 < c.m_lx + dx := by linarith
    have h2 : 0 < c.m_ly + dx := by linarith
    have h3 : 0 < c.m_lz + dx := by linarith
    have a1 : (c.m_lx + dx) * (c.m_ly + dx) < (c.m_lx + 2 * dx) * (c.m_ly + 2 * dx) :=
      mul_lt_mul (by linarith) (by linarith) h2 (by linarith)
    exact mul_lt_mul a1 (by linarith) h3 (by nlinarith)

/-- C13, on the unit box with `dx = 1/10`. -/
theorem IsInside_region_example :
    (∀ p : Point ℚ, (axisAligned (1 : ℚ) 1 1).IsInside p (1 / 10) = true ↔
      inOpenBox ⟨-(1 / 10), -(1 / 10), -(1 / 10)⟩
        ⟨(axisAligned (1 : ℚ) 1 1).m_lx + 1 / 10, (axisAligned (1 : ℚ) 1 1).m_ly + 1 / 10,
          (axisAligned (1 : ℚ) 1 1).m_lz + 1 / 10⟩ ((axisAligned (1 : ℚ) 1 1).localCoords p)) ∧
    (axisAligned (1 : ℚ) 1 1).Volume (2 * (1 / 10)) = 216 / 125 ∧
    (axisAligned (1 : ℚ) 1 1).Volume (1 / 10) < (axisAligned (1 : ℚ) 1 1).Volume (2 * (1 / 10)) :=
  ⟨(IsInside_region (axisAligned (1 : ℚ) 1 1) (1 / 10)).1,
    by norm_num [Volume, axisAligned],
    (IsInside_region (axisAligned (1 : ℚ) 1 1) (1 / 10)).2.2.2.2 (by norm_num)
      (by norm_num [axisAligned]) (by norm_num [axisAligned]) (by norm_num [axisAligned])⟩

/-- C13 fails as stated: on the unit box with `dx = 1` the points with local
`x` equal to `-9/10` and `19/10` are both accepted, `14/5` apart, more than
`lx + dx = 2`: the accepted region is no axis-aligned box with side lengths
`(lx + dx, ly + dx, lz + dx)`. It is the cube `(-1, 2)³` of volume 27, while
`Volume(1)` is 8. -/
theorem IsInside_region_counterexample :
    (axisAligned (1 : ℚ) 1 1).IsInside ⟨-9 / 10, 1 / 2, 1 / 2, 0⟩ 1 = true ∧
    (axisAligned (1 : ℚ) 1 1).IsInside ⟨19 / 10, 1 / 2, 1 / 2, 0⟩ 1 = true ∧
    ((axisAligned (1 : ℚ) 1 1).localCoords ⟨19 / 10, 1 / 2, 1 / 2, 0⟩).x
      - ((axisAligned (1 : ℚ) 1 1).localCoords ⟨-9 / 10, 1 / 2, 1 / 2, 0⟩).x
      > (axisAligned (1 : ℚ) 1 1).m_lx + 1 ∧
    (¬ ∃ lo : Vector ℚ, ∀ p : Point ℚ, (axisAligned (1 : ℚ) 1 1).IsInside p 1 = true ↔
      inOpenBox lo ⟨lo.x + ((axisAligned (1 : ℚ) 1 1).m_lx + 1),
        lo.y + ((axisAligned (1 : ℚ) 1 1).m_ly + 1), lo.z + ((axisAligned (1 : ℚ) 1 1).m_lz + 1)⟩
        ((axisAligned (1 : ℚ) 1 1).localCoords p)) ∧
    (axisAligned (1 : ℚ) 1 1).Volume 1 = 8 := by
  have h1 : (axisAligned (1 : ℚ) 1 1).IsInside ⟨-9 / 10, 1 / 2, 1 / 2, 0⟩ 1 = true := by
    norm_num [IsInside, axisAligned, Point.sub_eq, Vector.TransposeRot, Mat3.identity]
  have h2 : (axisAligned (1 : ℚ) 1 1).IsInside ⟨19 / 10, 1 / 2, 1 / 2, 0⟩ 1 = true := by
    norm_num [IsInside, axisAligned, Point.sub_eq, Vector.TransposeRot, Mat3.identity]
  refine ⟨h1, h2, ?_, ?_, ?_⟩
  · norm_num [localCoords, axisAligned, Point.sub_eq, Vector.TransposeRot, Mat3.identity]
  · rintro ⟨lo, hlo⟩
    have a1 := ((hlo _).mp h1).1
    have a2 := ((hlo _).mp h2).2.1
    norm_num [localCoords, axisAligned, Point.sub_eq, Vector.TransposeRot, Mat3.identity]
      at a1 a2
    linarith
  · norm_num [Volume, axisAligned]

/-- C14. For every face number `f` in `0..5` the `switch` of the multi-output
boundary fill and the `switch` of the single-face boundary fill select the
same (face origin, spanning vector 1, spanning vector 2), whatever the three
variables held before, and it is entry `f` of the face table of the
specification. The single-face fill passes that entry to the face filler; the
multi-output fill passes the entries of faces `0, 1, ...` in turn, with the
face number. The origin of the table is the box origin as the fill has it
after the write of its fourth component. -/
theorem FillBorder_face_table :
    (∀ (c : Cube K) (r r1 : Point K × Vector K × Vector K) (f : ℤ), 0 ≤ f → f ≤ 5 →
      FillBorderElems.face c f r = FillBorderFace.face c f r1 ∧
      (faceTable c.m_origin c.m_vx c.m_vy c.m_vz)[f.toNat]? = some (FillBorderElems.face c f r) ∧
      (faceTable c.m_origin c.m_vx c.m_vy c.m_vz)[f.toNat]? = some (FillBorderFace.face c f r1)) ∧
    (∀ (R : RectFiller K) (c : Cube K) (points : List (Point K)) (dx : K) (f : ℤ)
        (edges : List Bool) (t : Point K × Vector K × Vector K),
      (faceTable c.setOriginMass.m_origin c.m_vx c.m_vy c.m_vz)[f.toNat]? = some t → 0 ≤ f →
      FillBorderFace R c points dx f edges = (c.setOriginMass, R.Fill t.1 t.2.1 t.2.2 points dx edges)) ∧
    (∀ (R : RectFiller K) (c : Cube K) (bpoints belems vpoints : List (Point K))
        (vindexes : List uint4) (dx : K) (fill_top_face : Bool),
      ∃ st : BorderState K,
        st = ((faceTable c.setOriginMass.m_origin c.m_vx c.m_vy c.m_vz).take
              (if fill_top_face then 6 else 5)).enum.foldl
            (fun st ft => R.FillElems ft.2.1 ft.2.2.1 ft.2.2.2 st dx (ft.1 : ℤ))
            ⟨bpoints, belems, vpoints, vindexes, List.replicate 6 (List.replicate 4 [])⟩ ∧
        FillBorderElems R c bpoints belems vpoints vindexes dx fill_top_face
          = (c.setOriginMass, st.bpoints, st.belems, st.vpoints, st.vindexes)) := by
  refine ⟨?_, ?_, ?_⟩
  · intro c r r1 f h0 h5
    obtain ⟨a1, -⟩ := face_switch_table c r f h0 h5
    obtain ⟨-, a2⟩ := face_switch_table c r1 f h0 h5
    refine ⟨?_, a1, a2⟩
    rw [a1] at a2
    exact Option.some.inj a2
  · intro R c points dx f edges t ht h0
    have h5 : f ≤ 5 := by
      by_contra hn
      have h6 : 6 ≤ f.toNat := by omega
      rw [List.getElem?_eq_none (by simpa [faceTable] using h6)] at ht
      exact absurd ht (by simp)
    obtain ⟨-, a2⟩ := face_switch_table c.setOriginMass
      (⟨0, 0, 0, 0⟩, ⟨0, 0, 0⟩, ⟨0, 0, 0⟩) f h0 h5
    have a3 : (faceTable c.setOriginMass.m_origin c.m_vx c.m_vy c.m_vz)[f.toNat]?
        = some (FillBorderFace.face c.setOriginMass f (⟨0, 0, 0, 0⟩, ⟨0, 0, 0⟩, ⟨0, 0, 0⟩)) := a2
    rw [ht] at a3
    rw [FillBorderFace_eq, ← Option.some.inj a3]
  · intro R c bpoints belems vpoints vindexes dx fill_top_face
    refine ⟨_, rfl, ?_⟩
    cases fill_top_face
    · simp only [FillBorderElems, Bool.not_false, if_true, loopLT_zero_five]
      rfl
    · simp only [FillBorderElems, Bool.not_true, Bool.false_eq_true, if_false, loopLT_zero_six]
      rfl

/-- C14, on the box with edges 1, 2, 3 along the axes: face 2 is
`(origin + edgeX + edgeY, -edgeX, edgeZ)`. -/
theorem FillBorder_face_table_example :
    FillBorderElems.face (axisAligned (1 : ℚ) 2 3) 2 (⟨0, 0, 0, 0⟩, ⟨0, 0, 0⟩, ⟨0, 0, 0⟩)
      = FillBorderFace.face (axisAligned (1 : ℚ) 2 3) 2 (⟨7, 7, 7, 7⟩, ⟨7, 7, 7⟩, ⟨7, 7, 7⟩) ∧
    FillBorderFace.face (axisAligned (1 : ℚ) 2 3) 2 (⟨7, 7, 7, 7⟩, ⟨7, 7, 7⟩, ⟨7, 7, 7⟩)
      = (⟨1, 2, 0, 0⟩, ⟨-1, 0, 0⟩, ⟨0, 0, 3⟩) := by
  obtain ⟨a1, -, a3⟩ := (FillBorder_face_table (K := ℚ)).1 (axisAligned (1 : ℚ) 2 3)
    (⟨0, 0, 0, 0⟩, ⟨0, 0, 0⟩, ⟨0, 0, 0⟩) (⟨7, 7, 7, 7⟩, ⟨7, 7, 7⟩, ⟨7, 7, 7⟩) 2
    (by norm_num) (by norm_num)
  refine ⟨a1, ?_⟩
  have a4 : (faceTable (axisAligned (1 : ℚ) 2 3).m_origin (axisAligned (1 : ℚ) 2 3).m_vx
      (axisAligned (1 : ℚ) 2 3).m_vy (axisAligned (1 : ℚ) 2 3).m_vz)[(2 : ℤ).toNat]?
      = some (⟨1, 2, 0, 0⟩, ⟨-1, 0, 0⟩, ⟨0, 0, 3⟩) := by
    norm_num [faceTable, axisAligned, Point.add_vec_eq, Vector.neg_eq,
      show (2 : ℤ).toNat = 2 from rfl]
  rw [a4] at a3
  exact (Option.some.inj a3).symm

/-- C15. The single-output boundary fill calls the single-face fill for the
faces `0, 1, 2, 3, 4, 5` in this order when `fill_top_face` is true, and for
`0, 1, 2, 3, 4` when it is false, each once, each call working on what the
previous one left; faces 0 and 2 are passed all four edges, faces 1 and 3 the
edges 0 and 2, faces 4 and 5 no edge. -/
theorem FillBorder_call_order (R : RectFiller K) (c : Cube K) (points : List (Point K))
    (dx : K) :
    FillBorder R c points dx true
      = ([(0, [true, true, true, true]), (1, [true, false, true, false]),
          (2, [true, true, true, true]), (3, [true, false, true, false]),
          (4, [false, false, false, false]), (5, [false, false, false, false])] :
          List (ℤ × List Bool)).foldl
        (fun st call => FillBorderFace R st.1 st.2 dx call.1 call.2) (c.setOriginMass, points) ∧
    FillBorder R c points dx false
      = ([(0, [true, true, true, true]), (1, [true, false, true, false]),
          (2, [true, true, true, true]), (3, [true, false, true, false]),
          (4, [false, false, false, false])] : List (ℤ × List Bool)).foldl
        (fun st call => FillBorderFace R st.1 st.2 dx call.1 call.2) (c.setOriginMass, points) :=
  FillBorder_eq_calls R c points dx

/-- C15, observed with the probing face filler on the box with edges 1, 2, 3:
the face origins in the order of the calls, each with the number of edges
passed. -/
theorem FillBorder_call_order_example :
    (FillBorder probeFiller (axisAligned 1 2 3) [] 1 true).2
      = [⟨0, 0, 0, 4⟩, ⟨1, 0, 0, 2⟩, ⟨1, 2, 0, 4⟩, ⟨0, 2, 0, 2⟩, ⟨0, 0, 0, 0⟩, ⟨0, 0, 3, 0⟩] ∧
    (FillBorder probeFiller (axisAligned 1 2 3) [] 1 false).2
      = [⟨0, 0, 0, 4⟩, ⟨1, 0, 0, 2⟩, ⟨1, 2, 0, 4⟩, ⟨0, 2, 0, 2⟩, ⟨0, 0, 0, 0⟩] := by
  obtain ⟨h1, h2⟩ := FillBorder_call_order probeFiller (axisAligned 1 2 3) [] 1
  rw [h1, h2]
  norm_num [FillBorderFace, FillBorderFace.face, probeFiller, setOriginMass, axisAligned,
    Point.add_vec_eq, Vector.neg_eq]

end Cube

namespace StillWater

variable {F4 HK PI : Type}

/-- C16. With the SA boundary type, as many connectivity triples and boundary
elements as boundary particles, and indices that fit a `uint` once shifted,
`copy_to_array` returns, and every connectivity triple has its `x`, `y` and
`z` increased by `offset = parts.size() + boundary_parts.size()` and its
fourth component unchanged, in `vertex_indexes` and in the `vertices` array.
The particle arrays hold the boundary particles at the indices `[0, nb)`, the
fluid particles at `[nb, nb + nf)` and the vertex particles at `[nb + nf,
nb + nf + nv)`: vertex particle `n` is at index `n + offset`. -/
theorem copy_to_array_offset (P : ProblemRoutines K F4 HK PI) (sw : StillWater K)
    (buffers : BufferList F4 HK PI)
    (hsa : sw.boundarytype = BoundaryType.SA_BOUNDARY)
    (hvi : sw.vertex_indexes.length = sw.boundary_parts.length)
    (hbe : sw.boundary_elems.length = sw.boundary_parts.length)
    (hfit : sw.parts.length + sw.boundary_parts.length < 2 ^ 32)
    (hidx : ∀ v ∈ sw.vertex_indexes,
      v.x + (sw.parts.length + sw.boundary_parts.length) < 2 ^ 32 ∧
      v.y + (sw.parts.length + sw.boundary_parts.length) < 2 ^ 32 ∧
      v.z + (sw.parts.length + sw.boundary_parts.length) < 2 ^ 32) :
    ∃ b : BufferList F4 HK PI,
      copy_to_array P sw buffers
        = some ({ sw with vertex_indexes := sw.vertex_indexes.map (fun v =>
            ⟨v.x + (sw.parts.length + sw.boundary_parts.length),
             v.y + (sw.parts.length + sw.boundary_parts.length),
             v.z + (sw.parts.length + sw.boundary_parts.length), v.w⟩) }, b) ∧
      (∀ i (hi : i < sw.vertex_indexes.length),
        b.vertices i = ⟨sw.vertex_indexes[i].x + (sw.parts.length + sw.boundary_parts.length),
          sw.vertex_indexes[i].y + (sw.parts.length + sw.boundary_parts.length),
          sw.vertex_indexes[i].z + (sw.parts.length + sw.boundary_parts.length),
          sw.vertex_indexes[i].w⟩) ∧
      (∀ k, k < sw.boundary_parts.length →
        b.info k = P.make_particleinfo P.BOUNDPART 0 k) ∧
      (∀ k, sw.boundary_parts.length ≤ k →
        k < sw.boundary_parts.length + sw.parts.length →
        b.info k = P.make_particleinfo P.FLUIDPART 0 k) ∧
      (∀ k, sw.parts.length + sw.boundary_parts.length ≤ k →
        k < sw.parts.length + sw.boundary_parts.length + sw.vertex_parts.length →
        b.info k = P.make_particleinfo P.VERTEXPART 0 k) ∧
      (∀ n (hn : n < sw.vertex_parts.length),
        b.pos (n + (sw.parts.length + sw.boundary_parts.length))
          = (P.calc_localpos_and_hash sw.vertex_parts[n]
              (P.make_particleinfo P.VERTEXPART 0
                (n + (sw.parts.length + sw.boundary_parts.length)))).1) := by
  obtain ⟨b1, hb1⟩ : ∃ b1, b1 = (loopUint 0 sw.boundary_parts.length).foldl (fun b i =>
      writeParticle P P.BOUNDPART (P.make_float4 0 0 0 sw.rho0)
        (sw.boundary_parts.getD i ⟨0, 0, 0, 0⟩) i b) buffers := ⟨_, rfl⟩
  obtain ⟨b2, hb2⟩ : ∃ b2, b2 = (loopUint sw.boundary_parts.length
      (sw.boundary_parts.length + sw.parts.length)).foldl (fun b i =>
      writeParticle P P.FLUIDPART
        (P.make_float4 0 0 0
          (P.density (sw.H - (sw.parts.getD (i - sw.boundary_parts.length) ⟨0, 0, 0, 0⟩).z) 0))
        (sw.parts.getD (i - sw.boundary_parts.length) ⟨0, 0, 0, 0⟩) i b) b1 := ⟨_, rfl⟩
  obtain ⟨b3, hb3⟩ : ∃ b3, b3 = (loopUint (sw.parts.length + sw.boundary_parts.length)
      (sw.parts.length + sw.boundary_parts.length + sw.vertex_parts.length)).foldl (fun b i =>
      writeParticle P P.VERTEXPART
        (P.make_float4 0 0 0
          (P.density (sw.H - (sw.vertex_parts.getD
            (i - (sw.parts.length + sw.boundary_parts.length)) ⟨0, 0, 0, 0⟩).z) 0))
        (sw.vertex_parts.getD (i - (sw.parts.length + sw.boundary_parts.length)) ⟨0, 0, 0, 0⟩)
        i b) b2 := ⟨_, rfl⟩
  obtain ⟨st, hst⟩ : ∃ st, st = (loopUint 0 sw.boundary_parts.length).foldl
      (fun (st : List uint4 × BufferList F4 HK PI) i =>
        ((st.1.set i (addOffset (st.1.getD i ⟨0, 0, 0, 0⟩)
            ((sw.parts.length + sw.boundary_parts.length) % 2 ^ 32))),
          { st.2 with
            vertices := Function.update st.2.vertices i
              ((st.1.set i (addOffset (st.1.getD i ⟨0, 0, 0, 0⟩)
                ((sw.parts.length + sw.boundary_parts.length) % 2 ^ 32))).getD i ⟨0, 0, 0, 0⟩)
            boundelm := Function.update st.2.boundelm i
              (P.make_float4_of_point (sw.boundary_elems.getD i ⟨0, 0, 0, 0⟩)) }))
      (sw.vertex_indexes, b3) := ⟨_, rfl⟩
  have hres : copy_to_array P sw buffers = some ({ sw with vertex_indexes := st.1 }, st.2) := by
    rw [hst, hb3, hb2, hb1]
    unfold copy_to_array
    rw [if_pos hsa, if_neg (not_not.mpr hvi), if_neg (not_not.mpr hbe)]
  -- what the loops leave in the arrays
  obtain ⟨i1, -, -⟩ := particle_loop P P.BOUNDPART (fun _ => P.make_float4 0 0 0 sw.rho0)
    sw.boundary_parts 0 sw.boundary_parts.length buffers
  simp only [Nat.zero_add, Nat.sub_zero, Nat.zero_le, true_and] at i1
  rw [← hb1] at i1
  obtain ⟨i2, -, -⟩ := particle_loop P P.FLUIDPART
    (fun p => P.make_float4 0 0 0 (P.density (sw.H - p.z) 0))
    sw.parts sw.boundary_parts.length sw.parts.length b1
  rw [← hb2] at i2
  obtain ⟨i3, p3, -⟩ := particle_loop P P.VERTEXPART
    (fun p => P.make_float4 0 0 0 (P.density (sw.H - p.z) 0))
    sw.vertex_parts (sw.parts.length + sw.boundary_parts.length) sw.vertex_parts.length b2
  rw [← hb3] at i3 p3
  obtain ⟨w1, w2, w3, w4⟩ := vertex_loop P.make_float4_of_point sw.boundary_elems ⟨0, 0, 0, 0⟩
    ((sw.parts.length + sw.boundary_parts.length) % 2 ^ 32) sw.vertex_indexes b3
    sw.boundary_parts.length hvi.ge
  rw [← loopUint_zero, ← hst] at w1 w2 w3 w4
  have hadd : ∀ v ∈ sw.vertex_indexes,
      addOffset v ((sw.parts.length + sw.boundary_parts.length) % 2 ^ 32)
        = ⟨v.x + (sw.parts.length + sw.boundary_parts.length),
           v.y + (sw.parts.length + sw.boundary_parts.length),
           v.z + (sw.parts.length + sw.boundary_parts.length), v.w⟩ := fun v hv =>
    addOffset_eq hfit (hidx v hv).1 (hidx v hv).2.1 (hidx v hv).2.2
  have hlist : st.1 = sw.vertex_indexes.map (fun v =>
      ⟨v.x + (sw.parts.length + sw.boundary_parts.length),
       v.y + (sw.parts.length + sw.boundary_parts.length),
       v.z + (sw.parts.length + sw.boundary_parts.length), v.w⟩) := by
    apply List.ext_getElem?
    intro k
    rw [w1 k, List.getElem?_map]
    by_cases hk : k < sw.boundary_parts.length
    · rw [if_pos hk, List.getElem?_eq_getElem (by omega)]
      simp only [Option.map_some']
      rw [hadd _ (List.getElem_mem _)]
    · rw [if_neg hk, List.getElem?_eq_none (by omega)]
      rfl
  refine ⟨st.2, ?_, ?_, ?_, ?_, ?_, ?_⟩
  · rw [hres, hlist]
  · intro i hi
    rw [w2 i (by omega), List.getD_eq_getElem?_getD, List.getElem?_eq_getElem hi]
    exact hadd _ (List.getElem_mem _)
  · intro k hk
    rw [w3, i3, if_neg (by omega), i2, if_neg (by omega), i1, if_pos hk]
  · intro k hk1 hk2
    rw [w3, i3, if_neg (by omega), i2, if_pos ⟨hk1, hk2⟩]
  · intro k hk1 hk2
    rw [w3, i3, if_pos ⟨hk1, hk2⟩]
  · intro n hn
    rw [w4, p3, if_pos (by omega), Nat.add_sub_cancel, List.getD_eq_getElem?_getD,
      List.getElem?_eq_getElem hn]
    rfl

/-- C16, on two boundary particles, one fluid particle and two vertex
particles: the offset is 3, the vertex block starts at index 3. -/
theorem copy_to_array_offset_example :
    ∃ b : BufferList (ℚ × ℚ × ℚ × ℚ) ℕ (ℕ × ℕ × ℕ),
      copy_to_array sampleProblem sampleWater sampleBuffers
        = some ({ sampleWater with vertex_indexes := [⟨3, 4, 4, 9⟩, ⟨4, 3, 3, 7⟩] }, b) ∧
      b.vertices 0 = ⟨3, 4, 4, 9⟩ ∧ b.vertices 1 = ⟨4, 3, 3, 7⟩ ∧
      b.info 1 = (1, 0, 1) ∧ b.info 2 = (0, 0, 2) ∧ b.info 3 = (2, 0, 3) ∧
      b.pos 3 = (0, 0, 0, 0) ∧ b.pos 4 = (2, 0, 0, 0) := by
  obtain ⟨b, h1, h2, h3, h4, h5, h6⟩ :=
    copy_to_array_offset sampleProblem sampleWater sampleBuffers rfl rfl rfl (by decide)
      (by decide)
  exact ⟨b, h1, h2 0 (by decide), h2 1 (by decide), h3 1 (by decide),
    h4 2 (by decide) (by decide), h5 3 (by decide) (by decide),
    h6 0 (by decide), h6 1 (by decide)⟩

end StillWater

namespace Cube

/-- C17. For edge vectors `(a,0,0)`, `(0,b,0)`, `(0,0,c)` with `a, b, c > 0`,
library routines exact at the values the constructor passes them and
`acos(1) = 0`: the normalised matrix is the identity, the angle is 0, the
axis is `(1,0,0)`, and the orientation stored, `dRFromAxisAndAngle` of that
axis and angle, is the identity: it maps each canonical axis to itself. -/
theorem ofVectors_axis_aligned (rt : Routines K) (base : Cube K) (origin : Point K)
    (a b c : K) (ha : 0 < a) (hb : 0 < b) (hc : 0 < c)
    (hrt : RoutinesExactAt rt ⟨a, 0, 0⟩ ⟨0, b, 0⟩ ⟨0, 0, c⟩) (hacos : rt.acos 1 = 0) :
    edgeMatrix (⟨a, 0, 0⟩ : Vector K) ⟨0, b, 0⟩ ⟨0, 0, c⟩
        (Vector.norm rt ⟨a, 0, 0⟩) (Vector.norm rt ⟨0, b, 0⟩) (Vector.norm rt ⟨0, 0, c⟩)
      = Mat3.identity ∧
    rt.acos (1 / 2 * ((Mat3.identity : Mat3 K).m00 + (Mat3.identity : Mat3 K).m11
      + (Mat3.identity : Mat3 K).m22 - 1)) = 0 ∧
    rotationAxis rt Mat3.identity 0 = ⟨1, 0, 0⟩ ∧
    ∃ box : Cube K, ofVectors rt base origin ⟨a, 0, 0⟩ ⟨0, b, 0⟩ ⟨0, 0, c⟩ = some box ∧
      box.m_ODERot = rt.dRFromAxisAndAngle 1 0 0 0 ∧
      box.m_ODERot = Mat3.identity ∧
      (⟨1, 0, 0⟩ : Vector K).Rot box.m_ODERot = ⟨1, 0, 0⟩ ∧
      (⟨0, 1, 0⟩ : Vector K).Rot box.m_ODERot = ⟨0, 1, 0⟩ ∧
      (⟨0, 0, 1⟩ : Vector K).Rot box.m_ODERot = ⟨0, 0, 1⟩ := by
  have hrt2 := hrt
  simp only [RoutinesExactAt] at hrt2
  obtain ⟨-, hsx, hsy, hsz, -, -, -⟩ := hrt2
  have nx : Vector.norm rt ⟨a, 0, 0⟩ = a :=
    sqrt_mul_self_eq rt ha.le (by simp [Vector.dot]) hsx
  have ny : Vector.norm rt ⟨0, b, 0⟩ = b :=
    sqrt_mul_self_eq rt hb.le (by simp [Vector.dot]) hsy
  have nz : Vector.norm rt ⟨0, 0, c⟩ = c :=
    sqrt_mul_self_eq rt hc.le (by simp [Vector.dot]) hsz
  have hmat : edgeMatrix (⟨a, 0, 0⟩ : Vector K) ⟨0, b, 0⟩ ⟨0, 0, c⟩
      (Vector.norm rt ⟨a, 0, 0⟩) (Vector.norm rt ⟨0, b, 0⟩) (Vector.norm rt ⟨0, 0, c⟩)
      = Mat3.identity := by
    rw [nx, ny, nz]
    simp only [edgeMatrix, Mat3.identity, zero_div, div_self ha.ne', div_self hb.ne',
      div_self hc.ne']
  have hcs : (1 / 2 : K) * ((Mat3.identity : Mat3 K).m00 + (Mat3.identity : Mat3 K).m11
      + (Mat3.identity : Mat3 K).m22 - 1) = 1 := by
    simp only [Mat3.identity]
    norm_num
  have hang : rt.acos (1 / 2 * ((Mat3.identity : Mat3 K).m00 + (Mat3.identity : Mat3 K).m11
      + (Mat3.identity : Mat3 K).m22 - 1)) = 0 := by rw [hcs, hacos]
  have hax : rotationAxis rt (Mat3.identity : Mat3 K) 0 = ⟨1, 0, 0⟩ := by
    simp only [rotationAxis, gt_iff_lt, lt_irrefl, if_false]
  obtain ⟨-, -, box, hbox, -, -, -, -, -, -, eR⟩ :=
    ofVectors_orientation rt base origin ⟨a, 0, 0⟩ ⟨0, b, 0⟩ ⟨0, 0, c⟩
      (by simp [Vector.dot]) (by simp [Vector.dot]) (by simp [Vector.dot])
      (by simp [ha.ne']) (by simp [hb.ne']) (by simp [hc.ne'])
      (by simp only [Vector.triple]; ring_nf; positivity) hrt
  rw [hmat] at eR
  refine ⟨hmat, hang, hax, box, hbox, ?_, eR, ?_, ?_, ?_⟩
  · have h2 := hbox
    unfold ofVectors at h2
    split at h2
    · exact absurd h2 (by simp)
    · simp only [Option.some.injEq] at h2
      rw [← h2]
      simp only [hmat, hang, hax]
  · rw [eR]; simp [Vector.Rot, Mat3.identity]
  · rw [eR]; simp [Vector.Rot, Mat3.identity]
  · rw [eR]; simp [Vector.Rot, Mat3.identity]

/-- C17, on edges 2, 3, 1 along the axes. -/
theorem ofVectors_axis_aligned_example :
    rotationAxis sampleRoutines (Mat3.identity : Mat3 ℚ) 0 = ⟨1, 0, 0⟩ ∧
    ∃ box : Cube ℚ, ofVectors sampleRoutines (axisAligned 1 1 1) ⟨0, 0, 0, 0⟩
        ⟨2, 0, 0⟩ ⟨0, 3, 0⟩ ⟨0, 0, 1⟩ = some box ∧
      box.m_ODERot = Mat3.identity := by
  obtain ⟨-, -, h3, box, h4, -, h5, -⟩ :=
    ofVectors_axis_aligned sampleRoutines (axisAligned 1 1 1) ⟨0, 0, 0, 0⟩ 2 3 1
      (by norm_num) (by norm_num) (by norm_num) sampleRoutines_exact_axis_aligned
      (by norm_num [sampleRoutines])
  exact ⟨h3, box, h4, h5⟩

/-- C18. For a right-handed triple of non-zero, mutually perpendicular edge
vectors whose normalised matrix `R` has trace `-1`, and library routines
exact at the values the constructor passes them: the branch of angle `π` is
taken, `R` is symmetric, the square root it takes is of `2 (1 + d) ≥ 4/3` for
the largest diagonal term `d`, so that the component it divides by is
positive; the axis `a` it computes is a unit vector, `R = 2 a aᵀ - 1`, the
rotation by `π` about `a` is `R`, maps each canonical axis to the unit
direction of the corresponding edge vector, and is the orientation stored.
For the pattern `(-x, -y, z)` the axis is `(0, 0, 1)`. -/
theorem ofVectors_half_turn :
    (∀ (rt : Routines K) (base : Cube K) (origin : Point K) (vx vy vz : Vector K)
        (R : Mat3 K) (angle : K) (a : Vector K),
      vx.dot vy = 0 → vx.dot vz = 0 → vy.dot vz = 0 →
      vx ≠ ⟨0, 0, 0⟩ → vy ≠ ⟨0, 0, 0⟩ → vz ≠ ⟨0, 0, 0⟩ →
      0 < Vector.triple vx vy vz → RoutinesExactAt rt vx vy vz →
      R = edgeMatrix vx vy vz (vx.norm rt) (vy.norm rt) (vz.norm rt) →
      angle = rt.acos (1 / 2 * (R.m00 + R.m11 + R.m22 - 1)) →
      a = rotationAxis rt R angle →
      R.trace = -1 →
      (0 < angle ∧ ¬ angle < rt.pi) ∧
      (R.m21 = R.m12 ∧ R.m02 = R.m20 ∧ R.m10 = R.m01) ∧
      (∃ x, rotationAxisRoot rt R angle = some x ∧
        (x = 1 + R.m00 - R.m11 - R.m22 ∨ x = 1 + R.m11 - R.m00 - R.m22 ∨
          x = 1 + R.m22 - R.m00 - R.m11) ∧
        4 / 3 ≤ x ∧ 0 < 1 / 2 * rt.sqrt x) ∧
      a.dot a = 1 ∧
      R = ⟨2 * a.x * a.x - 1, 2 * a.x * a.y, 2 * a.x * a.z,
           2 * a.y * a.x, 2 * a.y * a.y - 1, 2 * a.y * a.z,
           2 * a.z * a.x, 2 * a.z * a.y, 2 * a.z * a.z - 1⟩ ∧
      axisAngleMatrix a (-1) 0 = R ∧
      ((⟨1, 0, 0⟩ : Vector K).Rot (axisAngleMatrix a (-1) 0) = vx / vx.norm rt ∧
        (⟨0, 1, 0⟩ : Vector K).Rot (axisAngleMatrix a (-1) 0) = vy / vy.norm rt ∧
        (⟨0, 0, 1⟩ : Vector K).Rot (axisAngleMatrix a (-1) 0) = vz / vz.norm rt) ∧
      ∃ box : Cube K, ofVectors rt base origin vx vy vz = some box ∧
        box.m_ODERot = axisAngleMatrix a (-1) 0) ∧
    (∀ (rt : Routines K) (p q r : K), 0 < p → 0 < q → 0 < r →
      RoutinesExactAt rt ⟨-p, 0, 0⟩ ⟨0, -q, 0⟩ ⟨0, 0, r⟩ →
      edgeMatrix (⟨-p, 0, 0⟩ : Vector K) ⟨0, -q, 0⟩ ⟨0, 0, r⟩ (Vector.norm rt ⟨-p, 0, 0⟩)
          (Vector.norm rt ⟨0, -q, 0⟩) (Vector.norm rt ⟨0, 0, r⟩)
        = ⟨-1, 0, 0, 0, -1, 0, 0, 0, 1⟩ ∧
      rotationAxis rt ⟨-1, 0, 0, 0, -1, 0, 0, 0, 1⟩
          (rt.acos (1 / 2 * ((-1 : K) + -1 + 1 - 1))) = ⟨0, 0, 1⟩) := by
  constructor
  · intro rt base origin vx vy vz R angle a hxy hxz hyz hx hy hz hrh hrt hR hangle ha ht
    obtain ⟨-, hm, box, hbox, -, -, -, -, -, -, eR⟩ :=
      ofVectors_orientation rt base origin vx vy vz hxy hxz hyz hx hy hz hrh hrt
    simp only [RoutinesExactAt] at hrt
    obtain ⟨-, -, -, -, hroot, ⟨hpos, hlt⟩, -⟩ := hrt
    rw [← hR] at hm hroot hpos hlt eR
    rw [← hangle] at hroot hpos hlt
    have hcs : (1 / 2 : K) * (R.m00 + R.m11 + R.m22 - 1) = -1 := by
      simp only [Mat3.trace] at ht
      linarith
    rw [hcs] at hpos hlt
    have h0 : 0 < angle := hpos.mpr (by norm_num)
    have hpi : ¬ angle < rt.pi := fun h => absurd (hlt.mp h) (lt_irrefl _)
    obtain ⟨x, hx1, hx2, hx3⟩ := rotationAxisRoot_half_turn rt ht h0 hpi
    have hsx := hroot x hx1
    obtain ⟨hunit, hmat⟩ := rotationAxis_spec rt hm (-1) angle
      (by simp only [Mat3.trace] at ht ⊢; linarith) hpos hlt hroot
    have hmat0 := hmat 0 le_rfl (by norm_num)
    rw [← ha] at hunit hmat0
    have hcols : (⟨1, 0, 0⟩ : Vector K).Rot R = vx / vx.norm rt ∧
        (⟨0, 1, 0⟩ : Vector K).Rot R = vy / vy.norm rt ∧
        (⟨0, 0, 1⟩ : Vector K).Rot R = vz / vz.norm rt := by
      rw [hR]
      simp only [Vector.Rot, edgeMatrix, Vector.sdiv_eq, mul_one, mul_zero, add_zero, zero_add,
        and_self]
    refine ⟨⟨h0, hpi⟩, hm.symm_of_trace ht, ⟨x, hx1, hx2, hx3, ?_⟩, hunit, ?_, hmat0, ?_,
      box, hbox, ?_⟩
    · have := hsx.pos (by linarith)
      linarith
    · rw [← hmat0]
      apply Mat3.ext_entries <;> simp only [axisAngleMatrix] <;> ring
    · rw [hmat0]
      exact hcols
    · rw [eR, hmat0]
  · intro rt p q r hp hq hr hrt
    simp only [RoutinesExactAt] at hrt
    obtain ⟨-, hsx, hsy, hsz, hroot, ⟨hpos, hlt⟩, -⟩ := hrt
    have nx : Vector.norm rt ⟨-p, 0, 0⟩ = p :=
      sqrt_mul_self_eq rt hp.le (by simp [Vector.dot]) hsx
    have ny : Vector.norm rt ⟨0, -q, 0⟩ = q :=
      sqrt_mul_self_eq rt hq.le (by simp [Vector.dot]) hsy
    have nz : Vector.norm rt ⟨0, 0, r⟩ = r :=
      sqrt_mul_self_eq rt hr.le (by simp [Vector.dot]) hsz
    have hmat : edgeMatrix (⟨-p, 0, 0⟩ : Vector K) ⟨0, -q, 0⟩ ⟨0, 0, r⟩
        (Vector.norm rt ⟨-p, 0, 0⟩) (Vector.norm rt ⟨0, -q, 0⟩) (Vector.norm rt ⟨0, 0, r⟩)
        = ⟨-1, 0, 0, 0, -1, 0, 0, 0, 1⟩ := by
      rw [nx, ny, nz]
      simp only [edgeMatrix, zero_div, neg_div, div_self hp.ne', div_self hq.ne',
        div_self hr.ne']
    rw [hmat] at hroot hpos hlt
    simp only [] at hroot hpos hlt
    have h0 : 0 < rt.acos (1 / 2 * ((-1 : K) + -1 + 1 - 1)) := hpos.mpr (by norm_num)
    have hpi : ¬ rt.acos (1 / 2 * ((-1 : K) + -1 + 1 - 1)) < rt.pi := fun h =>
      absurd (hlt.mp h) (by norm_num)
    have hs4 := hroot (1 + 1 - -1 - -1) (by
      simp only [rotationAxisRoot, gt_iff_lt, if_pos h0, if_neg hpi]
      norm_num)
    have e4 : rt.sqrt (1 + 1 - -1 - -1) = 2 := sqrt_mul_self_eq rt (by norm_num) (by norm_num) hs4
    have e5 : rt.sqrt 4 = 2 := by
      have h4 : (4 : K) = 1 + 1 - -1 - -1 := by norm_num
      rw [h4]
      exact e4
    refine ⟨hmat, ?_⟩
    simp only [rotationAxis, gt_iff_lt, if_pos h0, if_neg hpi]
    norm_num [e5]

/-- C18, on the half turn about `z` with edge lengths 2, 3 and 1. -/
theorem ofVectors_half_turn_example :
    rotationAxis sampleRoutines (⟨-1, 0, 0, 0, -1, 0, 0, 0, 1⟩ : Mat3 ℚ)
        (sampleRoutines.acos (1 / 2 * ((-1 : ℚ) + -1 + 1 - 1))) = ⟨0, 0, 1⟩ ∧
    ∃ box : Cube ℚ, ofVectors sampleRoutines (axisAligned 1 1 1) ⟨0, 0, 0, 0⟩
        ⟨-2, 0, 0⟩ ⟨0, -3, 0⟩ ⟨0, 0, 1⟩ = some box ∧
      box.m_ODERot = axisAngleMatrix ⟨0, 0, 1⟩ (-1) 0 := by
  obtain ⟨hm, hax⟩ := (ofVectors_half_turn (K := ℚ)).2 sampleRoutines 2 3 1
    (by norm_num) (by norm_num) (by norm_num) sampleRoutines_exact_half_turn
  obtain ⟨-, -, -, -, -, -, -, box, hbox, hrot⟩ :=
    (ofVectors_half_turn (K := ℚ)).1 sampleRoutines (axisAligned 1 1 1) ⟨0, 0, 0, 0⟩
      ⟨-2, 0, 0⟩ ⟨0, -3, 0⟩ ⟨0, 0, 1⟩ ⟨-1, 0, 0, 0, -1, 0, 0, 0, 1⟩
      (sampleRoutines.acos (1 / 2 * ((-1 : ℚ) + -1 + 1 - 1))) ⟨0, 0, 1⟩
      (by norm_num [Vector.dot]) (by norm_num [Vector.dot]) (by norm_num [Vector.dot])
      (by simp) (by simp) (by simp) (by norm_num [Vector.triple])
      sampleRoutines_exact_half_turn hm.symm rfl hax.symm (by norm_num [Mat3.trace])
  exact ⟨hax, box, hbox, hrot⟩

/-- C19. For a right-handed triple of non-zero, mutually perpendicular edge
vectors, library routines exact at the values the constructor passes them,
and a derived angle strictly between 0 and `M_PI`: the vector
`n = (R21-R12, R02-R20, R10-R01)` of the normalised matrix `R` has squared
norm `4 - (trace - 1)²`, which is positive, its norm is positive, so the
normalisation does not divide by zero, and the axis passed on to
`dRFromAxisAndAngle` is `n` divided by its norm, a unit vector. -/
theorem ofVectors_generic_axis (rt : Routines K) (base : Cube K) (origin : Point K)
    (vx vy vz : Vector K)
    (hxy : vx.dot vy = 0) (hxz : vx.dot vz = 0) (hyz : vy.dot vz = 0)
    (hx : vx ≠ ⟨0, 0, 0⟩) (hy : vy ≠ ⟨0, 0, 0⟩) (hz : vz ≠ ⟨0, 0, 0⟩)
    (hrh : 0 < Vector.triple vx vy vz) (hrt : RoutinesExactAt rt vx vy vz)
    (R : Mat3 K) (angle : K) (n : Vector K)
    (hR : R = edgeMatrix vx vy vz (vx.norm rt) (vy.norm rt) (vz.norm rt))
    (hangle : angle = rt.acos (1 / 2 * (R.m00 + R.m11 + R.m22 - 1)))
    (hn : n = ⟨R.m21 - R.m12, R.m02 - R.m20, R.m10 - R.m01⟩)
    (h0 : 0 < angle) (hpi : angle < rt.pi) :
    n.dot n = 4 - (R.trace - 1) * (R.trace - 1) ∧
    0 < n.dot n ∧
    (0 < n.norm rt ∧ n.norm rt * n.norm rt = n.dot n) ∧
    rotationAxis rt R angle = n / n.norm rt ∧
    (rotationAxis rt R angle).dot (rotationAxis rt R angle) = 1 ∧
    ∃ box : Cube K, ofVectors rt base origin vx vy vz = some box ∧
      box.m_ODERot
        = rt.dRFromAxisAndAngle (n / n.norm rt).x (n / n.norm rt).y (n / n.norm rt).z angle := by
  obtain ⟨-, hm, box, hbox, -⟩ :=
    ofVectors_orientation rt base origin vx vy vz hxy hxz hyz hx hy hz hrh hrt
  simp only [RoutinesExactAt] at hrt
  obtain ⟨-, -, -, -, hroot, ⟨hpos, hlt⟩, -⟩ := hrt
  rw [← hR] at hm hroot hpos hlt
  rw [← hangle] at hroot hpos hlt
  have hc1 := hpos.mp h0
  have hc2 := hlt.mp hpi
  have hsq : n.dot n = 4 - (R.trace - 1) * (R.trace - 1) := by
    rw [hn]
    simp only [Vector.dot]
    exact hm.axis_norm_sq
  have hposn : 0 < n.dot n := by
    rw [hsq]
    simp only [Mat3.trace]
    nlinarith
  have hax : rotationAxis rt R angle = n / n.norm rt := by
    simp only [rotationAxis, gt_iff_lt, if_pos h0, if_pos hpi, hn]
  have hs : rt.SqrtAt (n.dot n) := by
    apply hroot
    simp only [rotationAxisRoot, gt_iff_lt, if_pos h0, if_pos hpi, hn]
  have hunit := (rotationAxis_spec rt hm (1 / 2 * (R.m00 + R.m11 + R.m22 - 1)) angle rfl
    hpos hlt hroot).1
  refine ⟨hsq, hposn, ⟨hs.pos hposn, hs.2⟩, hax, hunit, box, hbox, ?_⟩
  have h2 := hbox
  unfold ofVectors at h2
  split at h2
  · exact absurd h2 (by simp)
  · simp only [Option.some.injEq] at h2
    rw [← h2]
    simp only []
    rw [← hR, ← hangle, hax]

/-- C19, on the quarter turn about `z`: the axis is `(0, 0, 1)`. -/
theorem ofVectors_generic_axis_example :
    rotationAxis sampleRoutines (⟨0, -1, 0, 1, 0, 0, 0, 0, 1⟩ : Mat3 ℚ) (11 / 7) = ⟨0, 0, 1⟩ := by
  have em : edgeMatrix (⟨0, 2, 0⟩ : Vector ℚ) ⟨-3, 0, 0⟩ ⟨0, 0, 1⟩
      (Vector.norm sampleRoutines ⟨0, 2, 0⟩) (Vector.norm sampleRoutines ⟨-3, 0, 0⟩)
      (Vector.norm sampleRoutines ⟨0, 0, 1⟩) = ⟨0, -1, 0, 1, 0, 0, 0, 0, 1⟩ := by
    norm_num [edgeMatrix, Vector.norm, Vector.dot, sampleRoutines]
  obtain ⟨-, -, -, h4, -⟩ :=
    ofVectors_generic_axis sampleRoutines (axisAligned 1 1 1) ⟨0, 0, 0, 0⟩
      ⟨0, 2, 0⟩ ⟨-3, 0, 0⟩ ⟨0, 0, 1⟩
      (by norm_num [Vector.dot]) (by norm_num [Vector.dot]) (by norm_num [Vector.dot])
      (by simp) (by simp) (by simp) (by norm_num [Vector.triple])
      sampleRoutines_exact_quarter_turn
      ⟨0, -1, 0, 1, 0, 0, 0, 0, 1⟩ (11 / 7) ⟨0 - 0, 0 - 0, 1 - -1⟩ em.symm
      (by norm_num [sampleRoutines]) rfl (by norm_num) (by norm_num [sampleRoutines])
  rw [h4]
  norm_num [Vector.sdiv_eq, Vector.norm, Vector.dot, sampleRoutines]

/-- C20 (as amended). `Fill`, `InnerFill` and the single-output `FillBorder`
leave the box as it was except for the fourth component of the origin, which
they set to the fourth component of the centre: the coordinates of the
origin, the edge vectors, the lengths, the centre and the orientation are
unchanged, and a box whose origin already carries that value is unchanged
altogether. -/
theorem fill_writes_only_origin_mass [FloorRing K] :
    (∀ (c : Cube K) (points : List (Point K)) (dx : K) (fill_faces fill : Bool),
      (c.Fill points dx fill_faces fill).box = c.setOriginMass) ∧
    (∀ (c : Cube K) (points : List (Point K)) (dx : K),
      (c.InnerFill points dx).1 = c.setOriginMass) ∧
    (∀ (R : RectFiller K) (c : Cube K) (points : List (Point K)) (dx : K) (fill_top_face : Bool),
      (FillBorder R c points dx fill_top_face).1 = c.setOriginMass) ∧
    (∀ c : Cube K,
      (c.setOriginMass.m_origin.x = c.m_origin.x ∧ c.setOriginMass.m_origin.y = c.m_origin.y ∧
        c.setOriginMass.m_origin.z = c.m_origin.z ∧
        c.setOriginMass.m_origin.w = c.m_center.w) ∧
      (c.setOriginMass.m_vx = c.m_vx ∧ c.setOriginMass.m_vy = c.m_vy ∧
        c.setOriginMass.m_vz = c.m_vz) ∧
      (c.setOriginMass.m_lx = c.m_lx ∧ c.setOriginMass.m_ly = c.m_ly ∧
        c.setOriginMass.m_lz = c.m_lz) ∧
      c.setOriginMass.m_center = c.m_center ∧
      (c.setOriginMass.m_ep = c.m_ep ∧ c.setOriginMass.m_ODERot = c.m_ODERot) ∧
      (c.setOriginMass.m_mass = c.m_mass ∧ c.setOriginMass.m_inertia = c.m_inertia)) ∧
    (∀ c : Cube K, c.m_origin.w = c.m_center.w → c.setOriginMass = c) := by
  refine ⟨fun c points dx ff fill => rfl, fun c points dx => rfl,
    fun R c points dx top => FillBorder_box R c points dx top,
    fun c => ⟨⟨rfl, rfl, rfl, rfl⟩, ⟨rfl, rfl, rfl⟩, ⟨rfl, rfl, rfl⟩, rfl, ⟨rfl, rfl⟩, rfl, rfl⟩,
    ?_⟩
  intro c h
  obtain ⟨⟨ox, oy, oz, ow⟩, vx, vy, vz, lx, ly, lz, ce, ep, ro, ma, ine⟩ := c
  simp only [setOriginMass] at h ⊢
  rw [← h]

/-- C20, on a box whose origin already carries the fourth component of the
centre: `Fill` returns it as it was. -/
theorem fill_writes_only_origin_mass_example :
    ((axisAligned (2 : ℚ) 2 2).Fill [] 1 true true).box = axisAligned (2 : ℚ) 2 2 := by
  have h := (fill_writes_only_origin_mass (K := ℚ)).1 (axisAligned (2 : ℚ) 2 2) [] 1 true true
  rw [h]
  exact (fill_writes_only_origin_mass (K := ℚ)).2.2.2.2 _ rfl

/-- C20 fails as stated: on the box whose centre carries 5 in its fourth
component and whose origin carries 0, each of `Fill`, `InnerFill` and the
single-output `FillBorder` leaves a box whose origin carries 5. -/
theorem fill_changes_origin_counterexample :
    massBox.m_origin.w = 0 ∧
    (massBox.Fill [] 1 true true).box.m_origin.w = 5 ∧
    (massBox.Fill [] 1 true true).box ≠ massBox ∧
    (massBox.InnerFill [] 1).1.m_origin.w = 5 ∧
    (massBox.InnerFill [] 1).1 ≠ massBox ∧
    (FillBorder probeFiller massBox [] 1 true).1.m_origin.w = 5 ∧
    (FillBorder probeFiller massBox [] 1 true).1 ≠ massBox := by
  have e1 : (massBox.Fill [] 1 true true).box = massBox.setOriginMass := rfl
  have e2 : (massBox.InnerFill [] 1).1 = massBox.setOriginMass := rfl
  have e3 : (FillBorder probeFiller massBox [] 1 true).1 = massBox.setOriginMass :=
    FillBorder_box _ _ _ _ _
  have e4 : massBox.setOriginMass.m_origin.w = 5 := rfl
  have e5 : massBox.m_origin.w = 0 := rfl
  have e6 : massBox.setOriginMass ≠ massBox := by
    intro h
    have h2 : massBox.setOriginMass.m_origin.w = massBox.m_origin.w := by rw [h]
    rw [e4, e5] at h2
    norm_num at h2
  rw [e1, e2, e3]
  exact ⟨e5, e4, e6, e4, e6, e4, e6⟩

end Cube

namespace Buffers

/-- C21. For `FIRST_DEFINED_BUFFER` a single bit `2 ^ k` with `2 ^ (k + 26)`
representable in the flag word (`k + 26 < w`), the 27 buffer flags
`BUFFER_POS_GLOBAL .. BUFFER_PRIVATE` are the single bits `2 ^ k ..
2 ^ (k + 26)`, pairwise distinct and within the word, and
`ALL_DEFINED_BUFFERS` is the bitwise OR of the 27 flags: its bits `k ..
k + 26` are set and no other. -/
theorem ALL_DEFINED_BUFFERS_eq_or (w k : ℕ) (h : k + 26 < w) :
    bufferFlags w (2 ^ k) = (List.range 27).map (fun i => 2 ^ (k + i)) ∧
    (bufferFlags w (2 ^ k)).Nodup ∧
    (∀ x ∈ bufferFlags w (2 ^ k), x < 2 ^ w) ∧
    ALL_DEFINED_BUFFERS w (2 ^ k) = (bufferFlags w (2 ^ k)).foldl (· ||| ·) 0 ∧
    ∀ i, (ALL_DEFINED_BUFFERS w (2 ^ k)).testBit i = decide (k ≤ i ∧ i ≤ k + 26) := by
  have hflags : bufferFlags w (2 ^ k) = (List.range 27).map (fun i => 2 ^ (k + i)) := by
    rw [bufferFlags_eq_iterate]
    apply List.map_congr_left
    intro i hi
    rw [List.mem_range] at hi
    exact iterate_shl1_two_pow i (by omega)
  have hlast : LAST_DEFINED_BUFFER w (2 ^ k) = 2 ^ (k + 26) :=
    iterate_shl1_two_pow 26 h
  have hbits : ∀ i, (ALL_DEFINED_BUFFERS w (2 ^ k)).testBit i = decide (k ≤ i ∧ i ≤ k + 26) := by
    intro i
    rw [ALL_DEFINED_BUFFERS, hlast, sub1_two_pow (by omega), sub1_two_pow h]
    simp only [Nat.testBit_or, Nat.testBit_xor, Nat.testBit_two_pow_sub_one,
      Nat.testBit_two_pow]
    by_cases h1 : i < k
    · have h2 : i < k + 26 := by omega
      have h3 : ¬ k + 26 = i := by omega
      have h4 : ¬ (k ≤ i ∧ i ≤ k + 26) := by omega
      simp [h1, h2, h3, h4]
    · by_cases h2 : i < k + 26
      · have h4 : k ≤ i ∧ i ≤ k + 26 := by omega
        simp [h1, h2, h4]
      · by_cases h3 : k + 26 = i
        · have h4 : k ≤ i ∧ i ≤ k + 26 := by omega
          simp [h1, h2, h3, h4]
        · have h4 : ¬ (k ≤ i ∧ i ≤ k + 26) := by omega
          simp [h1, h2, h3, h4]
  refine ⟨hflags, ?_, ?_, ?_, hbits⟩
  · rw [hflags]
    apply List.Nodup.map_on _ (List.nodup_range 27)
    intro a _ b _ hab
    have := Nat.pow_right_injective (le_refl 2) hab
    omega
  · intro x hx
    rw [hflags, List.mem_map] at hx
    obtain ⟨i, hi, rfl⟩ := hx
    rw [List.mem_range] at hi
    exact Nat.pow_lt_pow_right (by norm_num) (by omega)
  · apply Nat.eq_of_testBit_eq
    intro i
    rw [hbits, hflags, testBit_foldl_lor, decide_eq_decide]
    constructor <;> intro h5 <;> omega

/-- C21, with the first flag at bit 2 of a 32-bit word. -/
theorem ALL_DEFINED_BUFFERS_eq_or_example :
    BUFFER_POS_GLOBAL 4 = 4 ∧ BUFFER_PRIVATE 32 4 = 268435456 ∧
    ALL_DEFINED_BUFFERS 32 4 = 536870908 ∧
    ALL_DEFINED_BUFFERS 32 (2 ^ 2) = (bufferFlags 32 (2 ^ 2)).foldl (· ||| ·) 0 :=
  ⟨rfl, by decide, by decide, (ALL_DEFINED_BUFFERS_eq_or 32 2 (by norm_num)).2.2.2.1⟩

end Buffers

namespace Cube

/-- C22 (what the code does). `ODEBodyCreate` creates the body, sets its
mass to that of a box of total mass `m_mass` with the sides `(lx + dx,
ly + dx, ly + dx)`, the third side being `ly + dx`, and places the body at
the centre with the orientation of the box; no other mass is set. On the box
with edges 1, 2, 3 and `dx = 1/10` the sides passed are `(11/10, 21/10,
21/10)`, where `lz + dx = 31/10` is what `SetInertia` and `Volume` use. -/
theorem ODEBodyCreate_mass_box :
    (∀ (c : Cube K) (dx : K) (ODESpace : Bool),
      ∃ rest : List (ODECall K), ODEBodyCreate c dx ODESpace
        = [ODECall.dBodyCreate, ODECall.dMassSetZero,
           ODECall.dMassSetBoxTotal c.m_mass (c.m_lx + dx) (c.m_ly + dx) (c.m_ly + dx),
           ODECall.dBodySetMass,
           ODECall.dBodySetPosition c.m_center.x c.m_center.y c.m_center.z,
           ODECall.dBodySetRotation c.m_ODERot] ++ rest ∧
        ∀ m a b d : K, ODECall.dMassSetBoxTotal m a b d ∉ rest) ∧
    ODEBodyCreate heavyBox (1 / 10) false
      = [ODECall.dBodyCreate, ODECall.dMassSetZero,
         ODECall.dMassSetBoxTotal 12 (11 / 10) (21 / 10) (21 / 10),
         ODECall.dBodySetMass,
         ODECall.dBodySetPosition (1 / 2) 1 (3 / 2),
         ODECall.dBodySetRotation Mat3.identity] ∧
    ODECall.dMassSetBoxTotal (12 : ℚ) (heavyBox.m_lx + 1 / 10) (heavyBox.m_ly + 1 / 10)
        (heavyBox.m_lz + 1 / 10) ∉ ODEBodyCreate heavyBox (1 / 10) false ∧
    heavyBox.m_lz + 1 / 10 = 31 / 10 ∧
    (heavyBox.SetInertia (1 / 10)).m_inertia
      = (12 / 12 * (21 / 10 * (21 / 10) + 31 / 10 * (31 / 10)),
         12 / 12 * (11 / 10 * (11 / 10) + 31 / 10 * (31 / 10)),
         12 / 12 * (11 / 10 * (11 / 10) + 21 / 10 * (21 / 10))) ∧
    heavyBox.Volume (1 / 10) = 11 / 10 * (21 / 10) * (31 / 10) := by
  refine ⟨?_, ?_, ?_, ?_, ?_, ?_⟩
  · intro c dx ODESpace
    refine ⟨_, rfl, ?_⟩
    intro m a b d
    cases ODESpace <;> simp [ODEGeomCreate]
  · norm_num [ODEBodyCreate, heavyBox, axisAligned]
  · simp only [ODEBodyCreate, heavyBox, axisAligned, Bool.false_eq_true, if_false,
      List.append_nil, List.mem_cons, List.mem_singleton, ODECall.dMassSetBoxTotal.injEq,
      reduceCtorEq, false_or, or_false, List.mem_nil_iff]
    norm_num
  · norm_num [heavyBox, axisAligned]
  · norm_num [SetInertia, heavyBox, axisAligned]
  · norm_num [Volume, heavyBox, axisAligned]

/-- C23 (as amended). For `0 < dx ≤ min(lx, ly, lz)` the lattice resolutions
`nx`, `ny`, `nz` of `Fill` and `InnerFill` are at least 1 and no division by
them is a division by zero: the runs with checked quotients (`FillChecked`,
`InnerFillChecked`) succeed and are the runs `Fill` and `InnerFill`. The
point of every node `Fill` visits is `origin + a*vx + b*vy + d*vz` with the
quotients `a = i/nx`, `b = j/ny`, `d = k/nz` in `[0, 1]`, and the point of
every cell `InnerFill` visits is the same combination with
`a = (i + 1/2)/nx`, `b = (j + 1/2)/ny`, `d = (k + 1/2)/nz` in `[0, 1]`. For
`dx > 0` and lengths above `-dx` of which one is below `dx`, `Fill` with
`fill_faces = true` visits the node `(0, 0, 0)` with a resolution that is
zero: it divides 0 by 0 and the checked run fails. Conversely, for `dx > 0`
the checked run with faces fails only then: with a length of `-dx` or less
no node is visited. -/
theorem lattice_divisions [FloorRing K] :
    (∀ (c : Cube K) (points : List (Point K)) (dx : K) (nx ny nz : ℤ),
      0 < dx → dx ≤ c.m_lx → dx ≤ c.m_ly → dx ≤ c.m_lz →
      nx = truncToInt (c.m_lx / dx) → ny = truncToInt (c.m_ly / dx) →
      nz = truncToInt (c.m_lz / dx) →
      (1 ≤ nx ∧ 1 ≤ ny ∧ 1 ≤ nz) ∧
      (∀ fill_faces fill : Bool,
        c.FillChecked points dx fill_faces fill = some (c.Fill points dx fill_faces fill)) ∧
      c.InnerFillChecked points dx = some (c.InnerFill points dx) ∧
      (∀ fill_faces fill : Bool, ∃ nodes : List (ℤ × ℤ × ℤ),
        (c.Fill points dx fill_faces fill).points
          = points ++ (if fill then
              nodes.map (fun t => fillPoint c.setOriginMass nx ny nz t.1 t.2.1 t.2.2)
            else []) ∧
        (c.Fill points dx fill_faces fill).nparts = (nodes.length : ℤ) ∧
        ∀ t ∈ nodes, ∃ a b d : K,
          (quotient (t.1 : K) (nx : K) = some a ∧ quotient (t.2.1 : K) (ny : K) = some b ∧
            quotient (t.2.2 : K) (nz : K) = some d) ∧
          ((0 ≤ a ∧ a ≤ 1) ∧ (0 ≤ b ∧ b ≤ 1) ∧ (0 ≤ d ∧ d ≤ 1)) ∧
          fillPointChecked c.setOriginMass nx ny nz t.1 t.2.1 t.2.2
            = some (fillPoint c.setOriginMass nx ny nz t.1 t.2.1 t.2.2) ∧
          fillPoint c.setOriginMass nx ny nz t.1 t.2.1 t.2.2
            = c.setOriginMass.m_origin + a * c.m_vx + b * c.m_vy + d * c.m_vz) ∧
      (∃ cells : List (ℤ × ℤ × ℤ),
        (c.InnerFill points dx).2
          = points ++ cells.map (fun t =>
              innerPoint c.setOriginMass nx ny nz t.1 t.2.1 t.2.2) ∧
        ∀ t ∈ cells, ∃ a b d : K,
          (quotient ((t.1 : K) + 1 / 2) (nx : K) = some a ∧
            quotient ((t.2.1 : K) + 1 / 2) (ny : K) = some b ∧
            quotient ((t.2.2 : K) + 1 / 2) (nz : K) = some d) ∧
          ((0 ≤ a ∧ a ≤ 1) ∧ (0 ≤ b ∧ b ≤ 1) ∧ (0 ≤ d ∧ d ≤ 1)) ∧
          innerPointChecked c.setOriginMass nx ny nz t.1 t.2.1 t.2.2
            = some (innerPoint c.setOriginMass nx ny nz t.1 t.2.1 t.2.2) ∧
          innerPoint c.setOriginMass nx ny nz t.1 t.2.1 t.2.2
            = c.setOriginMass.m_origin + a * c.m_vx + b * c.m_vy + d * c.m_vz)) ∧
    (∀ (c : Cube K) (points : List (Point K)) (dx : K) (fill : Bool) (nx ny nz : ℤ),
      0 < dx → -dx < c.m_lx → -dx < c.m_ly → -dx < c.m_lz →
      (c.m_lx < dx ∨ c.m_ly < dx ∨ c.m_lz < dx) →
      nx = truncToInt (c.m_lx / dx) → ny = truncToInt (c.m_ly / dx) →
      nz = truncToInt (c.m_lz / dx) →
      c.FillChecked points dx true fill = none ∧
      ∃ nodes : List (ℤ × ℤ × ℤ),
        (c.Fill points dx true fill).nparts = (nodes.length : ℤ) ∧
        (0, 0, 0) ∈ nodes ∧
        fillPointChecked c.setOriginMass nx ny nz 0 0 0 = none ∧
        ((nx = 0 ∧ quotient (((0 : ℤ) : K)) (nx : K) = none) ∨
          (ny = 0 ∧ quotient (((0 : ℤ) : K)) (ny : K) = none) ∨
          (nz = 0 ∧ quotient (((0 : ℤ) : K)) (nz : K) = none))) ∧
    (∀ (c : Cube K) (points : List (Point K)) (dx : K) (fill : Bool),
      0 < dx → c.FillChecked points dx true fill = none →
      (-dx < c.m_lx ∧ -dx < c.m_ly ∧ -dx < c.m_lz) ∧
        (c.m_lx < dx ∨ c.m_ly < dx ∨ c.m_lz < dx)) := by
  have cast_ne : ∀ n : ℤ, 1 ≤ n → (n : K) ≠ 0 := by
    intro n hn
    have : (n : ℤ) ≠ 0 := by omega
    exact_mod_cast this
  refine ⟨?_, ?_, ?_⟩
  · intro c points dx nx ny nz hdx hx hy hz enx eny enz
    have h1x : 1 ≤ nx := enx ▸ one_le_truncToInt_div hdx hx
    have h1y : 1 ≤ ny := eny ▸ one_le_truncToInt_div hdx hy
    have h1z : 1 ≤ nz := enz ▸ one_le_truncToInt_div hdx hz
    have nex := cast_ne nx h1x
    have ney := cast_ne ny h1y
    have nez := cast_ne nz h1z
    refine ⟨⟨h1x, h1y, h1z⟩, ?_, ?_, ?_, ?_⟩
    · intro ff fill
      exact FillChecked_of_ne c points dx ff fill (enx ▸ nex) (eny ▸ ney) (enz ▸ nez)
    · exact InnerFillChecked_of_ne c points dx (enx ▸ nex) (eny ▸ ney) (enz ▸ nez)
    · intro ff fill
      refine ⟨lexNodes (loopLE (if ff then 0 else 1) (if ff then nx else nx - 1))
        (loopLE (if ff then 0 else 1) (if ff then ny else ny - 1))
        (loopLE (if ff then 0 else 1) (if ff then nz else nz - 1)), ?_, ?_, ?_⟩
      · rw [Fill_eq, enx, eny, enz]
      · rw [Fill_eq, enx, eny, enz, length_lexNodes]
        push_cast
        ring
      · intro t ht
        rw [mem_lexNodes, mem_loopLE, mem_loopLE, mem_loopLE] at ht
        obtain ⟨⟨a1, a2⟩, ⟨b1, b2⟩, ⟨c1, c2⟩⟩ := ht
        have hb : (0 ≤ t.1 ∧ t.1 ≤ nx) ∧ (0 ≤ t.2.1 ∧ t.2.1 ≤ ny) ∧ (0 ≤ t.2.2 ∧ t.2.2 ≤ nz) := by
          cases ff
          · simp only [Bool.false_eq_true, if_false] at a1 a2 b1 b2 c1 c2
            exact ⟨⟨by omega, by omega⟩, ⟨by omega, by omega⟩, ⟨by omega, by omega⟩⟩
          · simp only [if_true] at a1 a2 b1 b2 c1 c2
            exact ⟨⟨a1, a2⟩, ⟨b1, b2⟩, ⟨c1, c2⟩⟩
        exact ⟨_, _, _, ⟨quotient_of_ne nex, quotient_of_ne ney, quotient_of_ne nez⟩,
          ⟨coefficient_bounds h1x hb.1.1 hb.1.2, coefficient_bounds h1y hb.2.1.1 hb.2.1.2,
            coefficient_bounds h1z hb.2.2.1 hb.2.2.2⟩,
          fillPointChecked_of_ne _ _ _ _ nex ney nez, rfl⟩
    · refine ⟨lexNodes (loopLT 0 nx) (loopLT 0 ny) (loopLT 0 nz), ?_, ?_⟩
      · rw [InnerFill_eq, enx, eny, enz]
      · intro t ht
        rw [mem_lexNodes, mem_loopLT, mem_loopLT, mem_loopLT] at ht
        obtain ⟨⟨a1, a2⟩, ⟨b1, b2⟩, ⟨c1, c2⟩⟩ := ht
        exact ⟨_, _, _, ⟨quotient_of_ne nex, quotient_of_ne ney, quotient_of_ne nez⟩,
          ⟨half_coefficient_bounds a1 a2, half_coefficient_bounds b1 b2,
            half_coefficient_bounds c1 c2⟩,
          innerPointChecked_of_ne _ _ _ _ nex ney nez, innerPoint_eq_coefficients _ _ _ _ _ _ _⟩
  · intro c points dx fill nx ny nz hdx hx hy hz hlt enx eny enz
    have q1 : ∀ l : K, -dx < l → -1 < l / dx := by
      intro l hl
      rw [lt_div_iff₀ hdx]
      linarith
    have q2 : ∀ l : K, l < dx → l / dx < 1 := fun l hl => (div_lt_one hdx).mpr hl
    have h0x : 0 ≤ truncToInt (c.m_lx / dx) := truncToInt_nonneg_of_neg_one_lt (q1 _ hx)
    have h0y : 0 ≤ truncToInt (c.m_ly / dx) := truncToInt_nonneg_of_neg_one_lt (q1 _ hy)
    have h0z : 0 ≤ truncToInt (c.m_lz / dx) := truncToInt_nonneg_of_neg_one_lt (q1 _ hz)
    have hz0 : truncToInt (c.m_lx / dx) = 0 ∨ truncToInt (c.m_ly / dx) = 0
        ∨ truncToInt (c.m_lz / dx) = 0 := by
      rcases hlt with h | h | h
      · exact Or.inl (truncToInt_eq_zero_of_abs_lt_one (q1 _ hx) (q2 _ h))
      · exact Or.inr (Or.inl (truncToInt_eq_zero_of_abs_lt_one (q1 _ hy) (q2 _ h)))
      · exact Or.inr (Or.inr (truncToInt_eq_zero_of_abs_lt_one (q1 _ hz) (q2 _ h)))
    have hn0 : nx = 0 ∨ ny = 0 ∨ nz = 0 := by
      rw [enx, eny, enz]
      exact hz0
    refine ⟨FillChecked_eq_none c points dx fill h0x h0y h0z hz0,
      lexNodes (loopLE 0 nx) (loopLE 0 ny) (loopLE 0 nz), ?_, ?_,
      fillPointChecked_eq_none _ _ _ _ hn0, ?_⟩
    · rw [Fill_eq, enx, eny, enz, length_lexNodes]
      simp only [if_true]
      push_cast
      ring
    · rw [mem_lexNodes, mem_loopLE, mem_loopLE, mem_loopLE, enx, eny, enz]
      exact ⟨⟨le_refl _, h0x⟩, ⟨le_refl _, h0y⟩, ⟨le_refl _, h0z⟩⟩
    · rcases hn0 with h | h | h
      · exact Or.inl ⟨h, by rw [h, Int.cast_zero]; exact quotient_zero _⟩
      · exact Or.inr (Or.inl ⟨h, by rw [h, Int.cast_zero]; exact quotient_zero _⟩)
      · exact Or.inr (Or.inr ⟨h, by rw [h, Int.cast_zero]; exact quotient_zero _⟩)
  · intro c points dx fill hdx hnone
    have q3 : ∀ l : K, l ≤ -dx → l / dx ≤ -1 := by
      intro l hl
      rw [div_le_iff₀ hdx]
      linarith
    have neg : ∀ l : K, ¬ -dx < l → truncToInt (l / dx) < 0 := fun l hl =>
      truncToInt_neg_of_le_neg_one (q3 l (not_lt.mp hl))
    constructor
    · by_contra hcon
      have hneg : truncToInt (c.m_lx / dx) < 0 ∨ truncToInt (c.m_ly / dx) < 0
          ∨ truncToInt (c.m_lz / dx) < 0 := by
        by_cases h1 : -dx < c.m_lx
        · by_cases h2 : -dx < c.m_ly
          · by_cases h3 : -dx < c.m_lz
            · exact absurd ⟨h1, h2, h3⟩ hcon
            · exact Or.inr (Or.inr (neg _ h3))
          · exact Or.inr (Or.inl (neg _ h2))
        · exact Or.inl (neg _ h1)
      rw [FillChecked_of_neg c points dx fill hneg] at hnone
      exact Option.noConfusion hnone
    · by_contra hcon
      push_neg at hcon
      have h1x := one_le_truncToInt_div hdx hcon.1
      have h1y := one_le_truncToInt_div hdx hcon.2.1
      have h1z := one_le_truncToInt_div hdx hcon.2.2
      rw [FillChecked_of_ne c points dx true fill (cast_ne _ h1x) (cast_ne _ h1y)
        (cast_ne _ h1z)] at hnone
      exact Option.noConfusion hnone

/-- C23, on the box with edges 2, 2, 2 at spacing 1, where every quotient of
`Fill` and `InnerFill` is a number, and on the box with edges 1/2, 2, 2 at
spacing 1, where `nx = 0` and the quotients at the node `(0, 0, 0)` include
`0/0`. -/
theorem lattice_divisions_example :
    ((axisAligned (2 : ℚ) 2 2).FillChecked [] 1 true true
        = some ((axisAligned (2 : ℚ) 2 2).Fill [] 1 true true) ∧
      (axisAligned (2 : ℚ) 2 2).InnerFillChecked [] 1
        = some ((axisAligned (2 : ℚ) 2 2).InnerFill [] 1)) ∧
    ((axisAligned (1 / 2 : ℚ) 2 2).FillChecked [] 1 true true = none ∧
      fillPointChecked (axisAligned (1 / 2 : ℚ) 2 2).setOriginMass 0 2 2 0 0 0 = none) := by
  have e : (2 : ℤ) = truncToInt ((axisAligned (2 : ℚ) 2 2).m_lx / 1)
      ∧ (2 : ℤ) = truncToInt ((axisAligned (2 : ℚ) 2 2).m_ly / 1)
      ∧ (2 : ℤ) = truncToInt ((axisAligned (2 : ℚ) 2 2).m_lz / 1) := by
    norm_num [axisAligned, truncToInt]
  have f : (0 : ℤ) = truncToInt ((axisAligned (1 / 2 : ℚ) 2 2).m_lx / 1)
      ∧ (2 : ℤ) = truncToInt ((axisAligned (1 / 2 : ℚ) 2 2).m_ly / 1)
      ∧ (2 : ℤ) = truncToInt ((axisAligned (1 / 2 : ℚ) 2 2).m_lz / 1) := by
    norm_num [axisAligned, truncToInt]
  have h1 := (lattice_divisions (K := ℚ)).1 (axisAligned 2 2 2) [] 1 2 2 2 (by norm_num)
    (by norm_num [axisAligned]) (by norm_num [axisAligned]) (by norm_num [axisAligned])
    e.1 e.2.1 e.2.2
  have h2 := (lattice_divisions (K := ℚ)).2.1 (axisAligned (1 / 2) 2 2) [] 1 true 0 2 2
    (by norm_num) (by norm_num [axisAligned]) (by norm_num [axisAligned])
    (by norm_num [axisAligned]) (Or.inl (by norm_num [axisAligned])) f.1 f.2.1 f.2.2
  obtain ⟨h3, nodes, -, -, h4, -⟩ := h2
  exact ⟨⟨h1.2.1 true true, h1.2.2.1⟩, h3, h4⟩

/-- C23 fails as stated: the box the quaternion constructor builds with the
lengths `(-5, 1, 1)` has a length below `dx = 1`, yet `nx = -5` and
`ny = nz = 1`, no resolution is zero, the loop `for (i = 0; i <= -5; i++)`
never runs, and `Fill` with `fill_faces = true` counts 0 particles and
divides nothing. -/
theorem lattice_divisions_negative_length_counterexample :
    (0 : ℚ) < 1 ∧
    (ofQuaternion sampleRoutines (axisAligned 1 1 1) ⟨0, 0, 0, 0⟩ (-5) 1 1 (1, 0, 0, 0)).m_lx
      < (1 : ℚ) ∧
    (truncToInt ((ofQuaternion sampleRoutines (axisAligned 1 1 1) ⟨0, 0, 0, 0⟩ (-5) 1 1
        (1, 0, 0, 0)).m_lx / (1 : ℚ)) = -5 ∧
      truncToInt ((ofQuaternion sampleRoutines (axisAligned 1 1 1) ⟨0, 0, 0, 0⟩ (-5) 1 1
        (1, 0, 0, 0)).m_ly / (1 : ℚ)) = 1 ∧
      truncToInt ((ofQuaternion sampleRoutines (axisAligned 1 1 1) ⟨0, 0, 0, 0⟩ (-5) 1 1
        (1, 0, 0, 0)).m_lz / (1 : ℚ)) = 1) ∧
    loopLE 0 (-5) = [] ∧
    ((ofQuaternion sampleRoutines (axisAligned 1 1 1) ⟨0, 0, 0, 0⟩ (-5) 1 1
        (1, 0, 0, 0)).Fill [] (1 : ℚ) true true).nparts = 0 ∧
    (ofQuaternion sampleRoutines (axisAligned 1 1 1) ⟨0, 0, 0, 0⟩ (-5) 1 1
        (1, 0, 0, 0)).FillChecked [] (1 : ℚ) true true
      = some ((ofQuaternion sampleRoutines (axisAligned 1 1 1) ⟨0, 0, 0, 0⟩ (-5) 1 1
        (1, 0, 0, 0)).Fill [] (1 : ℚ) true true) ∧
    (ofQuaternion sampleRoutines (axisAligned 1 1 1) ⟨0, 0, 0, 0⟩ (-5) 1 1
        (1, 0, 0, 0)).FillChecked [] (1 : ℚ) true true ≠ none := by
  have et : truncToInt ((ofQuaternion sampleRoutines (axisAligned 1 1 1) ⟨0, 0, 0, 0⟩ (-5) 1 1
        (1, 0, 0, 0)).m_lx / (1 : ℚ)) = -5 ∧
      truncToInt ((ofQuaternion sampleRoutines (axisAligned 1 1 1) ⟨0, 0, 0, 0⟩ (-5) 1 1
        (1, 0, 0, 0)).m_ly / (1 : ℚ)) = 1 ∧
      truncToInt ((ofQuaternion sampleRoutines (axisAligned 1 1 1) ⟨0, 0, 0, 0⟩ (-5) 1 1
        (1, 0, 0, 0)).m_lz / (1 : ℚ)) = 1 := by
    have h5 : ⌈(-5 : ℚ)⌉ = -5 := Int.ceil_eq_iff.mpr ⟨by norm_num, by norm_num⟩
    norm_num [ofQuaternion, truncToInt, h5]
  have hl : loopLE 0 (-5) = [] := by decide
  have hn : ((ofQuaternion sampleRoutines (axisAligned 1 1 1) ⟨0, 0, 0, 0⟩ (-5) 1 1
        (1, 0, 0, 0)).Fill [] (1 : ℚ) true true).nparts = 0 := by
    rw [Fill_eq, et.1, et.2.1, et.2.2]
    simp only [if_true, hl]
    rfl
  have hc : (ofQuaternion sampleRoutines (axisAligned 1 1 1) ⟨0, 0, 0, 0⟩ (-5) 1 1
        (1, 0, 0, 0)).FillChecked [] (1 : ℚ) true true
      = some ((ofQuaternion sampleRoutines (axisAligned 1 1 1) ⟨0, 0, 0, 0⟩ (-5) 1 1
        (1, 0, 0, 0)).Fill [] (1 : ℚ) true true) :=
    FillChecked_of_ne _ _ _ _ _ (by rw [et.1]; norm_num) (by rw [et.2.1]; norm_num)
      (by rw [et.2.2]; norm_num)
  refine ⟨by norm_num, by norm_num [ofQuaternion], et, hl, hn, hc, ?_⟩
  rw [hc]
  exact Option.noConfusion

end Cube

end GPUSPH
